import Mathlib

/-!
# matrix-packets: capture pipeline and stream engine

A shallow embedding of the packet capture side of `matrix-packets` (capture.c / capture.h):
the event queue (`ring_buffer_init`, `ring_buffer_push`, `ring_buffer_pop`),
the encrypted-port classifier, the formatter `format_packet_info` and the
pcap callback `packet_handler`; and of the stream engine (streams.c / streams.h):
`column_is_spaced`, `find_free_column`, `assign_packet_to_stream`, `init_streams`,
`resize_streams`, `update_streams` and `streams_have_content`.

Conventions.
* A frame is a `List Nat`; a byte read is `rd`, which returns `none` past the
  end of the frame and reduces the cell modulo 256 (`u_char`).
* C `int` indices of the ring buffer are `Int`, and `%` on them is `Int.tmod`
  (C truncating remainder).
* `char text[MAX_INFO_LEN]` and `int colors[MAX_INFO_LEN]` are lists that are
  written with `List.set`; the local `packet_t` objects of `packet_handler`
  are not initialised in C, so their initial value is a parameter.
* The globals of streams.c are the record `stream_globals`, passed explicitly. A finite
  `float` is the rational number it denotes, and every operation that produces a `float`
  rounds its exact result with a parameter `fl`; the results hold for every `fl`, and
  `float_round` is the rounding of binary32.
  The draws of `rand()` are a parameter `rand : Nat → Nat`, indexed by the number of calls
  made so far. A function that may call `exit(1)` returns an `Option`.
-/

namespace MatrixPackets

/-! ## capture.h -/

def MAX_PACKET_SIZE : Nat := 1500
def RING_BUFFER_SIZE : Nat := 2048
def MIN_PACKET_DISPLAY : Nat := 20
def MAX_LOCAL_IPS : Nat := 8
def MAX_INFO_LEN : Nat := 256

def ZONE_ENCRYPTED_META : Nat := 0
def ZONE_ENCRYPTED_HEX : Nat := 1
def ZONE_CLEARTEXT : Nat := 2

def COLOR_INBOUND : Nat := 9
def COLOR_OUTBOUND : Nat := 10

/-- The record `packet_t` of capture.h: a formatted display event. -/
structure packet_t where
  text : List Char
  colors : List Nat
  length : Nat
  is_encrypted : Nat
  is_inbound : Nat
  column_zone : Nat
deriving DecidableEq, Repr

/-- A `packet_t` whose bytes are all zero (what `memset(rb, 0, ...)` leaves in
every slot of the ring buffer). -/
def packet_t.zero : packet_t :=
  { text := List.replicate MAX_INFO_LEN (Char.ofNat 0)
    colors := List.replicate MAX_INFO_LEN 0
    length := 0
    is_encrypted := 0
    is_inbound := 0
    column_zone := 0 }

/-- The arrays of a `packet_t` have their declared size `MAX_INFO_LEN`. -/
def packet_t.sized (p : packet_t) : Prop :=
  p.text.length = MAX_INFO_LEN ∧ p.colors.length = MAX_INFO_LEN

/-- The record `ring_buffer_t` of capture.h, without its mutex. `packets` has
`RING_BUFFER_SIZE` slots; `head`, `tail` and `count` are C `int`s. -/
structure ring_buffer_t where
  packets : List packet_t
  head : Int
  tail : Int
  count : Int
deriving DecidableEq, Repr

/-- IPv4 address `struct in_addr`; `s_addr` is held as the value of its four
octets read in network order (first octet most significant). -/
structure in_addr where
  s_addr : Nat
deriving DecidableEq, Repr

/-! ## capture.c: encrypted ports -/

/-- Source: `is_encrypted_port` (capture.c:33-50). -/
def is_encrypted_port (port : Nat) : Nat :=
  if port = 443 then 1
  else if port = 22 then 1
  else if port = 993 then 1
  else if port = 995 then 1
  else if port = 465 then 1
  else if port = 587 then 1
  else if port = 853 then 1
  else if port = 636 then 1
  else if port = 989 then 1
  else if port = 990 then 1
  else if port = 8443 then 1
  else 0

/-- Source: `is_encrypted_traffic` (capture.c:52-54); C `||` yields 0 or 1. -/
def is_encrypted_traffic (src_port dst_port : Nat) : Nat :=
  if is_encrypted_port src_port ≠ 0 ∨ is_encrypted_port dst_port ≠ 0 then 1 else 0

/-! ## capture.c: ring buffer -/

/-- Source: `ring_buffer_init` (capture.c:57-60): `memset` to zero. The
capacity `C` stands for `RING_BUFFER_SIZE`. -/
def ring_buffer_init (C : Nat) : ring_buffer_t :=
  { packets := List.replicate C packet_t.zero, head := 0, tail := 0, count := 0 }

/-- Source: `ring_buffer_push` (capture.c:63-77). Returns the new buffer and
the return code. -/
def ring_buffer_push (C : Nat) (rb : ring_buffer_t) (pkt : packet_t) : ring_buffer_t × Int :=
  let rb1 : ring_buffer_t :=
    if rb.count ≥ (C : Int) then
      { rb with tail := (rb.tail + 1).tmod (C : Int), count := rb.count - 1 }
    else rb
  let rb2 : ring_buffer_t := { rb1 with packets := rb1.packets.set rb1.head.toNat pkt }
  let rb3 : ring_buffer_t := { rb2 with head := (rb2.head + 1).tmod (C : Int) }
  ({ rb3 with count := rb3.count + 1 }, 0)

/-- Source: `ring_buffer_pop` (capture.c:80-94). `pkt` is the caller's
out-parameter; the result is the new buffer, the out-parameter after the call
and the return code. -/
def ring_buffer_pop (C : Nat) (rb : ring_buffer_t) (pkt : packet_t) :
    ring_buffer_t × packet_t × Int :=
  if rb.count = 0 then (rb, pkt, -1)
  else
    let out := rb.packets.getD rb.tail.toNat pkt
    let rb1 : ring_buffer_t := { rb with tail := (rb.tail + 1).tmod (C : Int) }
    ({ rb1 with count := rb1.count - 1 }, out, 0)

/-! ## capture.c: libc helpers used by the formatter -/

/-- The text `snprintf(buf, 8, "%u", port)` produces: the decimal digits. -/
def fmt_u (n : Nat) : List Char := Nat.toDigits 10 n

/-- The text `inet_ntop(AF_INET, &a, buf, INET_ADDRSTRLEN)` produces: the four
octets in network order, in decimal, separated by dots. -/
def inet_ntop (a : in_addr) : List Char :=
  fmt_u (a.s_addr / 16777216 % 256) ++ '.' :: fmt_u (a.s_addr / 65536 % 256) ++
    '.' :: fmt_u (a.s_addr / 256 % 256) ++ '.' :: fmt_u (a.s_addr % 256)

/-! ## capture.c: local addresses -/

/-- The loop of `is_local_ip` (capture.c:374-378) from index `i`, with `k`
iterations left. -/
def is_local_ip_loop (local_ips : List in_addr) (addr : in_addr) : Nat → Nat → Nat
  | 0, _ => 0
  | k + 1, i => if local_ips[i]? = some addr then 1 else is_local_ip_loop local_ips addr k (i + 1)

/-- Source: `is_local_ip` (capture.c:373-380). -/
def is_local_ip (local_ips : List in_addr) (local_ip_count : Int) (addr : in_addr) : Nat :=
  is_local_ip_loop local_ips addr local_ip_count.toNat 0

/-! ## capture.c: format_packet_info -/

/-- One store of the formatter: `text[pos] = c; colors[pos] = color; pos++`. -/
def put_char (color : Nat) (c : Char) (st : packet_t × Nat) : packet_t × Nat :=
  ({ st.1 with text := st.1.text.set st.2 c, colors := st.1.colors.set st.2 color }, st.2 + 1)

/-- The guarded single store `if (pos < MAX_INFO_LEN - 1) { ... }`. -/
def put_guarded (color : Nat) (c : Char) (st : packet_t × Nat) : packet_t × Nat :=
  if st.2 < MAX_INFO_LEN - 1 then put_char color c st else st

/-- The copy loop `for (i = 0; i < len && pos < MAX_INFO_LEN - 1; i++)` that
appends the characters of a C string. -/
def put_str (color : Nat) : List Char → packet_t × Nat → packet_t × Nat
  | [], st => st
  | c :: cs, st => if st.2 < MAX_INFO_LEN - 1 then put_str color cs (put_char color c st) else st

/-- The `switch (protocol)` of capture.c:112-117. -/
def proto_str (protocol : Int) : List Char :=
  if protocol = 6 then ['T', 'C', 'P']
  else if protocol = 17 then ['U', 'D', 'P']
  else if protocol = 1 then ['I', 'C', 'M', 'P']
  else ['I', 'P']

/-- Source: `format_packet_info` (capture.c:97-196). `ip_src` and `ip_dst`
are the two address fields the function reads through `ip_hdr`;
`local_ips`/`local_ip_count` are the globals `is_local_ip` reads. -/
def format_packet_info (local_ips : List in_addr) (local_ip_count : Int) (pkt : packet_t)
    (ip_src ip_dst : in_addr) (protocol : Int) (src_port dst_port : Nat) : packet_t :=
  let src_ip := inet_ntop ip_src
  let dst_ip := inet_ntop ip_dst
  let is_inbound := is_local_ip local_ips local_ip_count ip_dst
  let pkt : packet_t := { pkt with is_inbound := is_inbound }
  let stream_color := if is_inbound ≠ 0 then COLOR_INBOUND else COLOR_OUTBOUND
  let st := put_str stream_color (proto_str protocol) (pkt, 0)
  let st := put_guarded stream_color ' ' st
  let st := put_str stream_color src_ip st
  let st := if src_port > 0 then put_str stream_color (fmt_u src_port) (put_guarded stream_color ':' st)
    else st
  let st := put_str stream_color [' ', '>', ' '] st
  let st := put_str stream_color dst_ip st
  let st := if dst_port > 0 then put_str stream_color (fmt_u dst_port) (put_guarded stream_color ':' st)
    else st
  let pkt : packet_t := { st.1 with is_encrypted := is_encrypted_traffic src_port dst_port }
  let pkt : packet_t :=
    { pkt with column_zone := if pkt.is_encrypted ≠ 0 then ZONE_ENCRYPTED_META else ZONE_CLEARTEXT }
  { pkt with text := pkt.text.set st.2 (Char.ofNat 0), length := st.2 }

/-! ## capture.c: packet_handler -/

def ETHER_HDR_LEN : Nat := 14
def ETHERTYPE_IP : Nat := 2048
def IPPROTO_ICMP : Nat := 1
def IPPROTO_TCP : Nat := 6
def IPPROTO_UDP : Nat := 17

/-- Read of one `u_char` of the frame: `none` past the captured bytes. -/
def rd (packet : List Nat) (i : Nat) : Option Nat :=
  (packet[i]?).map (fun b => b % 256)

/-- Read of a 16-bit field followed by `ntohs`. -/
def rd16 (packet : List Nat) (i : Nat) : Option Nat :=
  (rd packet i).bind fun hi => (rd packet (i + 1)).bind fun lo => some (hi * 256 + lo)

/-- Read of a `struct in_addr` field (four octets, network order). -/
def rd_addr (packet : List Nat) (i : Nat) : Option in_addr :=
  (rd packet i).bind fun b0 => (rd packet (i + 1)).bind fun b1 =>
  (rd packet (i + 2)).bind fun b2 => (rd packet (i + 3)).bind fun b3 =>
    some ⟨((b0 * 256 + b1) * 256 + b2) * 256 + b3⟩

/-- The conversion `(int)header->caplen` of a 32-bit unsigned value. -/
def to_int (n : Nat) : Int :=
  if n % 4294967296 < 2147483648 then ((n % 4294967296 : Nat) : Int)
  else ((n % 4294967296 : Nat) : Int) - 4294967296

/-- The locals of `packet_handler` once the headers are parsed (capture.c:246).
`payload` is `none` for `NULL`, otherwise the offset of the payload in the
frame. -/
structure parsed_headers where
  ip_header_len : Nat
  protocol : Nat
  src_port : Nat
  dst_port : Nat
  transport_header_len : Nat
  payload : Option Nat
  payload_len : Nat
deriving DecidableEq, Repr

/-- The transport branch of `packet_handler` (capture.c:219-237): source port,
destination port and `transport_header_len`. -/
def parse_transport (packet : List Nat) (ip_header_len protocol : Nat) :
    Option (Nat × Nat × Nat) :=
  let caplen := packet.length
  let tp := ETHER_HDR_LEN + ip_header_len
  if protocol = IPPROTO_TCP then
    if caplen ≥ tp + 20 then
      (rd16 packet tp).bind fun src_port =>
      (rd16 packet (tp + 2)).bind fun dst_port =>
      (rd packet (tp + 12)).bind fun off =>
        let transport_header_len := off / 16 % 16 * 4
        some (src_port, dst_port, if transport_header_len < 20 then 20 else transport_header_len)
    else some (0, 0, 0)
  else if protocol = IPPROTO_UDP then
    if caplen ≥ tp + 8 then
      (rd16 packet tp).bind fun src_port =>
      (rd16 packet (tp + 2)).bind fun dst_port =>
        some (src_port, dst_port, 8)
    else some (0, 0, 0)
  else some (0, 0, 0)

/-- The header checks and field reads of `packet_handler` (capture.c:204-245).
The outer `none` is a read past the frame, the inner `none` is an early
`return` (the frame is rejected). -/
def packet_handler_parse (packet : List Nat) : Option (Option parsed_headers) :=
  let caplen := packet.length
  if caplen < ETHER_HDR_LEN then some none
  else (rd16 packet 12).bind fun ether_type =>
  if ether_type ≠ ETHERTYPE_IP then some none
  else if caplen < ETHER_HDR_LEN + 20 then some none
  else (rd packet ETHER_HDR_LEN).bind fun vhl =>
  let ip_header_len := vhl % 16 * 4
  if ip_header_len < 20 then some none
  else if caplen < ETHER_HDR_LEN + ip_header_len then some none
  else (rd packet (ETHER_HDR_LEN + 9)).bind fun protocol =>
  (parse_transport packet ip_header_len protocol).bind fun tr =>
  let headers_len := ETHER_HDR_LEN + ip_header_len + tr.2.2
  if tr.2.2 > 0 ∧ to_int caplen > (headers_len : Int) then
    some (some
      { ip_header_len := ip_header_len, protocol := protocol, src_port := tr.1,
        dst_port := tr.2.1, transport_header_len := tr.2.2,
        payload := some headers_len,
        payload_len := (to_int caplen - (headers_len : Int)).toNat })
  else
    some (some
      { ip_header_len := ip_header_len, protocol := protocol, src_port := tr.1,
        dst_port := tr.2.1, transport_header_len := tr.2.2,
        payload := none, payload_len := 0 })

/-- The table `hexchars` of capture.c:266. -/
def hexchars : List Char := "0123456789abcdef".data

/-- The hex loop of capture.c:270-284 at index `i` with `k = payload_len - i`
iterations of the counter left; `payload` is the offset of the payload. -/
def hex_loop (packet : List Nat) (payload hex_color max_pos : Nat) :
    Nat → Nat → packet_t × Nat → Option (packet_t × Nat)
  | 0, _, st => some st
  | k + 1, i, st =>
    if st.2 < max_pos then
      let st1 := if i > 0 ∧ st.2 < max_pos then put_char hex_color ' ' st else st
      if st1.2 + 1 < max_pos then
        (rd packet (payload + i)).bind fun b =>
          hex_loop packet payload hex_color max_pos k (i + 1)
            (put_char hex_color (hexchars.getD (b % 16) ' ')
              (put_char hex_color (hexchars.getD (b / 16 % 16) ' ') st1))
      else hex_loop packet payload hex_color max_pos k (i + 1) st1
    else some st

/-- The block of capture.c:260-287 that fills `hex_pkt`. -/
def hex_event (hex_pkt : packet_t) (is_inbound : Nat) (packet : List Nat)
    (payload payload_len : Nat) : Option packet_t :=
  let hex_pkt : packet_t :=
    { hex_pkt with is_encrypted := 1, is_inbound := is_inbound, column_zone := ZONE_ENCRYPTED_HEX }
  let max_pos := MAX_INFO_LEN - 2
  let hex_color := if is_inbound ≠ 0 then COLOR_INBOUND else COLOR_OUTBOUND
  (hex_loop packet payload hex_color max_pos payload_len 0 (hex_pkt, 0)).map fun st =>
    { st.1 with text := st.1.text.set st.2 (Char.ofNat 0), length := st.2 }

/-- The globals of capture.c that `packet_handler` touches. -/
structure capture_globals where
  ring_buffer : ring_buffer_t
  packets_captured : Nat
  local_ips : List in_addr
  local_ip_count : Int
deriving DecidableEq, Repr

/-- Source: `packet_handler` (capture.c:199-293). `pkt` and `hex_pkt` are the
initial (indeterminate) values of the two local `packet_t` objects; the result
is `none` when a read falls outside the frame. -/
def packet_handler (g : capture_globals) (pkt hex_pkt : packet_t) (packet : List Nat) :
    Option capture_globals :=
  let g : capture_globals :=
    { g with packets_captured := (g.packets_captured + 1) % 18446744073709551616 }
  (packet_handler_parse packet).bind fun r =>
  match r with
  | none => some g
  | some h =>
    (rd_addr packet (ETHER_HDR_LEN + 12)).bind fun ip_src =>
    (rd_addr packet (ETHER_HDR_LEN + 16)).bind fun ip_dst =>
    let pkt : packet_t :=
      { pkt with length := 0, is_encrypted := 0, is_inbound := 0, column_zone := 0 }
    let pkt := format_packet_info g.local_ips g.local_ip_count pkt ip_src ip_dst
      (h.protocol : Int) h.src_port h.dst_port
    let rb := if pkt.length > 0 then (ring_buffer_push RING_BUFFER_SIZE g.ring_buffer pkt).1
      else g.ring_buffer
    match h.payload with
    | some payload =>
      if pkt.is_encrypted ≠ 0 ∧ h.payload_len ≥ MIN_PACKET_DISPLAY then
        (hex_event hex_pkt pkt.is_inbound packet payload h.payload_len).bind fun hex =>
          some { g with ring_buffer :=
            if hex.length > 0 then (ring_buffer_push RING_BUFFER_SIZE rb hex).1 else rb }
      else some { g with ring_buffer := rb }
    | none => some { g with ring_buffer := rb }

/-! ## Specification-level notions -/

/-- The events a ring buffer holds, oldest first: `count` slots read from
`tail`, wrapping modulo the capacity. -/
def rb_contents (C : Nat) (rb : ring_buffer_t) : List packet_t :=
  (List.range rb.count.toNat).map fun i =>
    rb.packets.getD ((rb.tail.toNat + i) % C) packet_t.zero

/-- Push of the capacity-bounded FIFO list of the specification: a full list
loses its oldest element. -/
def fifo_push (C : Nat) (l : List packet_t) (x : packet_t) : List packet_t :=
  (if l.length = C then l.tail else l) ++ [x]

/-- An operation a client can apply to the event queue; `pop` carries the
initial value of the caller's out-parameter. -/
inductive rb_op where
  | push (pkt : packet_t)
  | pop (pkt : packet_t)
deriving DecidableEq, Repr

/-- The buffer after one operation. -/
def rb_step (C : Nat) (rb : ring_buffer_t) : rb_op → ring_buffer_t
  | rb_op.push pkt => (ring_buffer_push C rb pkt).1
  | rb_op.pop pkt => (ring_buffer_pop C rb pkt).1

/-- The buffer reached from `ring_buffer_init` by a sequence of operations. -/
def rb_run (C : Nat) (ops : List rb_op) : ring_buffer_t :=
  ops.foldl (rb_step C) (ring_buffer_init C)

/-- The byte of the frame at offset `i` as a number (0 past the end), used to
state conditions on header fields. -/
def frame_byte (packet : List Nat) (i : Nat) : Nat := packet.getD i 0 % 256

/-- The EtherType field (offsets 12-13, network order). -/
def frame_ether_type (packet : List Nat) : Nat :=
  frame_byte packet 12 * 256 + frame_byte packet 13

/-- The IPv4 header-length field IHL (low nibble of offset 14). -/
def frame_ihl (packet : List Nat) : Nat := frame_byte packet 14 % 16

/-- The IPv4 protocol field (offset 23). -/
def frame_protocol (packet : List Nat) : Nat := frame_byte packet 23

/-- The frame passes every check of capture.c:204-215. -/
def frame_accepted (packet : List Nat) : Prop :=
  14 ≤ packet.length ∧ frame_ether_type packet = 2048 ∧ 34 ≤ packet.length ∧
    20 ≤ 4 * frame_ihl packet ∧ 14 + 4 * frame_ihl packet ≤ packet.length

instance (packet : List Nat) : Decidable (frame_accepted packet) := by
  unfold frame_accepted; infer_instance

/-- The set of ports the specification calls encrypted. -/
def encrypted_ports : List Nat := [443, 22, 993, 995, 465, 587, 853, 636, 989, 990, 8443]

/-- Decimal rendering of a number, as the specification's `decimal`. -/
def decimal (n : Nat) : String := Nat.repr n

/-- Dotted-quad rendering of an IPv4 address. -/
def dotted_quad (a : in_addr) : String :=
  decimal (a.s_addr / 16777216 % 256) ++ "." ++ decimal (a.s_addr / 65536 % 256) ++ "." ++
    decimal (a.s_addr / 256 % 256) ++ "." ++ decimal (a.s_addr % 256)

/-- The protocol name of the meta line. -/
def proto_name (protocol : Int) : String :=
  if protocol = 6 then "TCP" else if protocol = 17 then "UDP"
  else if protocol = 1 then "ICMP" else "IP"

/-- The meta line of the specification: `PROTO SRC_IP[:PORT] > DST_IP[:PORT]`. -/
def meta_line (ip_src ip_dst : in_addr) (protocol : Int) (src_port dst_port : Nat) : String :=
  proto_name protocol ++ " " ++ dotted_quad ip_src ++
    (if src_port > 0 then ":" ++ decimal src_port else "") ++ " > " ++ dotted_quad ip_dst ++
    (if dst_port > 0 then ":" ++ decimal dst_port else "")

/-- One byte as two lowercase hexadecimal digits, high nibble first. -/
def hex_pair (b : Nat) : String :=
  String.mk [Nat.digitChar (b / 16 % 16), Nat.digitChar (b % 16)]

/-- The hex line of the specification for a payload: the first 85 bytes as hex
pairs joined by single spaces. -/
def hex_line (payload : List Nat) : String :=
  " ".intercalate ((payload.take 85).map hex_pair)

/-- The payload bytes of a frame whose headers take `headers_len` bytes. -/
def frame_payload (packet : List Nat) (headers_len : Nat) : List Nat :=
  (packet.drop headers_len).map fun b => b % 256

/-- The representation invariant of the ring buffer: `packets` has `C` slots and the
indices satisfy the bounds and the relation `head = (tail + count) mod C`. -/
def rb_wf (C : Nat) (rb : ring_buffer_t) : Prop :=
  rb.packets.length = C ∧ 0 ≤ rb.count ∧ rb.count ≤ (C : Int) ∧ 0 ≤ rb.head ∧ rb.head < (C : Int) ∧
    0 ≤ rb.tail ∧ rb.tail < (C : Int) ∧ rb.head = (rb.tail + rb.count) % (C : Int)

/-! ## Auxiliary definitions for the statements and proofs -/

/-- The IPv4 source address field (offsets 26-29). -/
def frame_ip_src (packet : List Nat) : in_addr :=
  ⟨((frame_byte packet 26 * 256 + frame_byte packet 27) * 256 + frame_byte packet 28) * 256
    + frame_byte packet 29⟩

/-- The IPv4 destination address field (offsets 30-33). -/
def frame_ip_dst (packet : List Nat) : in_addr :=
  ⟨((frame_byte packet 30 * 256 + frame_byte packet 31) * 256 + frame_byte packet 32) * 256
    + frame_byte packet 33⟩

/-- The meta event `packet_handler` formats for a frame with parsed headers `h`
(capture.c:247-252). -/
def meta_event (g : capture_globals) (pkt : packet_t) (packet : List Nat) (h : parsed_headers) :
    packet_t :=
  format_packet_info g.local_ips g.local_ip_count
    { pkt with length := 0, is_encrypted := 0, is_inbound := 0, column_zone := 0 }
    (frame_ip_src packet) (frame_ip_dst packet) (h.protocol : Int) h.src_port h.dst_port

/-- The globals after `packets_captured++`. -/
def counted (g : capture_globals) : capture_globals :=
  { g with packets_captured := (g.packets_captured + 1) % 18446744073709551616 }

/-- The event queue after pushing one event. -/
def pushed (rb : ring_buffer_t) (e : packet_t) : ring_buffer_t :=
  (ring_buffer_push RING_BUFFER_SIZE rb e).1

/-- A 34-byte frame: Ethernet header with EtherType 0x0800 and a 20-byte IPv4 header
192.168.1.2 > 10.0.0.1 with the given protocol, and nothing after it. -/
def sample_ip_frame (protocol : Nat) : List Nat :=
  [0, 0, 0, 0, 0, 0, 0, 0, 0, 0, 0, 0, 8, 0,
   69, 0, 0, 0, 0, 0, 0, 0, 64, protocol, 0, 0, 192, 168, 1, 2, 10, 0, 0, 1]

/-- A 20-byte TCP header with the given ports and data offset 5. -/
def sample_tcp_header (src_port dst_port : Nat) : List Nat :=
  [src_port / 256, src_port % 256, dst_port / 256, dst_port % 256,
   0, 0, 0, 0, 0, 0, 0, 0, 80, 0, 0, 0, 0, 0, 0, 0]

/-- Globals with an empty event queue and one local address, 10.0.0.1. -/
def sample_globals : capture_globals :=
  { ring_buffer := ring_buffer_init RING_BUFFER_SIZE
    packets_captured := 0
    local_ips := [⟨167772161⟩]
    local_ip_count := 1 }

/-- The formatter state `(pkt, pos)` holds `txt` in `text[0 .. pos)`, every colour tag of
`colors[0 .. pos)` is `color`, and both arrays have their declared size. -/
def wrote (st : packet_t × Nat) (txt : List Char) (color : Nat) : Prop :=
  st.1.text.length = MAX_INFO_LEN ∧ st.1.colors.length = MAX_INFO_LEN ∧ st.2 = txt.length ∧
    st.1.text.take st.2 = txt ∧ st.1.colors.take st.2 = List.replicate txt.length color

/-- The characters of the meta line, as a list. -/
def meta_chars (ip_src ip_dst : in_addr) (protocol : Int) (src_port dst_port : Nat) : List Char :=
  proto_str protocol ++ [' '] ++ inet_ntop ip_src ++
    (if src_port > 0 then [':'] ++ fmt_u src_port else []) ++ [' ', '>', ' '] ++ inet_ntop ip_dst ++
    (if dst_port > 0 then [':'] ++ fmt_u dst_port else [])

/-- The formatter state before the final stores of `format_packet_info`. -/
def format_state (stream_color : Nat) (pkt : packet_t) (ip_src ip_dst : in_addr) (protocol : Int)
    (src_port dst_port : Nat) : packet_t × Nat :=
  let st := put_str stream_color (proto_str protocol) (pkt, 0)
  let st := put_guarded stream_color ' ' st
  let st := put_str stream_color (inet_ntop ip_src) st
  let st := if src_port > 0 then put_str stream_color (fmt_u src_port) (put_guarded stream_color ':' st)
    else st
  let st := put_str stream_color [' ', '>', ' '] st
  let st := put_str stream_color (inet_ntop ip_dst) st
  if dst_port > 0 then put_str stream_color (fmt_u dst_port) (put_guarded stream_color ':' st)
  else st

/-- The two characters the hex loop stores for a byte. -/
def hex_digits (b : Nat) : List Char :=
  [hexchars.getD (b / 16 % 16) ' ', hexchars.getD (b % 16) ' ']

/-- The characters the hex loop stores for the bytes after the first: a space and two digits
for each. -/
def hex_tail : List Nat → List Char
  | [] => []
  | b :: bs => ' ' :: hex_digits b ++ hex_tail bs

/-- The payload locals of capture.c:239-245 computed from `transport_header_len`. -/
def payload_of (caplen headers_len transport_header_len : Nat) : Option Nat × Nat :=
  if transport_header_len > 0 ∧ to_int caplen > (headers_len : Int) then
    (some headers_len, (to_int caplen - (headers_len : Int)).toNat)
  else (none, 0)

/-- The direction facts of a display event of a frame: `is_inbound` is 1 exactly when the
destination address is one of the first `local_ip_count` registry entries (and is 0 otherwise),
and every colour tag below `length` is the direction colour. -/
def direction_coloured (g : capture_globals) (packet : List Nat) (e : packet_t) : Prop :=
  (e.is_inbound = 1 ↔ frame_ip_dst packet ∈ g.local_ips.take g.local_ip_count.toNat) ∧
  (e.is_inbound = 0 ∨ e.is_inbound = 1) ∧
  ∀ i, i < e.length →
    e.colors[i]? = some (if e.is_inbound = 1 then COLOR_INBOUND else COLOR_OUTBOUND)

/-! ## streams.h -/

def MAX_STREAMS : Nat := 512
def MAX_STREAM_LENGTH : Int := 160
def FADE_DELAY_MIN : Int := 30
def FADE_DELAY_RANGE : Nat := 120
def FADE_RATE : Int := 2
def COLUMN_GAP : Nat := 1
def PACKETS_PER_FRAME : Nat := 20
def COLUMN_SEARCH_ATTEMPTS : Nat := 40

def STREAM_EMPTY : Nat := 0
def STREAM_ACTIVE : Nat := 1
def STREAM_FADING : Nat := 2

/-- The record `stream_t` of streams.h. A finite `float` is held as the rational number it
denotes; rounding is applied by the operations that produce a new `float`. -/
structure stream_t where
  state : Nat
  column : Int
  row : ℚ
  speed : ℚ
  text : List Char
  colors : List Nat
  text_len : Int
  chars_shown : Int
  frames_alive : Int
  fade_at_frame : Int
deriving DecidableEq

/-- A `stream_t` whose bytes are all zero (what `memset(streams, 0, ...)` leaves). -/
def stream_t.zero : stream_t :=
  { state := 0, column := 0, row := 0, speed := 0
    text := List.replicate MAX_INFO_LEN (Char.ofNat 0)
    colors := List.replicate MAX_INFO_LEN 0
    text_len := 0, chars_shown := 0, frames_alive := 0, fade_at_frame := 0 }

/-- The globals of streams.c. `column_available` is the heap array (empty while the pointer
is `NULL`); `rand_calls` counts the calls of `rand()` made so far. -/
structure stream_globals where
  streams : List stream_t
  stream_screen_width : Int
  stream_screen_height : Int
  column_available : List Nat
  free_slots : List Nat
  free_slot_count : Nat
  rand_calls : Nat
deriving DecidableEq

/-- The globals of streams.c at program start (static zero initialisation). -/
def stream_globals.startup : stream_globals :=
  { streams := List.replicate MAX_STREAMS stream_t.zero
    stream_screen_width := 0
    stream_screen_height := 0
    column_available := []
    free_slots := List.replicate MAX_STREAMS 0
    free_slot_count := 0
    rand_calls := 0 }

/-- The conversion `(int)x` of a `float`: truncation toward zero. -/
def float_to_int (x : ℚ) : Int := Int.tdiv x.num (x.den : Int)

/-! ## streams.c -/

/-- The array read `column_available[col]`. -/
def column_avail (e : stream_globals) (col : Int) : Nat :=
  e.column_available.getD col.toNat 0

/-- The loop of `column_is_spaced` (streams.c:20-23) at gap `g` with `k` iterations left. -/
def column_gap_loop (e : stream_globals) (col : Int) : Nat → Int → Nat
  | 0, _ => 1
  | k + 1, g =>
    if col - g ≥ 0 ∧ column_avail e (col - g) = 0 then 0
    else if col + g < e.stream_screen_width ∧ column_avail e (col + g) = 0 then 0
    else column_gap_loop e col k (g + 1)

/-- Source: `column_is_spaced` (streams.c:18-25). -/
def column_is_spaced (e : stream_globals) (col : Int) : Nat :=
  if column_avail e col = 0 then 0 else column_gap_loop e col COLUMN_GAP 1

/-- The random probing loop of `find_free_column` (streams.c:32-37) with `k` attempts left;
`rand n` is the value returned by the `n`-th call of `rand()`. -/
def probe_loop (rand : Nat → Nat) : Nat → stream_globals → stream_globals × Option Int
  | 0, e => (e, none)
  | k + 1, e =>
    let col := ((rand e.rand_calls : Nat) : Int).tmod e.stream_screen_width
    let e1 : stream_globals := { e with rand_calls := e.rand_calls + 1 }
    if column_is_spaced e1 col ≠ 0 then (e1, some col) else probe_loop rand k e1

/-- The linear scan of `find_free_column` (streams.c:39-45) from column `i` with `k` columns
left. -/
def scan_loop (e : stream_globals) : Nat → Int → Int
  | 0, _ => -1
  | k + 1, i => if column_is_spaced e i ≠ 0 then i else scan_loop e k (i + 1)

/-- Source: `find_free_column` (streams.c:28-46). -/
def find_free_column (rand : Nat → Nat) (e : stream_globals) (zone : Nat) :
    stream_globals × Int :=
  if e.stream_screen_width < 3 then (e, -1)
  else
    match probe_loop rand COLUMN_SEARCH_ATTEMPTS e with
    | (e1, some col) => (e1, col)
    | (e1, none) => (e1, scan_loop e1 e1.stream_screen_width.toNat 0)

/-- The value of `STREAM_SPEED_MIN + (r % (int)(STREAM_SPEED_RANGE * 100)) / 100.0f` for a draw
`r`, with `fl` the rounding of a real number to `float`. -/
def stream_speed (fl : ℚ → ℚ) (r : Nat) : ℚ :=
  fl (fl (2 / 5) + fl (((r % 150 : Nat) : ℚ) / 100))

/-- Source: `assign_packet_to_stream` (streams.c:49-70). -/
def assign_packet_to_stream (rand : Nat → Nat) (fl : ℚ → ℚ) (e : stream_globals)
    (pkt : packet_t) : stream_globals :=
  if e.free_slot_count = 0 then e
  else
    let r := find_free_column rand e pkt.column_zone
    let e1 := r.1
    let col := r.2
    if col < 0 then e1
    else
      let count := e1.free_slot_count - 1
      let idx := e1.free_slots.getD count 0
      let s := e1.streams.getD idx stream_t.zero
      let s1 : stream_t :=
        { state := STREAM_ACTIVE
          column := col
          row := 0
          speed := stream_speed fl (rand e1.rand_calls)
          text := pkt.text.take (pkt.length + 1) ++ s.text.drop (pkt.length + 1)
          colors := pkt.colors.take pkt.length ++ s.colors.drop pkt.length
          text_len := (pkt.length : Int)
          chars_shown := 0
          frames_alive := 0
          fade_at_frame := FADE_DELAY_MIN + ((rand (e1.rand_calls + 1) % FADE_DELAY_RANGE : Nat) : Int) }
      { e1 with
        streams := e1.streams.set idx s1
        free_slot_count := count
        column_available := e1.column_available.set col.toNat 0
        rand_calls := e1.rand_calls + 2 }

/-- A loop `for (i = 0; i < n; i++) a[i] = f(i);`. -/
def fill_loop {α : Type} (n : Nat) (f : Nat → α) (a : List α) : List α :=
  (List.range n).foldl (fun a i => a.set i (f i)) a

/-- Source: `init_streams` (streams.c:73-91). `calloc_ok` says whether `calloc` returns a
non-null pointer (it cannot for a negative `width`); the result is `none` when the function
calls `exit(1)`. -/
def init_streams (calloc_ok : Bool) (e : stream_globals) (width : Int) : Option stream_globals :=
  let e : stream_globals := { e with stream_screen_width := width }
  let e : stream_globals := { e with streams := List.replicate MAX_STREAMS stream_t.zero }
  let e : stream_globals := { e with free_slot_count := MAX_STREAMS }
  let e : stream_globals :=
    { e with free_slots := fill_loop MAX_STREAMS (fun i => MAX_STREAMS - 1 - i) e.free_slots }
  if width < 0 ∨ calloc_ok = false then none
  else
    some { e with
      column_available := fill_loop width.toNat (fun _ => 1) (List.replicate width.toNat 0) }

/-- Source: `resize_streams` (streams.c:94-114), with `calloc_ok` as in `init_streams`. -/
def resize_streams (calloc_ok : Bool) (e : stream_globals) (new_width new_height : Int) :
    Option stream_globals :=
  let e : stream_globals :=
    { e with stream_screen_width := new_width, stream_screen_height := new_height }
  if new_width < 0 ∨ calloc_ok = false then none
  else
    let e : stream_globals :=
      { e with
        column_available :=
          fill_loop new_width.toNat (fun _ => 1) (List.replicate new_width.toNat 0) }
    let e : stream_globals := { e with streams := List.replicate MAX_STREAMS stream_t.zero }
    let e : stream_globals := { e with free_slot_count := MAX_STREAMS }
    some { e with
      free_slots := fill_loop MAX_STREAMS (fun i => MAX_STREAMS - 1 - i) e.free_slots }

/-- The first part of the Active branch of `update_streams` (streams.c:132-141): advance the
row, count the frame and recompute `chars_shown`. -/
def stream_advance (fl : ℚ → ℚ) (s : stream_t) : stream_t :=
  let s : stream_t := { s with row := fl (s.row + s.speed) }
  let s : stream_t := { s with frames_alive := s.frames_alive + 1 }
  let effective_len := if s.text_len < MAX_STREAM_LENGTH then s.text_len else MAX_STREAM_LENGTH
  let new_chars_shown := float_to_int s.row
  let new_chars_shown := if new_chars_shown > effective_len then effective_len else new_chars_shown
  { s with chars_shown := new_chars_shown }

/-- The transition to Fading with the overshoot clamp (streams.c:145-150). -/
def stream_fade (fl : ℚ → ℚ) (screen_height : Int) (s : stream_t) : stream_t :=
  let s : stream_t := { s with state := STREAM_FADING }
  if s.row ≥ fl (screen_height : ℚ) then
    let s : stream_t :=
      { s with chars_shown := s.chars_shown - (float_to_int s.row - (screen_height - 1)) }
    let s : stream_t := { s with row := fl (((screen_height - 1 : Int)) : ℚ) }
    if s.chars_shown < 1 then { s with chars_shown := 1 } else s
  else s

/-- What one iteration of the loop of `update_streams` (streams.c:127-161) does to the stream
`*s` itself. -/
def tick_stream (fl : ℚ → ℚ) (screen_height : Int) (s : stream_t) : stream_t :=
  if s.state = STREAM_EMPTY then s
  else if s.state = STREAM_ACTIVE then
    let s := stream_advance fl s
    let tail_row := float_to_int s.row - s.chars_shown
    if tail_row > screen_height ∨ s.frames_alive ≥ s.fade_at_frame then
      stream_fade fl screen_height s
    else s
  else if s.state = STREAM_FADING then
    let s : stream_t := { s with chars_shown := s.chars_shown - FADE_RATE }
    if s.chars_shown ≤ 0 then { s with state := STREAM_EMPTY } else s
  else s

/-- One iteration of the loop of `update_streams` (streams.c:126-162) for index `i`: the stream
is updated in place, and a Fading stream that has run out releases its column and its slot. -/
def update_stream (fl : ℚ → ℚ) (screen_height : Int) (e : stream_globals) (i : Nat) :
    stream_globals :=
  let s := e.streams.getD i stream_t.zero
  let e1 : stream_globals := { e with streams := e.streams.set i (tick_stream fl screen_height s) }
  if s.state = STREAM_FADING ∧ s.chars_shown - FADE_RATE ≤ 0 then
    let e2 : stream_globals :=
      { e1 with column_available := e1.column_available.set s.column.toNat 1 }
    if e2.free_slot_count < MAX_STREAMS then
      { e2 with
        free_slots := e2.free_slots.set e2.free_slot_count i
        free_slot_count := e2.free_slot_count + 1 }
    else e2
  else e1

/-- The drain loop of `update_streams` (streams.c:121-124) with
`k = PACKETS_PER_FRAME - packets_this_frame`. The condition pops first and tests the counter
second. -/
def drain_loop (rand : Nat → Nat) (fl : ℚ → ℚ) :
    Nat → stream_globals × ring_buffer_t × packet_t → stream_globals × ring_buffer_t × packet_t
  | 0, st =>
    let r := ring_buffer_pop RING_BUFFER_SIZE st.2.1 st.2.2
    (st.1, r.1, r.2.1)
  | k + 1, st =>
    let r := ring_buffer_pop RING_BUFFER_SIZE st.2.1 st.2.2
    if r.2.2 = 0 then
      drain_loop rand fl k (assign_packet_to_stream rand fl st.1 r.2.1, r.1, r.2.1)
    else (st.1, r.1, r.2.1)

/-- Source: `update_streams` (streams.c:117-165), on the globals of streams.c and the event
queue; `pkt` is the initial value of the local `packet_t`. The call of `update_network_rate`
only touches the rate counters of capture.c, which are not part of this state. -/
def update_streams (rand : Nat → Nat) (fl : ℚ → ℚ) (e : stream_globals) (rb : ring_buffer_t)
    (pkt : packet_t) (screen_height : Int) : stream_globals × ring_buffer_t :=
  let st := drain_loop rand fl PACKETS_PER_FRAME (e, rb, pkt)
  ((List.range MAX_STREAMS).foldl (update_stream fl screen_height) st.1, st.2.1)

/-- The loop of `streams_have_content` (streams.c:169-172) from index `i` with `k` iterations
left. -/
def streams_have_content_loop (e : stream_globals) : Nat → Nat → Nat
  | 0, _ => 0
  | k + 1, i =>
    if (e.streams.getD i stream_t.zero).state ≠ STREAM_EMPTY then 1
    else streams_have_content_loop e k (i + 1)

/-- Source: `streams_have_content` (streams.c:168-174). -/
def streams_have_content (e : stream_globals) : Nat :=
  streams_have_content_loop e MAX_STREAMS 0

/-- The stream in slot `i`. -/
def stream_at (e : stream_globals) (i : Nat) : stream_t := e.streams.getD i stream_t.zero

/-- The entries `free_slots[0 .. free_slot_count)`. -/
def free_list (e : stream_globals) : List Nat := e.free_slots.take e.free_slot_count

/-- The representation invariant of the stream engine: array sizes, columns of non-Empty
streams in range and more than `COLUMN_GAP` apart, `column_available[c] = 0` exactly for the
columns held by a non-Empty stream (and 1 for the others), and the free-slot list holding
exactly the indices of the Empty slots, once each. -/
def engine_inv (e : stream_globals) : Prop :=
  e.streams.length = MAX_STREAMS ∧
  e.free_slots.length = MAX_STREAMS ∧
  e.free_slot_count ≤ MAX_STREAMS ∧
  0 ≤ e.stream_screen_width ∧
  e.column_available.length = e.stream_screen_width.toNat ∧
  (∀ i, i < MAX_STREAMS → (stream_at e i).state ≠ STREAM_EMPTY →
    0 ≤ (stream_at e i).column ∧ (stream_at e i).column < e.stream_screen_width) ∧
  (∀ i j, i < MAX_STREAMS → j < MAX_STREAMS → i ≠ j →
    (stream_at e i).state ≠ STREAM_EMPTY → (stream_at e j).state ≠ STREAM_EMPTY →
    (COLUMN_GAP : Int) < (stream_at e i).column - (stream_at e j).column ∨
    (COLUMN_GAP : Int) < (stream_at e j).column - (stream_at e i).column) ∧
  (∀ c : Int, 0 ≤ c → c < e.stream_screen_width →
    (column_avail e c = 0 ↔
      ∃ i, i < MAX_STREAMS ∧ (stream_at e i).state ≠ STREAM_EMPTY ∧ (stream_at e i).column = c)) ∧
  (free_list e).Nodup ∧
  (∀ x, x ∈ free_list e ↔ x < MAX_STREAMS ∧ (stream_at e x).state = STREAM_EMPTY) ∧
  (∀ c : Int, 0 ≤ c → c < e.stream_screen_width → column_avail e c = 0 ∨ column_avail e c = 1)

/-- The engine states reachable from a call of `init_streams` by ticks of `update_streams`
(with any event queue, any initial local `pkt` and any screen height) and calls of
`resize_streams`, for a fixed sequence `rand` of random draws and rounding `fl`. -/
inductive engine_reachable (rand : Nat → Nat) (fl : ℚ → ℚ) : stream_globals → Prop
  | init (ok : Bool) (e0 e : stream_globals) (width : Int) :
      e0.free_slots.length = MAX_STREAMS → init_streams ok e0 width = some e →
      engine_reachable rand fl e
  | tick (e : stream_globals) (rb : ring_buffer_t) (pkt : packet_t) (screen_height : Int) :
      engine_reachable rand fl e →
      engine_reachable rand fl (update_streams rand fl e rb pkt screen_height).1
  | resize (ok : Bool) (e e' : stream_globals) (new_width new_height : Int) :
      engine_reachable rand fl e → resize_streams ok e new_width new_height = some e' →
      engine_reachable rand fl e'

/-- The engine state right after a reset (`init_streams` or `resize_streams`) to the given
width, apart from the fields a reset leaves alone. -/
def reset_state (e : stream_globals) (width height : Int) : stream_globals :=
  { streams := List.replicate MAX_STREAMS stream_t.zero
    stream_screen_width := width
    stream_screen_height := height
    column_available := List.replicate width.toNat 1
    free_slots := (List.range MAX_STREAMS).map (fun i => MAX_STREAMS - 1 - i)
    free_slot_count := MAX_STREAMS
    rand_calls := e.rand_calls }

/-- An engine state right after `init_streams(80)` at program start. -/
def sample_engine : stream_globals := reset_state stream_globals.startup 80 0

/-- The engine state in which the stream loop of `update_streams` (streams.c:126) reaches
index `i`: the drain loop and the iterations for the indices below `i` are done. -/
def loop_state (rand : Nat → Nat) (fl : ℚ → ℚ) (e : stream_globals) (rb : ring_buffer_t)
    (pkt : packet_t) (screen_height : Int) (i : Nat) : stream_globals :=
  (List.range i).foldl (update_stream fl screen_height)
    (drain_loop rand fl PACKETS_PER_FRAME (e, rb, pkt)).1

/-- The engine after a sequence of ticks; each tick comes with the event queue it finds, the
initial value of the local `pkt` and the screen height. -/
def run_ticks (rand : Nat → Nat) (fl : ℚ → ℚ) (e : stream_globals)
    (xs : List (ring_buffer_t × packet_t × Int)) : stream_globals :=
  xs.foldl (fun e x => (update_streams rand fl e x.1 x.2.1 x.2.2).1) e

/-- A stream after the loop iterations of a sequence of ticks with the given screen heights. -/
def stream_ticks (fl : ℚ → ℚ) (s : stream_t) (hs : List Int) : stream_t :=
  hs.foldl (fun s h => tick_stream fl h s) s

/-- A display event with a 40-character text. -/
def sample_packet : packet_t := { packet_t.zero with length := 40 }

/-- The engine `sample_engine` after one event was assigned, with every draw of `rand()` equal
to 60 and exact arithmetic: the new stream is at column 60 with speed 1. -/
def sample_active : stream_globals :=
  assign_packet_to_stream (fun _ => 60) (fun x => x) sample_engine sample_packet

/-- The slot that holds the stream of `sample_active`. -/
def sample_slot : Nat := sample_engine.free_slots.getD (sample_engine.free_slot_count - 1) 0

/-- The engine `sample_active` with its stream marked Fading and one character shown. -/
def sample_fading : stream_globals :=
  { sample_active with
    streams := sample_active.streams.set sample_slot
      { stream_at sample_active sample_slot with state := STREAM_FADING, chars_shown := 1 } }

/-- A tick that finds the event queue empty, on a screen of 24 rows. -/
def sample_tick : ring_buffer_t × packet_t × Int :=
  (ring_buffer_init RING_BUFFER_SIZE, packet_t.zero, 24)

/-- A tick that finds the event queue empty, on a screen of 100 rows. -/
def sample_tall_tick : ring_buffer_t × packet_t × Int :=
  (ring_buffer_init RING_BUFFER_SIZE, packet_t.zero, 100)

/-- The event queue after the events of `l` were pushed, in order, into the empty queue. -/
def queue_of (l : List packet_t) : ring_buffer_t :=
  l.foldl pushed (ring_buffer_init RING_BUFFER_SIZE)

/-- Display events that differ in their length, to tell them apart. -/
def numbered_event (n : Nat) : packet_t := { packet_t.zero with length := n + 1 }

/-- A tick of the engine `sample_engine` (all slots Empty) that finds the event queue empty. -/
def sample_idle : stream_globals × ring_buffer_t :=
  update_streams (fun n => n) (fun x => x) sample_engine (ring_buffer_init RING_BUFFER_SIZE)
    packet_t.zero 24

/-- The spacing rule for a column `c`, in the words of the specification: the column is
available and every column of the screen within `COLUMN_GAP` of it is available. -/
def spacing_rule (e : stream_globals) (c : Int) : Prop :=
  column_avail e c ≠ 0 ∧
  ∀ d : Int, 0 ≤ d → d < e.stream_screen_width → |d - c| ≤ (COLUMN_GAP : Int) →
    column_avail e d ≠ 0

/-- An engine state right after `init_streams(2)` at program start: a screen of two columns,
both available. -/
def narrow_engine : stream_globals := reset_state stream_globals.startup 2 0

/-- The engine `sample_active` with its stream one frame short of its fade deadline. -/
def sample_due : stream_globals :=
  { sample_active with
    streams := sample_active.streams.set sample_slot
      { stream_at sample_active sample_slot with frames_alive := 89 } }

/-- The number of stream slots that are not Empty. -/
def nonempty_count (e : stream_globals) : Nat :=
  (List.range MAX_STREAMS).countP (fun i => decide ((stream_at e i).state ≠ STREAM_EMPTY))

/-- The engine `sample_engine` after a tick that finds one event in the queue. -/
def sample_ticked : stream_globals :=
  (update_streams (fun _ => 60) (fun x => x) sample_engine (queue_of [sample_packet])
    packet_t.zero 24).1

/-- What holds of the numbers in every stream slot the engine produces: the speed and the text
length are not negative, and an Active stream is at a position that is not negative. -/
def stream_sane (s : stream_t) : Prop :=
  0 ≤ s.speed ∧ 0 ≤ s.text_len ∧ (s.state = STREAM_ACTIVE → 0 ≤ s.row)

/-- Every slot of the engine satisfies `stream_sane`. -/
def streams_sane (e : stream_globals) : Prop := ∀ i, stream_sane (stream_at e i)

/-- The engine `sample_ticked` after 63 more ticks on a screen of 24 rows: its stream has
moved 64 rows and its trailing edge is at the bottom boundary. -/
def sample_low : stream_globals :=
  run_ticks (fun _ => 60) (fun x => x) sample_ticked (List.replicate 63 sample_tick)

/-- The slot that the second assignment after `init_streams` takes. -/
def sample_slot2 : Nat := sample_active.free_slots.getD (sample_active.free_slot_count - 1) 0

/-- The engine `sample_engine` after a tick that finds two events in the queue, with every draw
of `rand()` equal to 60: the first stream is created at column 60 by the first probe, the
second at the first spaced column that the scan finds. -/
def sample_pair : stream_globals :=
  (update_streams (fun _ => 60) (fun x => x) sample_engine
    (queue_of [sample_packet, sample_packet]) packet_t.zero 24).1

/-- Rounding of a rational number to the nearest integer, ties to the even one. -/
def round_half_even (y : ℚ) : Int :=
  if y - (⌊y⌋ : ℚ) < 1 / 2 then ⌊y⌋
  else if 1 / 2 < y - (⌊y⌋ : ℚ) then ⌊y⌋ + 1
  else if ⌊y⌋ % 2 = 0 then ⌊y⌋ else ⌊y⌋ + 1

/-- The spacing of the binary32 numbers around `x`: `2 ^ (e - 23)` for `2 ^ e <= |x| < 2 ^ (e + 1)`,
and `2 ^ (-149)` below the normal range. -/
def float_ulp (x : ℚ) : ℚ := (2 : ℚ) ^ (max (Int.log 2 |x|) (-126) - 23)

/-- The conversion of a real number to C `float` (IEEE 754 binary32, round to nearest, ties to
even), for numbers below the overflow threshold: the result of every `float` operation of
streams.c is this rounding of its exact result. -/
def float_round (x : ℚ) : ℚ := (round_half_even (x / float_ulp x) : ℚ) * float_ulp x

/-- The engine `sample_engine` after four ticks, the first of which finds one event in the
queue, with every draw of `rand()` equal to 20 and binary32 arithmetic: its stream has speed
`0.4f + 0.2f` and has advanced four times. -/
def rounding_engine : stream_globals :=
  run_ticks (fun _ => 20) float_round sample_engine
    ((queue_of [sample_packet], packet_t.zero, 24) :: List.replicate 3 sample_tick)

/-! # Proofs -/

/-! ## Ring buffer -/

theorem rb_wf_nat {C : Nat} {rb : ring_buffer_t} (h : rb_wf C rb) :
    ∃ (ps : List packet_t) (t n : Nat), ps.length = C ∧ t < C ∧ n ≤ C ∧
      rb = { packets := ps, head := (((t + n) % C : Nat) : Int), tail := (t : Int), count := (n : Int) } := by
  obtain ⟨h1, h2, h3, h4, h5, h6, h7, h8⟩ := h
  refine ⟨rb.packets, rb.tail.toNat, rb.count.toNat, h1, by omega, by omega, ?_⟩
  cases rb with
  | mk ps hd tl ct =>
    simp only at *
    have e1 : ((tl.toNat : Nat) : Int) = tl := Int.toNat_of_nonneg h6
    have e2 : ((ct.toNat : Nat) : Int) = ct := Int.toNat_of_nonneg h2
    simp only [ring_buffer_t.mk.injEq, true_and]
    refine ⟨?_, e1.symm, e2.symm⟩
    rw [h8]; push_cast; rw [e1, e2]

theorem tmod_cast (a C : Nat) : ((a : Int)).tmod (C : Int) = ((a % C : Nat) : Int) := by
  rw [Int.tmod_eq_emod (by omega) (by omega)]; norm_cast

theorem rb_wf_of_nat {C : Nat} (ps : List packet_t) (t n : Nat) (hp : ps.length = C) (ht : t < C)
    (hn : n ≤ C) :
    rb_wf C { packets := ps, head := (((t + n) % C : Nat) : Int), tail := (t : Int), count := (n : Int) } := by
  have hC : 0 < C := by omega
  have := Nat.mod_lt (t + n) hC
  refine ⟨hp, by simp, by simpa using hn, Int.natCast_nonneg _, by simp only; omega, by simp, by simpa using ht, ?_⟩
  simp only; norm_cast

theorem push_nat {C : Nat} (ps : List packet_t) (t n : Nat) (ht : t < C) (hn : n ≤ C) (x : packet_t) :
    ring_buffer_push C { packets := ps, head := (((t + n) % C : Nat) : Int), tail := (t : Int), count := (n : Int) } x
      = if n = C then
          ({ packets := ps.set t x, head := ((((t + 1) % C + n) % C : Nat) : Int), tail := (((t + 1) % C : Nat) : Int), count := (n : Int) }, 0)
        else
          ({ packets := ps.set ((t + n) % C) x, head := (((t + (n + 1)) % C : Nat) : Int), tail := (t : Int), count := ((n + 1 : Nat) : Int) }, 0) := by
  have hC : 0 < C := by omega
  unfold ring_buffer_push
  by_cases h : n = C
  · subst h
    have h1 : ((n : Int) ≥ (n : Int)) := le_refl _
    have e1 : (t + n) % n = t := by rw [Nat.add_mod_right]; exact Nat.mod_eq_of_lt ht
    have e2 : ((t + 1) % n + n) % n = (t + 1) % n := by rw [Nat.add_mod_right]; exact Nat.mod_mod _ _
    simp only [h1, if_true, e1, e2]
    have e3 : ((t : Int) + 1).tmod (n : Int) = (((t + 1) % n : Nat) : Int) := by
      have := tmod_cast (t + 1) n; push_cast at this ⊢; exact this
    simp [e3]
  · have h1 : ¬ ((n : Int) ≥ (C : Int)) := by omega
    simp only [h1, if_false, h]
    have e3 : ((((t + n) % C : Nat) : Int) + 1).tmod (C : Int) = (((t + (n + 1)) % C : Nat) : Int) := by
      have := tmod_cast ((t + n) % C + 1) C
      push_cast at this ⊢
      rw [this]
      norm_cast
      rw [← Nat.add_assoc, Nat.add_mod (t + n) 1 C, Nat.add_mod ((t+n) % C) 1 C, Nat.mod_mod]
    simp only [e3, Int.toNat_ofNat, Nat.cast_add, Nat.cast_one]

theorem pop_nat {C : Nat} (ps : List packet_t) (t n : Nat) (ht : t < C) (hn : n ≤ C) (out : packet_t) :
    ring_buffer_pop C { packets := ps, head := (((t + n) % C : Nat) : Int), tail := (t : Int), count := (n : Int) } out
      = if n = 0 then
          ({ packets := ps, head := (((t + n) % C : Nat) : Int), tail := (t : Int), count := (n : Int) }, out, -1)
        else
          ({ packets := ps, head := ((((t + 1) % C + (n - 1)) % C : Nat) : Int), tail := (((t + 1) % C : Nat) : Int), count := ((n - 1 : Nat) : Int) },
            ps.getD t out, 0) := by
  have hC : 0 < C := by omega
  unfold ring_buffer_pop
  by_cases h : n = 0
  · subst h; simp
  · have h1 : ¬ ((n : Int) = 0) := by omega
    simp only [h1, if_false, h]
    have e3 : ((t : Int) + 1).tmod (C : Int) = (((t + 1) % C : Nat) : Int) := by
      have := tmod_cast (t + 1) C; push_cast at this ⊢; exact this
    have e4 : ((t + 1) % C + (n - 1)) % C = (t + n) % C := by
      rw [Nat.add_mod, Nat.mod_mod, ← Nat.add_mod]; congr 1; omega
    have e5 : ((n - 1 : Nat) : Int) = (n : Int) - 1 := by omega
    simp only [e3, e4, e5, Int.toNat_ofNat]

theorem contents_nat (C : Nat) (ps : List packet_t) (hd : Int) (t n : Nat) :
    rb_contents C { packets := ps, head := hd, tail := (t : Int), count := (n : Int) }
      = (List.range n).map fun i => ps.getD ((t + i) % C) packet_t.zero := by
  simp [rb_contents]

theorem mod_ne_of_lt {C a b : Nat} (h1 : a < b) (h2 : b - a < C) : a % C ≠ b % C := by
  intro h
  have h3 : (b - a) % C = 0 := Nat.sub_mod_eq_zero_of_mod_eq h.symm
  rw [Nat.mod_eq_of_lt h2] at h3
  omega

theorem getD_set_same {α : Type} (l : List α) (i : Nat) (x d : α) (h : i < l.length) :
    (l.set i x).getD i d = x := by
  simp [List.getD_eq_getElem?_getD, List.getElem?_set, h]

theorem getD_set_other {α : Type} (l : List α) (i j : Nat) (x d : α) (h : i ≠ j) :
    (l.set i x).getD j d = l.getD j d := by
  simp [List.getD_eq_getElem?_getD, List.getElem?_set, h]

theorem contents_push {C : Nat} {rb : ring_buffer_t} (h : rb_wf C rb) (x : packet_t) :
    rb_contents C (ring_buffer_push C rb x).1 = fifo_push C (rb_contents C rb) x := by
  obtain ⟨ps, t, n, hp, ht, hn, rfl⟩ := rb_wf_nat h
  have hC : 0 < C := by omega
  rw [push_nat ps t n ht hn, contents_nat]
  unfold fifo_push
  by_cases hnC : n = C
  · subst hnC
    simp only [if_true, contents_nat, List.length_map, List.length_range]
    apply List.ext_getElem
    · simp; omega
    · intro i h1 h2
      simp only [List.length_map, List.length_range] at h1
      simp only [List.getElem_map, List.getElem_range]
      have e : ((t + 1) % n + i) % n = (t + (i + 1)) % n := by
        rw [Nat.add_mod, Nat.mod_mod, ← Nat.add_mod]; congr 1; omega
      rw [e]
      by_cases hi : i = n - 1
      · have e2 : (t + (i + 1)) % n = t := by
          rw [hi, show t + (n - 1 + 1) = t + n by omega, Nat.add_mod_right, Nat.mod_eq_of_lt ht]
        rw [e2, getD_set_same _ _ _ _ (by omega)]
        rw [List.getElem_append_right (by simp; omega)]
        simp
      · have e2 : t ≠ (t + (i + 1)) % n := by
          have := @mod_ne_of_lt n t (t + (i + 1)) (by omega) (by omega)
          rwa [Nat.mod_eq_of_lt ht] at this
        rw [getD_set_other _ _ _ _ _ e2]
        rw [List.getElem_append_left (by simp; omega)]
        simp
  · simp only [hnC, if_false, contents_nat, List.length_map, List.length_range]
    rw [List.range_succ, List.map_append]
    congr 1
    · apply List.map_congr_left
      intro i hi
      rw [List.mem_range] at hi
      exact getD_set_other _ _ _ _ _ (Ne.symm (mod_ne_of_lt (by omega) (by omega)))
    · simp only [List.map_cons, List.map_nil]
      rw [getD_set_same _ _ _ _ (by rw [hp]; exact Nat.mod_lt _ hC)]

theorem wf_push {C : Nat} {rb : ring_buffer_t} (h : rb_wf C rb) (x : packet_t) :
    rb_wf C (ring_buffer_push C rb x).1 := by
  obtain ⟨ps, t, n, hp, ht, hn, rfl⟩ := rb_wf_nat h
  have hC : 0 < C := by omega
  rw [push_nat ps t n ht hn]
  by_cases hnC : n = C
  · simp only [hnC, if_true]
    exact rb_wf_of_nat _ _ _ (by simpa using hp) (Nat.mod_lt _ hC) (le_refl _)
  · simp only [hnC, if_false]
    exact rb_wf_of_nat _ _ _ (by simpa using hp) ht (by omega)

theorem wf_pop {C : Nat} {rb : ring_buffer_t} (h : rb_wf C rb) (out : packet_t) :
    rb_wf C (ring_buffer_pop C rb out).1 := by
  obtain ⟨ps, t, n, hp, ht, hn, rfl⟩ := rb_wf_nat h
  have hC : 0 < C := by omega
  rw [pop_nat ps t n ht hn]
  by_cases hn0 : n = 0
  · simp only [hn0, if_true]
    exact rb_wf_of_nat _ _ _ hp ht (by omega)
  · simp only [hn0, if_false]
    exact rb_wf_of_nat _ _ _ hp (Nat.mod_lt _ hC) (by omega)

theorem wf_init {C : Nat} (hC : 0 < C) : rb_wf C (ring_buffer_init C) := by
  have := rb_wf_of_nat (List.replicate C packet_t.zero) 0 0 (by simp) hC (by omega)
  simpa [ring_buffer_init] using this

theorem contents_pop {C : Nat} {rb : ring_buffer_t} (h : rb_wf C rb) (out : packet_t) :
    (rb_contents C rb = [] → ring_buffer_pop C rb out = (rb, out, -1)) ∧
    (∀ e l, rb_contents C rb = e :: l →
      (ring_buffer_pop C rb out).2.2 = 0 ∧ (ring_buffer_pop C rb out).2.1 = e ∧
        rb_contents C (ring_buffer_pop C rb out).1 = l) := by
  obtain ⟨ps, t, n, hp, ht, hn, rfl⟩ := rb_wf_nat h
  have hC : 0 < C := by omega
  rw [pop_nat ps t n ht hn, contents_nat]
  by_cases hn0 : n = 0
  · subst hn0; simp
  · simp only [hn0, if_false, contents_nat]
    obtain ⟨m, rfl⟩ : ∃ m, n = m + 1 := ⟨n - 1, by omega⟩
    constructor
    · intro h0; simp [List.range_succ] at h0
    · intro e l hel
      rw [List.range_succ_eq_map, List.map_cons, List.map_map] at hel
      simp only [List.cons.injEq] at hel
      obtain ⟨h1, h2⟩ := hel
      refine ⟨trivial, ?_, ?_⟩
      · rw [← h1]
        simp only [Nat.add_zero, Nat.mod_eq_of_lt ht]
        simp [List.getD_eq_getElem?_getD, List.getElem?_eq_getElem (show t < ps.length by omega)]
      · rw [← h2]
        simp only [Nat.add_sub_cancel]
        apply List.map_congr_left
        intro i _
        simp only [Function.comp]
        congr 1
        rw [Nat.add_mod, Nat.mod_mod, ← Nat.add_mod]; congr 1; omega

theorem contents_length (C : Nat) (rb : ring_buffer_t) : (rb_contents C rb).length = rb.count.toNat := by
  simp [rb_contents]

theorem wf_step {C : Nat} {rb : ring_buffer_t} (h : rb_wf C rb) (op : rb_op) : rb_wf C (rb_step C rb op) := by
  cases op with
  | push pkt => exact wf_push h pkt
  | pop pkt => exact wf_pop h pkt

theorem wf_foldl {C : Nat} (ops : List rb_op) : ∀ {rb : ring_buffer_t}, rb_wf C rb →
    rb_wf C (ops.foldl (rb_step C) rb) := by
  induction ops with
  | nil => intro rb h; exact h
  | cons op ops ih => intro rb h; exact ih (wf_step h op)

theorem wf_run {C : Nat} (hC : 0 < C) (ops : List rb_op) : rb_wf C (rb_run C ops) :=
  wf_foldl ops (wf_init hC)

theorem fifo_push_drop {C : Nat} (hC : 0 < C) (ys : List packet_t) (y : packet_t) :
    fifo_push C (ys.drop (ys.length - C)) y = (ys ++ [y]).drop ((ys ++ [y]).length - C) := by
  unfold fifo_push
  by_cases h : C ≤ ys.length
  · have h1 : (List.drop (ys.length - C) ys).length = C := by simp; omega
    rw [if_pos h1, List.tail_drop]
    have h2 : (ys ++ [y]).length - C = ys.length - C + 1 := by simp; omega
    rw [h2, List.drop_append_of_le_length (by omega)]
  · have h1 : ys.length - C = 0 := by omega
    have h2 : (ys ++ [y]).length - C = 0 := by simp; omega
    rw [h1, h2, List.drop_zero, List.drop_zero, if_neg (by omega)]

theorem pushes_contents {C : Nat} (hC : 0 < C) (xs : List packet_t) :
    rb_wf C (xs.foldl (fun rb x => (ring_buffer_push C rb x).1) (ring_buffer_init C)) ∧
    rb_contents C (xs.foldl (fun rb x => (ring_buffer_push C rb x).1) (ring_buffer_init C))
      = xs.drop (xs.length - C) := by
  induction xs using List.reverseRecOn with
  | nil => exact ⟨wf_init hC, by simp [rb_contents, ring_buffer_init]⟩
  | append_singleton ys y ih =>
    rw [List.foldl_append]
    simp only [List.foldl_cons, List.foldl_nil]
    exact ⟨wf_push ih.1 y, by rw [contents_push ih.1, ih.2, fifo_push_drop hC]⟩

/-- C4: for every capacity `C > 0` and every sequence of more than `C` events pushed onto a
freshly initialised ring buffer with no pop in between, `count` equals `C` and the events read
from `tail` are exactly the last `C` events pushed, in push order. -/
theorem ring_buffer_keeps_last_C (C : Nat) (hC : 0 < C) (xs : List packet_t) (hN : C < xs.length) :
    (xs.foldl (fun rb x => (ring_buffer_push C rb x).1) (ring_buffer_init C)).count = (C : Int) ∧
    rb_contents C (xs.foldl (fun rb x => (ring_buffer_push C rb x).1) (ring_buffer_init C))
      = xs.drop (xs.length - C) ∧
    (xs.drop (xs.length - C)).length = C := by
  obtain ⟨hwf, hc⟩ := pushes_contents hC xs
  have hl : (xs.drop (xs.length - C)).length = C := by simp; omega
  refine ⟨?_, hc, hl⟩
  have h1 := contents_length C (xs.foldl (fun rb x => (ring_buffer_push C rb x).1) (ring_buffer_init C))
  rw [hc, hl] at h1
  have h2 := hwf.2.1
  omega

theorem ring_buffer_keeps_last_C_witness :
    (0 < 2 ∧ 2 < [packet_t.zero, packet_t.zero, packet_t.zero].length) ∧
    ([packet_t.zero, packet_t.zero, packet_t.zero].foldl
        (fun rb x => (ring_buffer_push 2 rb x).1) (ring_buffer_init 2)).count = ((2 : Nat) : Int) :=
  ⟨⟨by decide, by decide⟩,
    (ring_buffer_keeps_last_C 2 (by decide) [packet_t.zero, packet_t.zero, packet_t.zero] (by decide)).1⟩

/-- C5: the ring buffer refines a capacity-bounded FIFO list. In every state reached from
`ring_buffer_init` by pushes and pops, with `l` the events read from `tail`: push returns 0 and
maps `l` to `(if |l| = C then tail of l else l) ++ [x]`; pop returns -1 and changes nothing
exactly when `l` is empty, and otherwise returns 0, outputs the head of `l` and leaves the rest. -/
theorem ring_buffer_refines_fifo (C : Nat) (hC : 0 < C) (ops : List rb_op) (x out : packet_t) :
    (rb_contents C (rb_run C ops)).length ≤ C ∧
    (ring_buffer_push C (rb_run C ops) x).2 = 0 ∧
    rb_contents C (ring_buffer_push C (rb_run C ops) x).1
      = (if (rb_contents C (rb_run C ops)).length = C then (rb_contents C (rb_run C ops)).tail
          else rb_contents C (rb_run C ops)) ++ [x] ∧
    ((ring_buffer_pop C (rb_run C ops) out).2.2 = -1 ↔ rb_contents C (rb_run C ops) = []) ∧
    (rb_contents C (rb_run C ops) = [] →
      ring_buffer_pop C (rb_run C ops) out = (rb_run C ops, out, -1)) ∧
    (∀ e l, rb_contents C (rb_run C ops) = e :: l →
      (ring_buffer_pop C (rb_run C ops) out).2.2 = 0 ∧
      (ring_buffer_pop C (rb_run C ops) out).2.1 = e ∧
      rb_contents C (ring_buffer_pop C (rb_run C ops) out).1 = l) := by
  have hwf := wf_run hC ops
  obtain ⟨hp0, hp1⟩ := contents_pop hwf out
  refine ⟨?_, rfl, contents_push hwf x, ?_, hp0, hp1⟩
  · rw [contents_length]; have := hwf.2.2.1; omega
  · constructor
    · intro h
      cases hl : rb_contents C (rb_run C ops) with
      | nil => rfl
      | cons e l => have := (hp1 e l hl).1; rw [h] at this; exact absurd this (by decide)
    · intro h; rw [hp0 h]

theorem ring_buffer_refines_fifo_witness :
    0 < RING_BUFFER_SIZE ∧
    (ring_buffer_push RING_BUFFER_SIZE
      (rb_run RING_BUFFER_SIZE [rb_op.push packet_t.zero, rb_op.pop packet_t.zero])
      packet_t.zero).2 = 0 :=
  ⟨by decide, (ring_buffer_refines_fifo RING_BUFFER_SIZE (by decide)
    [rb_op.push packet_t.zero, rb_op.pop packet_t.zero] packet_t.zero packet_t.zero).2.1⟩

/-- C6: in every ring-buffer state reachable from `ring_buffer_init` by pushes and pops,
`0 <= count <= C`, `0 <= head < C`, `0 <= tail < C` and `head = (tail + count) mod C`. -/
theorem ring_buffer_invariant (C : Nat) (hC : 0 < C) (ops : List rb_op) :
    0 ≤ (rb_run C ops).count ∧ (rb_run C ops).count ≤ (C : Int) ∧
    0 ≤ (rb_run C ops).head ∧ (rb_run C ops).head < (C : Int) ∧
    0 ≤ (rb_run C ops).tail ∧ (rb_run C ops).tail < (C : Int) ∧
    (rb_run C ops).head = ((rb_run C ops).tail + (rb_run C ops).count) % (C : Int) :=
  (wf_run hC ops).2

theorem ring_buffer_invariant_witness :
    0 < RING_BUFFER_SIZE ∧
    0 ≤ (rb_run RING_BUFFER_SIZE [rb_op.push packet_t.zero, rb_op.pop packet_t.zero,
      rb_op.pop packet_t.zero]).count :=
  ⟨by decide, (ring_buffer_invariant RING_BUFFER_SIZE (by decide)
    [rb_op.push packet_t.zero, rb_op.pop packet_t.zero, rb_op.pop packet_t.zero]).1⟩

/-! ## Formatter -/

theorem take_succ_set {α : Type} (l : List α) (i : Nat) (c : α) (h : i < l.length) :
    (l.set i c).take (i + 1) = l.take i ++ [c] := by
  rw [List.take_succ, List.getElem?_set_self h, List.set_take,
    List.set_eq_of_length_le (by simp)]
  rfl

theorem take_set_same {α : Type} (l : List α) (i : Nat) (c : α) :
    (l.set i c).take i = l.take i := by
  rw [List.set_take, List.set_eq_of_length_le (by simp)]

theorem wrote_put_char {st : packet_t × Nat} {txt : List Char} {color : Nat} (c : Char)
    (h : wrote st txt color) (hl : txt.length < MAX_INFO_LEN) :
    wrote (put_char color c st) (txt ++ [c]) color := by
  obtain ⟨h1, h2, h3, h4, h5⟩ := h
  refine ⟨by simp [put_char, h1], by simp [put_char, h2], by simp [put_char, h3], ?_, ?_⟩
  · simp only [put_char]
    rw [take_succ_set _ _ _ (by omega), h4]
  · simp only [put_char]
    rw [take_succ_set _ _ _ (by omega), h5, List.length_append, List.length_singleton,
      List.replicate_succ']

theorem wrote_put_guarded {st : packet_t × Nat} {txt : List Char} {color : Nat} (c : Char)
    (h : wrote st txt color) (hl : txt.length < MAX_INFO_LEN - 1) :
    wrote (put_guarded color c st) (txt ++ [c]) color := by
  unfold put_guarded
  rw [if_pos (by rw [h.2.2.1]; exact hl)]
  exact wrote_put_char c h (by simp only [MAX_INFO_LEN] at hl ⊢; omega)

theorem wrote_put_str {color : Nat} (s : List Char) : ∀ {st : packet_t × Nat} {txt : List Char},
    wrote st txt color → txt.length + s.length ≤ MAX_INFO_LEN - 1 →
    wrote (put_str color s st) (txt ++ s) color := by
  induction s with
  | nil => intro st txt h _; simpa [put_str] using h
  | cons c cs ih =>
    intro st txt h hl
    simp only [List.length_cons] at hl
    unfold put_str
    rw [if_pos (by rw [h.2.2.1]; omega)]
    have := @ih (put_char color c st) (txt ++ [c])
      (wrote_put_char c h (by simp only [MAX_INFO_LEN] at hl ⊢; omega))
      (by simp only [List.length_append, List.length_singleton]; omega)
    simpa using this

theorem put_str_fields (color : Nat) (s : List Char) : ∀ (st : packet_t × Nat),
    (put_str color s st).1.is_inbound = st.1.is_inbound ∧
    (put_str color s st).1.is_encrypted = st.1.is_encrypted ∧
    (put_str color s st).1.column_zone = st.1.column_zone ∧
    (put_str color s st).1.length = st.1.length := by
  induction s with
  | nil => intro st; simp [put_str]
  | cons c cs ih =>
    intro st
    unfold put_str
    split
    · have := ih (put_char color c st)
      simpa [put_char] using this
    · simp

theorem put_guarded_fields (color : Nat) (c : Char) (st : packet_t × Nat) :
    (put_guarded color c st).1.is_inbound = st.1.is_inbound ∧
    (put_guarded color c st).1.is_encrypted = st.1.is_encrypted ∧
    (put_guarded color c st).1.column_zone = st.1.column_zone ∧
    (put_guarded color c st).1.length = st.1.length := by
  unfold put_guarded; split <;> simp [put_char]

/-- Positions do not depend on the contents of the arrays. -/
theorem put_str_pos (color : Nat) (s : List Char) : ∀ (st : packet_t × Nat),
    st.2 + s.length ≤ MAX_INFO_LEN - 1 → (put_str color s st).2 = st.2 + s.length := by
  induction s with
  | nil => intro st _; simp [put_str]
  | cons c cs ih =>
    intro st hl
    simp only [List.length_cons] at hl
    unfold put_str
    rw [if_pos (by omega), ih _ (by simp only [put_char]; omega)]
    simp only [put_char, List.length_cons]; omega

theorem put_guarded_pos (color : Nat) (c : Char) (st : packet_t × Nat)
    (hl : st.2 < MAX_INFO_LEN - 1) : (put_guarded color c st).2 = st.2 + 1 := by
  unfold put_guarded; rw [if_pos hl]; rfl

theorem fmt_u_length (n e : Nat) (he : 0 < e) (hn : n < 10 ^ e) :
    1 ≤ (fmt_u n).length ∧ (fmt_u n).length ≤ e := by
  constructor
  · unfold fmt_u Nat.toDigits
    rw [Nat.toDigitsCore]
    split
    · simp
    · rw [Nat.toDigitsCore_lens_eq]; omega
  · have := Nat.repr_length n e he hn
    simpa [Nat.repr, fmt_u] using this

theorem fmt_u_byte (n : Nat) : 1 ≤ (fmt_u (n % 256)).length ∧ (fmt_u (n % 256)).length ≤ 3 :=
  fmt_u_length (n % 256) 3 (by decide) (by have := Nat.mod_lt n (show 0 < 256 by decide); omega)

theorem fmt_u_port (n : Nat) (h : n < 65536) : 1 ≤ (fmt_u n).length ∧ (fmt_u n).length ≤ 5 :=
  fmt_u_length n 5 (by decide) (by omega)

theorem inet_ntop_length (a : in_addr) : 7 ≤ (inet_ntop a).length ∧ (inet_ntop a).length ≤ 15 := by
  have h1 := fmt_u_byte (a.s_addr / 16777216)
  have h2 := fmt_u_byte (a.s_addr / 65536)
  have h3 := fmt_u_byte (a.s_addr / 256)
  have h4 := fmt_u_byte a.s_addr
  simp only [inet_ntop, List.length_append, List.length_cons]
  omega

theorem proto_str_length (protocol : Int) :
    2 ≤ (proto_str protocol).length ∧ (proto_str protocol).length ≤ 4 ∧
    (protocol ≠ 1 → (proto_str protocol).length ≤ 3) := by
  unfold proto_str
  split
  · simp
  · split
    · simp
    · split
      · next h => simp [h]
      · simp

theorem meta_line_data (ip_src ip_dst : in_addr) (protocol : Int) (src_port dst_port : Nat) :
    (meta_line ip_src ip_dst protocol src_port dst_port).data
      = meta_chars ip_src ip_dst protocol src_port dst_port := by
  have hp : (proto_name protocol).data = proto_str protocol := by
    unfold proto_name proto_str
    split_ifs <;> rfl
  have hd : ∀ a, (dotted_quad a).data = inet_ntop a := by
    intro a
    simp [dotted_quad, inet_ntop, decimal, fmt_u, Nat.repr, String.data_append, List.asString]
  have hs : ∀ p : Nat, (if p > 0 then ":" ++ decimal p else "").data
      = (if p > 0 then [':'] ++ fmt_u p else []) := by
    intro p
    split_ifs
    · simp [decimal, fmt_u, Nat.repr, String.data_append, List.asString]
    · rfl
  simp only [meta_line, meta_chars, String.data_append, hp, hd, hs]

theorem meta_chars_length (ip_src ip_dst : in_addr) (protocol : Int) (src_port dst_port : Nat)
    (hsp : src_port < 65536) (hdp : dst_port < 65536) :
    20 ≤ (meta_chars ip_src ip_dst protocol src_port dst_port).length ∧
    (meta_chars ip_src ip_dst protocol src_port dst_port).length ≤ 50 ∧
    ((protocol ≠ 1 ∨ src_port = 0 ∨ dst_port = 0) →
      (meta_chars ip_src ip_dst protocol src_port dst_port).length ≤ 49) := by
  have h1 := proto_str_length protocol
  have h2 := inet_ntop_length ip_src
  have h3 := inet_ntop_length ip_dst
  have h4 := fmt_u_port src_port hsp
  have h5 := fmt_u_port dst_port hdp
  simp only [meta_chars, List.length_append, List.length_cons, List.length_nil]
  by_cases hs : src_port > 0 <;> by_cases hd : dst_port > 0 <;>
    simp only [hs, hd, if_true, if_false, List.length_append, List.length_cons, List.length_nil] <;>
    refine ⟨by omega, by omega, ?_⟩ <;> intro h <;> rcases h with h | h | h <;>
    first | (have h6 := h1.2.2 h; omega) | omega

theorem wrote_put_port {st : packet_t × Nat} {txt : List Char} {color : Nat} (p : Nat)
    (h : wrote st txt color) (hl : txt.length + 6 ≤ MAX_INFO_LEN - 1) (hp : p < 65536) :
    wrote (if p > 0 then put_str color (fmt_u p) (put_guarded color ':' st) else st)
      (txt ++ (if p > 0 then [':'] ++ fmt_u p else [])) color := by
  have h5 := fmt_u_port p hp
  by_cases h0 : p > 0
  · simp only [h0, if_true]
    have := wrote_put_str (fmt_u p) (wrote_put_guarded ':' h (by omega))
      (by simp only [List.length_append, List.length_singleton]; omega)
    simpa using this
  · simp only [h0, if_false, List.append_nil]; exact h

theorem format_packet_info_eq (local_ips : List in_addr) (local_ip_count : Int) (pkt : packet_t)
    (ip_src ip_dst : in_addr) (protocol : Int) (src_port dst_port : Nat) :
    format_packet_info local_ips local_ip_count pkt ip_src ip_dst protocol src_port dst_port
      = let is_inbound := is_local_ip local_ips local_ip_count ip_dst
        let st := format_state (if is_inbound ≠ 0 then COLOR_INBOUND else COLOR_OUTBOUND)
          { pkt with is_inbound := is_inbound } ip_src ip_dst protocol src_port dst_port
        { st.1 with
          is_encrypted := is_encrypted_traffic src_port dst_port
          column_zone := if is_encrypted_traffic src_port dst_port ≠ 0 then ZONE_ENCRYPTED_META
            else ZONE_CLEARTEXT
          text := st.1.text.set st.2 (Char.ofNat 0)
          length := st.2 } := rfl

theorem format_state_wrote (color : Nat) (pkt : packet_t) (hs : pkt.sized)
    (ip_src ip_dst : in_addr) (protocol : Int) (src_port dst_port : Nat)
    (hsp : src_port < 65536) (hdp : dst_port < 65536) :
    wrote (format_state color pkt ip_src ip_dst protocol src_port dst_port)
      (meta_chars ip_src ip_dst protocol src_port dst_port) color := by
  have h1 := proto_str_length protocol
  have h2 := inet_ntop_length ip_src
  have h3 := inet_ntop_length ip_dst
  have h4 := fmt_u_port src_port hsp
  have h5 := fmt_u_port dst_port hdp
  have hM : MAX_INFO_LEN - 1 = 255 := rfl
  have s0 : wrote (pkt, 0) [] color := ⟨hs.1, hs.2, rfl, rfl, rfl⟩
  have s1 := wrote_put_str (proto_str protocol) s0 (by simp only [List.length_nil]; omega)
  have s2 := wrote_put_guarded ' ' s1 (by simp only [List.length_append, List.length_nil]; omega)
  have s3 := wrote_put_str (inet_ntop ip_src) s2
    (by simp only [List.length_append, List.length_nil, List.length_singleton]; omega)
  have s4 := wrote_put_port src_port s3
    (by simp only [List.length_append, List.length_nil, List.length_singleton]; omega) hsp
  have l4 : (if src_port > 0 then [':'] ++ fmt_u src_port else []).length ≤ 6 := by
    split
    · simp only [List.length_append, List.length_singleton]; omega
    · simp
  have s5 := wrote_put_str [' ', '>', ' '] s4
    (by simp only [List.length_append, List.length_nil, List.length_singleton, List.length_cons]; omega)
  have s6 := wrote_put_str (inet_ntop ip_dst) s5
    (by simp only [List.length_append, List.length_nil, List.length_singleton, List.length_cons]; omega)
  have s7 := wrote_put_port dst_port s6
    (by simp only [List.length_append, List.length_nil, List.length_singleton, List.length_cons]; omega) hdp
  simpa [format_state, meta_chars] using s7

theorem put_port_pos (color : Nat) (p : Nat) (st : packet_t × Nat)
    (hl : st.2 + 6 ≤ MAX_INFO_LEN - 1) (hp : p < 65536) :
    (if p > 0 then put_str color (fmt_u p) (put_guarded color ':' st) else st).2
      = st.2 + (if p > 0 then [':'] ++ fmt_u p else []).length := by
  have h5 := fmt_u_port p hp
  by_cases h0 : p > 0
  · simp only [h0, if_true]
    rw [put_str_pos _ _ _ (by rw [put_guarded_pos _ _ _ (by omega)]; omega),
      put_guarded_pos _ _ _ (by omega)]
    simp only [List.length_append, List.length_singleton]; omega
  · simp [h0]

theorem put_port_fields (color : Nat) (p : Nat) (st : packet_t × Nat) :
    (if p > 0 then put_str color (fmt_u p) (put_guarded color ':' st) else st).1.is_inbound
      = st.1.is_inbound := by
  split
  · rw [(put_str_fields _ _ _).1, (put_guarded_fields _ _ _).1]
  · rfl

theorem format_state_pos (color : Nat) (pkt : packet_t)
    (ip_src ip_dst : in_addr) (protocol : Int) (src_port dst_port : Nat)
    (hsp : src_port < 65536) (hdp : dst_port < 65536) :
    (format_state color pkt ip_src ip_dst protocol src_port dst_port).2
      = (meta_chars ip_src ip_dst protocol src_port dst_port).length := by
  have h1 := proto_str_length protocol
  have h2 := inet_ntop_length ip_src
  have h3 := inet_ntop_length ip_dst
  have h4 := fmt_u_port src_port hsp
  have h5 := fmt_u_port dst_port hdp
  have hM : MAX_INFO_LEN - 1 = 255 := rfl
  have l4 : (if src_port > 0 then [':'] ++ fmt_u src_port else []).length ≤ 6 := by
    split
    · simp only [List.length_append, List.length_singleton]; omega
    · simp
  have s1 := put_str_pos color (proto_str protocol) (pkt, 0) (by simp only; omega)
  have s2 := put_guarded_pos color ' ' _ (by rw [s1]; simp only; omega)
  have s3 := put_str_pos color (inet_ntop ip_src) _ (by rw [s2, s1]; simp only; omega)
  have s4 := put_port_pos color src_port _ (by rw [s3, s2, s1]; simp only; omega) hsp
  have s5 := put_str_pos color [' ', '>', ' '] _
    (by rw [s4, s3, s2, s1]; simp only [List.length_cons, List.length_nil]; omega)
  have s6 := put_str_pos color (inet_ntop ip_dst) _
    (by rw [s5, s4, s3, s2, s1]; simp only [List.length_cons, List.length_nil]; omega)
  have s7 := put_port_pos color dst_port _
    (by rw [s6, s5, s4, s3, s2, s1]; simp only [List.length_cons, List.length_nil]; omega) hdp
  unfold format_state
  simp only
  rw [s7, s6, s5, s4, s3, s2, s1]
  simp only [meta_chars, List.length_append, List.length_cons, List.length_nil]
  omega

theorem format_state_inbound (color : Nat) (pkt : packet_t)
    (ip_src ip_dst : in_addr) (protocol : Int) (src_port dst_port : Nat) :
    (format_state color pkt ip_src ip_dst protocol src_port dst_port).1.is_inbound
      = pkt.is_inbound := by
  unfold format_state
  simp only
  rw [put_port_fields, (put_str_fields _ _ _).1, (put_str_fields _ _ _).1, put_port_fields,
    (put_str_fields _ _ _).1, (put_guarded_fields _ _ _).1, (put_str_fields _ _ _).1]

/-- The fields of the meta event that do not depend on the arrays of `pkt`. -/
theorem format_packet_info_fields (local_ips : List in_addr) (local_ip_count : Int)
    (pkt : packet_t) (ip_src ip_dst : in_addr) (protocol : Int) (src_port dst_port : Nat)
    (hsp : src_port < 65536) (hdp : dst_port < 65536) :
    (format_packet_info local_ips local_ip_count pkt ip_src ip_dst protocol src_port dst_port).length
      = (meta_chars ip_src ip_dst protocol src_port dst_port).length ∧
    (format_packet_info local_ips local_ip_count pkt ip_src ip_dst protocol src_port dst_port).is_encrypted
      = is_encrypted_traffic src_port dst_port ∧
    (format_packet_info local_ips local_ip_count pkt ip_src ip_dst protocol src_port dst_port).column_zone
      = (if is_encrypted_traffic src_port dst_port ≠ 0 then ZONE_ENCRYPTED_META else ZONE_CLEARTEXT) ∧
    (format_packet_info local_ips local_ip_count pkt ip_src ip_dst protocol src_port dst_port).is_inbound
      = is_local_ip local_ips local_ip_count ip_dst := by
  rw [format_packet_info_eq]
  simp only
  exact ⟨format_state_pos _ _ _ _ _ _ _ hsp hdp, trivial, trivial, format_state_inbound _ _ _ _ _ _ _⟩

/-- For every address pair, protocol and pair of 16-bit ports, whether or not the handler can
pass them, `format_packet_info` sets the text to exactly `PROTO SRC[:PORT] > DST[:PORT]`;
`length` is the length of that line, between 20 and 50, and at most 49 unless the protocol is
ICMP and both ports are non-zero; `text[length]` is the NUL sentinel. -/
theorem format_packet_info_text (local_ips : List in_addr) (local_ip_count : Int)
    (pkt : packet_t) (hs : pkt.sized) (ip_src ip_dst : in_addr) (protocol : Int)
    (src_port dst_port : Nat) (hsp : src_port < 65536) (hdp : dst_port < 65536) :
    ((format_packet_info local_ips local_ip_count pkt ip_src ip_dst protocol src_port dst_port).text.take
        (format_packet_info local_ips local_ip_count pkt ip_src ip_dst protocol src_port dst_port).length
      = (meta_line ip_src ip_dst protocol src_port dst_port).data) ∧
    (format_packet_info local_ips local_ip_count pkt ip_src ip_dst protocol src_port dst_port).length
      = (meta_line ip_src ip_dst protocol src_port dst_port).length ∧
    20 ≤ (format_packet_info local_ips local_ip_count pkt ip_src ip_dst protocol src_port dst_port).length ∧
    (format_packet_info local_ips local_ip_count pkt ip_src ip_dst protocol src_port dst_port).length ≤ 50 ∧
    ((protocol ≠ 1 ∨ src_port = 0 ∨ dst_port = 0) →
      (format_packet_info local_ips local_ip_count pkt ip_src ip_dst protocol src_port dst_port).length ≤ 49) ∧
    (format_packet_info local_ips local_ip_count pkt ip_src ip_dst protocol src_port dst_port).text[
        (format_packet_info local_ips local_ip_count pkt ip_src ip_dst protocol src_port dst_port).length]?
      = some (Char.ofNat 0) := by
  have hf := (format_packet_info_fields local_ips local_ip_count pkt ip_src ip_dst protocol
    src_port dst_port hsp hdp).1
  have hl := meta_chars_length ip_src ip_dst protocol src_port dst_port hsp hdp
  have hd := meta_line_data ip_src ip_dst protocol src_port dst_port
  have hw := format_state_wrote
    (if is_local_ip local_ips local_ip_count ip_dst ≠ 0 then COLOR_INBOUND else COLOR_OUTBOUND)
    { pkt with is_inbound := is_local_ip local_ips local_ip_count ip_dst } hs
    ip_src ip_dst protocol src_port dst_port hsp hdp
  obtain ⟨w1, w2, w3, w4, w5⟩ := hw
  have hlen : (meta_line ip_src ip_dst protocol src_port dst_port).length
      = (meta_chars ip_src ip_dst protocol src_port dst_port).length := by
    rw [← hd]; rfl
  rw [hf]
  refine ⟨?_, hlen.symm, hl.1, hl.2.1, hl.2.2, ?_⟩
  · rw [format_packet_info_eq]
    simp only
    rw [← w3, take_set_same, w4, hd]
  · rw [format_packet_info_eq]
    simp only
    rw [← w3, List.getElem?_set_self (by rw [w1, w3]; simp only [MAX_INFO_LEN]; omega)]

theorem zero_sized : packet_t.zero.sized :=
  ⟨List.length_replicate _ _, List.length_replicate _ _⟩

/-- With arguments the handler never passes (protocol ICMP with two five-digit ports) the
formatted line has 50 characters. -/
theorem format_packet_info_length_50 :
    (format_packet_info [] 0 packet_t.zero ⟨4294967295⟩ ⟨4294967295⟩ 1 65535 65535).length = 50 := by
  decide

/-! ## Hex event -/

theorem rd_eq (packet : List Nat) (i : Nat) (h : i < packet.length) :
    rd packet i = some (frame_byte packet i) := by
  simp [rd, frame_byte, List.getD_eq_getElem?_getD, List.getElem?_eq_getElem h]

theorem drop_map_cons (packet : List Nat) (i : Nat) (h : i < packet.length) :
    (packet.drop i).map (fun b => b % 256)
      = frame_byte packet i :: (packet.drop (i + 1)).map (fun b => b % 256) := by
  rw [List.drop_eq_getElem_cons h, List.map_cons]
  congr 1
  simp [frame_byte, List.getD_eq_getElem?_getD, List.getElem?_eq_getElem h]

theorem hex_loop_tail (packet : List Nat) (payload color : Nat) :
    ∀ (k i : Nat) (st : packet_t × Nat) (txt : List Char),
      wrote st txt color → 1 ≤ i → txt.length + 1 = 3 * i → i ≤ 85 →
      payload + i + k ≤ packet.length →
      ∃ st', hex_loop packet payload color (MAX_INFO_LEN - 2) k i st = some st' ∧
        wrote st' (txt ++ hex_tail (((frame_payload packet (payload + i)).take (min k (85 - i))))) color := by
  intro k
  induction k with
  | zero =>
    intro i st txt hw _ _ _ _
    exact ⟨st, rfl, by simpa [hex_tail] using hw⟩
  | succ k ih =>
    intro i st txt hw hi hl hi85 hlen
    have hM : MAX_INFO_LEN - 2 = 254 := rfl
    have hpos : st.2 = txt.length := hw.2.2.1
    unfold hex_loop
    by_cases h85 : i = 85
    · rw [if_neg (by rw [hpos, hM]; omega)]
      exact ⟨st, rfl, by subst h85; simpa [hex_tail] using hw⟩
    · have hlt : st.2 < MAX_INFO_LEN - 2 := by rw [hpos, hM]; omega
      rw [if_pos hlt]
      simp only [show (i > 0 ∧ st.2 < MAX_INFO_LEN - 2) from ⟨hi, hlt⟩, and_self, if_true]
      have hw1 := wrote_put_char ' ' hw (by simp only [MAX_INFO_LEN]; omega)
      have hpos1 : (put_char color ' ' st).2 = st.2 + 1 := rfl
      rw [if_pos (by rw [hpos1, hpos, hM]; omega)]
      rw [rd_eq packet (payload + i) (by omega)]
      simp only [Option.some_bind]
      have hw2 := wrote_put_char (hexchars.getD (frame_byte packet (payload + i) / 16 % 16) ' ') hw1
        (by simp only [MAX_INFO_LEN, List.length_append, List.length_singleton]; omega)
      have hw3 := wrote_put_char (hexchars.getD (frame_byte packet (payload + i) % 16) ' ') hw2
        (by simp only [MAX_INFO_LEN, List.length_append, List.length_singleton]; omega)
      obtain ⟨st', h1, h2⟩ := ih (i + 1) _ _ hw3 (by omega)
        (by simp only [List.length_append, List.length_singleton]; omega) (by omega) (by omega)
      refine ⟨st', h1, ?_⟩
      have e1 : min (k + 1) (85 - i) = min k (85 - (i + 1)) + 1 := by omega
      have e2 : frame_payload packet (payload + i)
          = frame_byte packet (payload + i) :: frame_payload packet (payload + (i + 1)) := by
        unfold frame_payload
        exact drop_map_cons packet (payload + i) (by omega)
      rw [e1, e2, List.take_succ_cons, hex_tail]
      simpa [hex_digits, List.append_assoc] using h2

theorem hexchars_digitChar : ∀ n, n < 16 → hexchars.getD n ' ' = Nat.digitChar n := by
  decide

theorem hex_pair_data (b : Nat) : (hex_pair b).data = hex_digits b := by
  simp only [hex_pair, hex_digits]
  rw [hexchars_digitChar _ (Nat.mod_lt _ (by decide)), hexchars_digitChar _ (Nat.mod_lt _ (by decide))]

theorem intercalate_go_data (s : String) : ∀ (l : List String) (acc : String),
    (String.intercalate.go acc s l).data
      = acc.data ++ (l.map fun a => s.data ++ a.data).flatten := by
  intro l
  induction l with
  | nil => intro acc; simp [String.intercalate.go]
  | cons a l ih =>
    intro acc
    rw [String.intercalate.go, ih]
    simp [String.data_append, List.append_assoc]

theorem hex_tail_eq (bs : List Nat) :
    hex_tail bs = (bs.map fun b => (" " : String).data ++ (hex_pair b).data).flatten := by
  induction bs with
  | nil => rfl
  | cons b bs ih =>
    rw [hex_tail, ih, List.map_cons, List.flatten_cons, hex_pair_data]
    rfl

theorem hex_tail_length (bs : List Nat) : (hex_tail bs).length = 3 * bs.length := by
  induction bs with
  | nil => rfl
  | cons b bs ih => simp only [hex_tail, hex_digits, List.length_cons, List.length_append, List.length_nil, ih]; omega

theorem hex_line_cons (b : Nat) (bs : List Nat) :
    (hex_line (b :: bs)).data = hex_digits b ++ hex_tail (bs.take 84) := by
  unfold hex_line
  rw [List.take_succ_cons, List.map_cons, String.intercalate, intercalate_go_data, hex_pair_data,
    hex_tail_eq, List.map_map]
  rfl

theorem hex_loop_start (packet : List Nat) (payload color : Nat) (pkt : packet_t) (hs : pkt.sized)
    (n : Nat) (hn : 1 ≤ n) (hlen : payload + n ≤ packet.length) :
    ∃ st', hex_loop packet payload color (MAX_INFO_LEN - 2) n 0 (pkt, 0) = some st' ∧
      wrote st' (hex_line ((frame_payload packet payload).take n)).data color := by
  obtain ⟨k, rfl⟩ : ∃ k, n = k + 1 := ⟨n - 1, by omega⟩
  have hM : MAX_INFO_LEN - 2 = 254 := rfl
  have s0 : wrote (pkt, 0) [] color := ⟨hs.1, hs.2, rfl, rfl, rfl⟩
  unfold hex_loop
  simp only [hM, show (0 : Nat) < 254 by decide, if_true, gt_iff_lt, Nat.lt_irrefl, false_and,
    if_false, show (0 : Nat) + 1 < 254 by decide]
  rw [Nat.add_zero, rd_eq packet payload (by omega)]
  simp only [Option.some_bind]
  have s1 := wrote_put_char (hexchars.getD (frame_byte packet payload / 16 % 16) ' ') s0
    (by simp [MAX_INFO_LEN])
  have s2 := wrote_put_char (hexchars.getD (frame_byte packet payload % 16) ' ') s1
    (by simp [MAX_INFO_LEN])
  obtain ⟨st', h1, h2⟩ := hex_loop_tail packet payload color k 1 _ _ s2 (le_refl _)
    (by simp) (by omega) (by omega)
  rw [hM] at h1
  refine ⟨st', h1, ?_⟩
  have e2 : frame_payload packet payload
      = frame_byte packet payload :: frame_payload packet (payload + 1) := by
    unfold frame_payload
    exact drop_map_cons packet payload (by omega)
  rw [e2, List.take_succ_cons, hex_line_cons, List.take_take]
  have e3 : min 84 k = min k (85 - 1) := by omega
  rw [e3]
  simpa [hex_digits] using h2

theorem hex_line_length (bs : List Nat) (h : 1 ≤ bs.length) :
    (hex_line bs).data.length = min (3 * bs.length - 1) 254 := by
  cases bs with
  | nil => simp at h
  | cons b bs =>
    rw [hex_line_cons, List.length_append, hex_tail_length, List.length_take]
    simp only [hex_digits, List.length_cons, List.length_nil]
    omega

theorem hex_loop_fields (packet : List Nat) (payload color max_pos : Nat) :
    ∀ (k i : Nat) (st st' : packet_t × Nat),
      hex_loop packet payload color max_pos k i st = some st' →
      st'.1.is_encrypted = st.1.is_encrypted ∧ st'.1.is_inbound = st.1.is_inbound ∧
        st'.1.column_zone = st.1.column_zone := by
  intro k
  induction k with
  | zero => intro i st st' h; simp only [hex_loop, Option.some.injEq] at h; subst h; simp
  | succ k ih =>
    intro i st st' h
    unfold hex_loop at h
    by_cases c1 : st.2 < max_pos
    · rw [if_pos c1] at h
      have hst1 : ∀ st1, (if i > 0 ∧ st.2 < max_pos then put_char color ' ' st else st) = st1 →
          st1.1.is_encrypted = st.1.is_encrypted ∧ st1.1.is_inbound = st.1.is_inbound ∧
            st1.1.column_zone = st.1.column_zone := by
        intro st1 e; subst e; split <;> simp [put_char]
      simp only at h
      generalize hst : (if i > 0 ∧ st.2 < max_pos then put_char color ' ' st else st) = st1 at h
      have hs1 := hst1 st1 hst
      by_cases c2 : st1.2 + 1 < max_pos
      · rw [if_pos c2] at h
        cases hr : rd packet (payload + i) with
        | none => rw [hr] at h; simp at h
        | some b =>
          rw [hr] at h
          simp only [Option.some_bind] at h
          have := ih _ _ _ h
          simp only [put_char] at this
          rw [this.1, this.2.1, this.2.2]; exact hs1
      · rw [if_neg c2] at h
        have := ih _ _ _ h
        rw [this.1, this.2.1, this.2.2]; exact hs1
    · rw [if_neg c1] at h
      simp only [Option.some.injEq] at h; subst h; simp

/-- C10: for a payload of `n >= 20` bytes the hex event's text is exactly the first
`min(n, 85)` payload bytes, each as two lowercase hex digits (high nibble first) joined by single
spaces; its length is `min(3n - 1, 254)`, it does not end in a partial pair, and `text[length]`
is the NUL sentinel at an index `<= 254`. -/
theorem hex_event_text (hex_pkt : packet_t) (hs : hex_pkt.sized) (is_inbound : Nat)
    (packet : List Nat) (payload n : Nat) (hn : MIN_PACKET_DISPLAY ≤ n)
    (hlen : payload + n ≤ packet.length) :
    ∃ hex, hex_event hex_pkt is_inbound packet payload n = some hex ∧
      hex.text.take hex.length
        = (hex_line ((frame_payload packet payload).take n)).data ∧
      hex_line ((frame_payload packet payload).take n)
        = " ".intercalate (((frame_payload packet payload).take (min n 85)).map hex_pair) ∧
      hex.length = min (3 * n - 1) 254 ∧
      hex.length % 3 = 2 ∧
      hex.length ≤ 254 ∧
      hex.text[hex.length]? = some (Char.ofNat 0) ∧
      hex.is_encrypted = 1 ∧ hex.is_inbound = is_inbound ∧ hex.column_zone = ZONE_ENCRYPTED_HEX := by
  have hn1 : 1 ≤ n := by simp only [MIN_PACKET_DISPLAY] at hn; omega
  obtain ⟨st', h1, h2⟩ := hex_loop_start packet payload
    (if is_inbound ≠ 0 then COLOR_INBOUND else COLOR_OUTBOUND)
    { hex_pkt with is_encrypted := 1, is_inbound := is_inbound, column_zone := ZONE_ENCRYPTED_HEX }
    hs n hn1 hlen
  obtain ⟨w1, w2, w3, w4, w5⟩ := h2
  have hplen : ((frame_payload packet payload).take n).length = n := by
    simp [frame_payload]; omega
  have hll := hex_line_length ((frame_payload packet payload).take n) (by omega)
  rw [hplen] at hll
  have hf := hex_loop_fields _ _ _ _ _ _ _ _ h1
  have hlen' : st'.2 = min (3 * n - 1) 254 := by rw [w3, hll]
  refine ⟨{ st'.1 with text := st'.1.text.set st'.2 (Char.ofNat 0), length := st'.2 },
    by unfold hex_event; simp only; rw [h1]; rfl, ?_, ?_, hlen', ?_, ?_, ?_, hf.1, hf.2.1, hf.2.2⟩
  · simp only; rw [take_set_same, w4]
  · unfold hex_line; rw [List.take_take, Nat.min_comm]
  · show st'.2 % 3 = 2
    rw [hlen']; simp only [MIN_PACKET_DISPLAY] at hn; omega
  · show st'.2 ≤ 254
    rw [hlen']; omega
  · simp only
    have : st'.2 ≤ 254 := by rw [hlen']; omega
    rw [List.getElem?_set_self (by rw [w1]; simp only [MAX_INFO_LEN]; omega)]

theorem hex_event_text_witness :
    (packet_t.zero.sized ∧ MIN_PACKET_DISPLAY ≤ 20 ∧ 54 + 20 ≤ (List.replicate 74 171).length) ∧
    ∃ hex, hex_event packet_t.zero 1 (List.replicate 74 171) 54 20 = some hex ∧
      hex.length = min (3 * 20 - 1) 254 :=
  ⟨⟨zero_sized, by decide, by decide⟩,
    (hex_event_text packet_t.zero zero_sized 1 (List.replicate 74 171) 54 20 (by decide)
      (by decide)).imp fun _ h => ⟨h.1, h.2.2.2.1⟩⟩

/-! ## Header parser -/

theorem frame_byte_lt (packet : List Nat) (i : Nat) : frame_byte packet i < 256 :=
  Nat.mod_lt _ (by decide)

theorem rd16_eq (packet : List Nat) (i : Nat) (h : i + 1 < packet.length) :
    rd16 packet i = some (frame_byte packet i * 256 + frame_byte packet (i + 1)) := by
  unfold rd16
  rw [rd_eq packet i (by omega), rd_eq packet (i + 1) h]
  rfl

theorem rd_addr_eq (packet : List Nat) (i : Nat) (h : i + 3 < packet.length) :
    rd_addr packet i = some ⟨((frame_byte packet i * 256 + frame_byte packet (i + 1)) * 256
      + frame_byte packet (i + 2)) * 256 + frame_byte packet (i + 3)⟩ := by
  unfold rd_addr
  rw [rd_eq packet i (by omega), rd_eq packet (i + 1) (by omega), rd_eq packet (i + 2) (by omega),
    rd_eq packet (i + 3) h]
  rfl

/-- What the transport branch returns, case by case. -/
theorem parse_transport_cases (packet : List Nat) (ip_header_len protocol : Nat) :
    (protocol = IPPROTO_TCP ∧ ETHER_HDR_LEN + ip_header_len + 20 ≤ packet.length ∧
      ∃ sp dp thl, parse_transport packet ip_header_len protocol = some (sp, dp, thl) ∧
        sp < 65536 ∧ dp < 65536 ∧ 20 ≤ thl ∧ thl ≤ 60) ∨
    (protocol = IPPROTO_UDP ∧ ETHER_HDR_LEN + ip_header_len + 8 ≤ packet.length ∧
      ∃ sp dp, parse_transport packet ip_header_len protocol = some (sp, dp, 8) ∧
        sp < 65536 ∧ dp < 65536) ∨
    ((protocol = IPPROTO_TCP → packet.length < ETHER_HDR_LEN + ip_header_len + 20) ∧
      (protocol = IPPROTO_UDP → packet.length < ETHER_HDR_LEN + ip_header_len + 8) ∧
      parse_transport packet ip_header_len protocol = some (0, 0, 0)) := by
  have hb := frame_byte_lt packet
  unfold parse_transport
  by_cases h6 : protocol = IPPROTO_TCP
  · by_cases hl : ETHER_HDR_LEN + ip_header_len + 20 ≤ packet.length
    · left
      refine ⟨h6, hl, ?_⟩
      simp only [h6, if_true, ge_iff_le, hl]
      rw [rd16_eq _ _ (by omega), rd16_eq _ _ (by omega), rd_eq _ _ (by omega)]
      simp only [Option.some_bind]
      refine ⟨_, _, _, rfl, ?_, ?_, ?_, ?_⟩
      · have := hb (ETHER_HDR_LEN + ip_header_len); have := hb (ETHER_HDR_LEN + ip_header_len + 1); omega
      · have := hb (ETHER_HDR_LEN + ip_header_len + 2); have := hb (ETHER_HDR_LEN + ip_header_len + 2 + 1); omega
      · split <;> omega
      · split <;> omega
    · right; right
      refine ⟨fun _ => by omega, fun h => by simp [h6, IPPROTO_TCP, IPPROTO_UDP] at h, ?_⟩
      simp only [h6, if_true, ge_iff_le, hl, if_false]
  · by_cases h17 : protocol = IPPROTO_UDP
    · subst h17
      have h17 : IPPROTO_UDP = IPPROTO_UDP := rfl
      by_cases hl : ETHER_HDR_LEN + ip_header_len + 8 ≤ packet.length
      · right; left
        refine ⟨h17, hl, ?_⟩
        simp only [h6, if_false, h17, if_true, ge_iff_le, hl]
        rw [rd16_eq _ _ (by omega), rd16_eq _ _ (by omega)]
        simp only [Option.some_bind]
        refine ⟨_, _, rfl, ?_, ?_⟩
        · have := hb (ETHER_HDR_LEN + ip_header_len); have := hb (ETHER_HDR_LEN + ip_header_len + 1); omega
        · have := hb (ETHER_HDR_LEN + ip_header_len + 2); have := hb (ETHER_HDR_LEN + ip_header_len + 2 + 1); omega
      · right; right
        refine ⟨fun h => absurd h h6, fun _ => by omega, ?_⟩
        simp only [h6, if_false, h17, if_true, ge_iff_le, hl]
    · right; right
      refine ⟨fun h => absurd h h6, fun h => absurd h h17, ?_⟩
      simp only [h6, if_false, h17]

theorem to_int_small (n : Nat) (h : n < 2147483648) : to_int n = (n : Int) := by
  unfold to_int
  rw [Nat.mod_eq_of_lt (by omega), if_pos h]

/-- A frame that fails one of the checks of capture.c:204-215 is rejected. -/
theorem parse_rejected (packet : List Nat) (h : ¬ frame_accepted packet) :
    packet_handler_parse packet = some none := by
  unfold packet_handler_parse
  simp only [ETHER_HDR_LEN, ETHERTYPE_IP]
  by_cases h1 : packet.length < 14
  · rw [if_pos h1]
  rw [if_neg h1, rd16_eq _ _ (by omega)]
  simp only [Option.some_bind]
  by_cases h2 : frame_byte packet 12 * 256 + frame_byte packet (12 + 1) ≠ 2048
  · rw [if_pos h2]
  rw [if_neg h2]
  by_cases h3 : packet.length < 14 + 20
  · rw [if_pos h3]
  rw [if_neg h3, rd_eq _ _ (by omega)]
  simp only [Option.some_bind]
  by_cases h4 : frame_byte packet 14 % 16 * 4 < 20
  · rw [if_pos h4]
  rw [if_neg h4]
  by_cases h5 : packet.length < 14 + frame_byte packet 14 % 16 * 4
  · rw [if_pos h5]
  exfalso
  apply h
  simp only [frame_accepted, frame_ether_type, frame_ihl]
  simp only [ne_eq, not_not, Nat.reduceAdd] at h2
  omega

/-- An accepted frame is parsed: the locals are those read from the header fields. -/
theorem parse_accepted (packet : List Nat) (h : frame_accepted packet) :
    ∃ tr, parse_transport packet (frame_ihl packet * 4) (frame_protocol packet) = some tr ∧
      packet_handler_parse packet = some (some
        { ip_header_len := frame_ihl packet * 4
          protocol := frame_protocol packet
          src_port := tr.1
          dst_port := tr.2.1
          transport_header_len := tr.2.2
          payload := (payload_of packet.length (14 + frame_ihl packet * 4 + tr.2.2) tr.2.2).1
          payload_len := (payload_of packet.length (14 + frame_ihl packet * 4 + tr.2.2) tr.2.2).2 }) := by
  obtain ⟨h1, h2, h3, h4, h5⟩ := h
  simp only [frame_ether_type, frame_ihl] at h2 h4 h5
  have htr : ∃ tr, parse_transport packet (frame_ihl packet * 4) (frame_protocol packet) = some tr := by
    rcases parse_transport_cases packet (frame_ihl packet * 4) (frame_protocol packet) with
      ⟨_, _, sp, dp, thl, e, _⟩ | ⟨_, _, sp, dp, e, _⟩ | ⟨_, _, e⟩
    · exact ⟨_, e⟩
    · exact ⟨_, e⟩
    · exact ⟨_, e⟩
  obtain ⟨tr, htr⟩ := htr
  refine ⟨tr, htr, ?_⟩
  unfold packet_handler_parse
  simp only [ETHER_HDR_LEN, ETHERTYPE_IP]
  rw [if_neg (by omega), rd16_eq _ _ (by omega)]
  simp only [Option.some_bind]
  rw [if_neg (by simp only [ne_eq, not_not, Nat.reduceAdd]; omega), if_neg (by omega),
    rd_eq _ _ (by omega)]
  simp only [Option.some_bind]
  rw [if_neg (by omega), if_neg (by omega), rd_eq _ _ (by omega)]
  simp only [Option.some_bind]
  simp only [frame_ihl, frame_protocol] at htr
  rw [show (14 + 9 = 23) from rfl, htr]
  simp only [Option.some_bind, payload_of, frame_ihl, frame_protocol]
  split <;> rfl

/-! ## Handler -/

theorem hex_loop_indep (packet : List Nat) (payload color max_pos : Nat) :
    ∀ (k i : Nat) (p q : packet_t) (pos : Nat),
      (hex_loop packet payload color max_pos k i (p, pos)).map Prod.snd
        = (hex_loop packet payload color max_pos k i (q, pos)).map Prod.snd := by
  intro k
  induction k with
  | zero => intro i p q pos; rfl
  | succ k ih =>
    intro i p q pos
    unfold hex_loop
    by_cases c1 : pos < max_pos
    · simp only [c1, if_true, and_true]
      by_cases c0 : i > 0
      · simp only [c0, if_true, put_char]
        by_cases c2 : pos + 1 + 1 < max_pos
        · simp only [c2, if_true]
          cases rd packet (payload + i) with
          | none => rfl
          | some b => simp only [Option.some_bind]; exact ih _ _ _ _
        · simp only [c2, if_false]; exact ih _ _ _ _
      · simp only [c0, if_false, put_char]
        by_cases c2 : pos + 1 < max_pos
        · simp only [c2, if_true]
          cases rd packet (payload + i) with
          | none => rfl
          | some b => simp only [Option.some_bind]; exact ih _ _ _ _
        · simp only [c2, if_false]; exact ih _ _ _ _
    · simp only [c1, if_false]; rfl

/-- The hex block returns an event for any initial `hex_pkt`, with the length of the hex line. -/
theorem hex_event_length (hex_pkt : packet_t) (is_inbound : Nat) (packet : List Nat)
    (payload n : Nat) (hn : 1 ≤ n) (hlen : payload + n ≤ packet.length) :
    ∃ hex, hex_event hex_pkt is_inbound packet payload n = some hex ∧
      hex.length = min (3 * n - 1) 254 ∧
      hex.is_encrypted = 1 ∧ hex.is_inbound = is_inbound ∧ hex.column_zone = ZONE_ENCRYPTED_HEX := by
  obtain ⟨stq, h1, h2⟩ := hex_loop_start packet payload
    (if is_inbound ≠ 0 then COLOR_INBOUND else COLOR_OUTBOUND) packet_t.zero zero_sized n hn hlen
  have hplen : ((frame_payload packet payload).take n).length = n := by
    simp [frame_payload]; omega
  have hll := hex_line_length ((frame_payload packet payload).take n) (by omega)
  rw [hplen] at hll
  have hi := hex_loop_indep packet payload
    (if is_inbound ≠ 0 then COLOR_INBOUND else COLOR_OUTBOUND) (MAX_INFO_LEN - 2) n 0
    { hex_pkt with is_encrypted := 1, is_inbound := is_inbound, column_zone := ZONE_ENCRYPTED_HEX }
    packet_t.zero 0
  rw [h1] at hi
  cases hr : hex_loop packet payload (if is_inbound ≠ 0 then COLOR_INBOUND else COLOR_OUTBOUND)
      (MAX_INFO_LEN - 2) n 0
      ({ hex_pkt with
          is_encrypted := 1, is_inbound := is_inbound, column_zone := ZONE_ENCRYPTED_HEX }, 0) with
  | none => rw [hr] at hi; simp at hi
  | some st' =>
    rw [hr] at hi
    simp only [Option.map_some', Option.some.injEq] at hi
    have hf := hex_loop_fields _ _ _ _ _ _ _ _ hr
    refine ⟨{ st'.1 with text := st'.1.text.set st'.2 (Char.ofNat 0), length := st'.2 },
      by unfold hex_event; simp only; rw [hr]; rfl, ?_, hf.1, hf.2.1, hf.2.2⟩
    show st'.2 = _
    rw [hi, h2.2.2.1, hll]

theorem meta_event_fields (g : capture_globals) (pkt : packet_t) (packet : List Nat)
    (h : parsed_headers) (hsp : h.src_port < 65536) (hdp : h.dst_port < 65536) :
    20 ≤ (meta_event g pkt packet h).length ∧
    (meta_event g pkt packet h).is_encrypted = is_encrypted_traffic h.src_port h.dst_port ∧
    (meta_event g pkt packet h).column_zone
      = (if is_encrypted_traffic h.src_port h.dst_port ≠ 0 then ZONE_ENCRYPTED_META
          else ZONE_CLEARTEXT) ∧
    (meta_event g pkt packet h).is_inbound
      = is_local_ip g.local_ips g.local_ip_count (frame_ip_dst packet) := by
  obtain ⟨f1, f2, f3, f4⟩ := format_packet_info_fields g.local_ips g.local_ip_count
    { pkt with length := 0, is_encrypted := 0, is_inbound := 0, column_zone := 0 }
    (frame_ip_src packet) (frame_ip_dst packet) (h.protocol : Int) h.src_port h.dst_port hsp hdp
  have hl := meta_chars_length (frame_ip_src packet) (frame_ip_dst packet) (h.protocol : Int)
    h.src_port h.dst_port hsp hdp
  unfold meta_event
  exact ⟨by rw [f1]; exact hl.1, f2, f3, f4⟩

/-- The handler after a successful parse, with the address reads resolved. -/
theorem handler_parsed (g : capture_globals) (pkt hex_pkt : packet_t) (packet : List Nat)
    (h : parsed_headers) (hp : packet_handler_parse packet = some (some h))
    (hlen : 34 ≤ packet.length) (hsp : h.src_port < 65536) (hdp : h.dst_port < 65536) :
    packet_handler g pkt hex_pkt packet =
      match h.payload with
      | some payload =>
        if (meta_event g pkt packet h).is_encrypted ≠ 0 ∧ h.payload_len ≥ MIN_PACKET_DISPLAY then
          (hex_event hex_pkt (meta_event g pkt packet h).is_inbound packet payload
              h.payload_len).bind fun hex =>
            some { counted g with
              ring_buffer :=
                if hex.length > 0 then
                  pushed (pushed g.ring_buffer (meta_event g pkt packet h)) hex
                else pushed g.ring_buffer (meta_event g pkt packet h) }
        else some { counted g with ring_buffer := pushed g.ring_buffer (meta_event g pkt packet h) }
      | none => some { counted g with ring_buffer := pushed g.ring_buffer (meta_event g pkt packet h) } := by
  have hm := (meta_event_fields g pkt packet h hsp hdp).1
  have hpos : (meta_event g pkt packet h).length > 0 := by omega
  unfold packet_handler
  rw [hp]
  simp only [Option.some_bind, ETHER_HDR_LEN]
  rw [rd_addr_eq _ _ (by omega), rd_addr_eq _ _ (by omega)]
  simp only [Option.some_bind]
  unfold meta_event at hpos
  simp only [frame_ip_src, frame_ip_dst] at hpos
  simp only [hpos, if_true]
  rfl

theorem payload_of_small (caplen headers_len thl : Nat) (h : caplen < 2147483648) :
    payload_of caplen headers_len thl
      = if 0 < thl ∧ headers_len < caplen then (some headers_len, caplen - headers_len)
        else (none, 0) := by
  unfold payload_of
  rw [to_int_small caplen h]
  by_cases c : 0 < thl ∧ headers_len < caplen
  · rw [if_pos c, if_pos ⟨c.1, by omega⟩]
    congr 1; omega
  · rw [if_neg c, if_neg (by intro c2; exact c ⟨c2.1, by omega⟩)]

/-- Payload reads stay inside the frame, whatever the captured length. -/
theorem payload_of_bound (caplen headers_len thl o : Nat)
    (h : (payload_of caplen headers_len thl).1 = some o) :
    o + (payload_of caplen headers_len thl).2 ≤ caplen := by
  unfold payload_of at h ⊢
  split at h
  · next c =>
    rw [if_pos c]
    simp only [Option.some.injEq] at h
    subst h
    have c2 := c.2
    unfold to_int at c2 ⊢
    have := Nat.mod_le caplen 4294967296
    split at c2 <;> simp only <;> omega
  · simp at h

/-- The parsed headers of an accepted frame. -/
theorem accepted_headers (packet : List Nat) (h : frame_accepted packet) :
    ∃ hd, packet_handler_parse packet = some (some hd) ∧
      hd.ip_header_len = frame_ihl packet * 4 ∧ hd.protocol = frame_protocol packet ∧
      hd.src_port < 65536 ∧ hd.dst_port < 65536 ∧ hd.transport_header_len ≤ 60 ∧
      (hd.transport_header_len = 0 → hd.src_port = 0 ∧ hd.dst_port = 0) ∧
      (hd.protocol ≠ IPPROTO_TCP → hd.protocol ≠ IPPROTO_UDP → hd.transport_header_len = 0) ∧
      (hd.protocol = IPPROTO_TCP → packet.length < 14 + frame_ihl packet * 4 + 20 →
        hd.transport_header_len = 0) ∧
      (hd.protocol = IPPROTO_UDP → packet.length < 14 + frame_ihl packet * 4 + 8 →
        hd.transport_header_len = 0) ∧
      hd.payload = (payload_of packet.length
        (14 + hd.ip_header_len + hd.transport_header_len) hd.transport_header_len).1 ∧
      hd.payload_len = (payload_of packet.length
        (14 + hd.ip_header_len + hd.transport_header_len) hd.transport_header_len).2 := by
  obtain ⟨tr, htr, hp⟩ := parse_accepted packet h
  have key : tr.1 < 65536 ∧ tr.2.1 < 65536 ∧ tr.2.2 ≤ 60 ∧
      (tr.2.2 = 0 → tr.1 = 0 ∧ tr.2.1 = 0) ∧
      (frame_protocol packet ≠ IPPROTO_TCP → frame_protocol packet ≠ IPPROTO_UDP → tr.2.2 = 0) ∧
      (frame_protocol packet = IPPROTO_TCP → packet.length < 14 + frame_ihl packet * 4 + 20 →
        tr.2.2 = 0) ∧
      (frame_protocol packet = IPPROTO_UDP → packet.length < 14 + frame_ihl packet * 4 + 8 →
        tr.2.2 = 0) := by
    rcases parse_transport_cases packet (frame_ihl packet * 4) (frame_protocol packet) with
      ⟨c1, c2, sp, dp, thl, e, b1, b2, b3, b4⟩ | ⟨c1, c2, sp, dp, e, b1, b2⟩ | ⟨c1, c2, e⟩
    · rw [htr] at e
      simp only [Option.some.injEq] at e
      subst e
      simp only [ETHER_HDR_LEN] at c2
      refine ⟨b1, b2, b4, ?_, fun h6 => absurd c1 h6, ?_, fun h17 => ?_⟩
      · intro h0; simp only at h0; omega
      · intro _ hl; omega
      · rw [c1] at h17; exact absurd h17 (by decide)
    · rw [htr] at e
      simp only [Option.some.injEq] at e
      subst e
      simp only [ETHER_HDR_LEN] at c2
      refine ⟨b1, b2, by simp, ?_, fun _ h17 => absurd c1 h17, fun h6 => ?_, ?_⟩
      · intro h0; simp at h0
      · rw [c1] at h6; exact absurd h6 (by decide)
      · intro _ hl; omega
    · rw [htr] at e
      simp only [Option.some.injEq] at e
      subst e
      exact ⟨by decide, by decide, by decide, fun _ => ⟨rfl, rfl⟩, fun _ _ => rfl, fun _ _ => rfl,
        fun _ _ => rfl⟩
  exact ⟨_, hp, rfl, rfl, key.1, key.2.1, key.2.2.1, key.2.2.2.1, key.2.2.2.2.1,
    key.2.2.2.2.2.1, key.2.2.2.2.2.2, rfl, rfl⟩

theorem mem_encrypted_ports (p : Nat) : p ∈ encrypted_ports ↔
    (p = 443 ∨ p = 22 ∨ p = 993 ∨ p = 995 ∨ p = 465 ∨ p = 587 ∨ p = 853 ∨ p = 636 ∨ p = 989 ∨
      p = 990 ∨ p = 8443) := by
  simp only [encrypted_ports, List.mem_cons, List.mem_singleton, List.not_mem_nil, or_false]

theorem is_encrypted_port_iff (p : Nat) :
    (is_encrypted_port p = 1 ↔ p ∈ encrypted_ports) ∧ (is_encrypted_port p ≠ 0 ↔ p ∈ encrypted_ports) ∧
    (is_encrypted_port p = 0 ∨ is_encrypted_port p = 1) := by
  rw [mem_encrypted_ports]
  by_cases h : p = 443 ∨ p = 22 ∨ p = 993 ∨ p = 995 ∨ p = 465 ∨ p = 587 ∨ p = 853 ∨ p = 636 ∨
      p = 989 ∨ p = 990 ∨ p = 8443
  · have e : is_encrypted_port p = 1 := by
      rcases h with h | h | h | h | h | h | h | h | h | h | h <;> subst h <;> rfl
    rw [e]; simp [h]
  · have e : is_encrypted_port p = 0 := by
      simp only [not_or] at h
      obtain ⟨h1, h2, h3, h4, h5, h6, h7, h8, h9, h10, h11⟩ := h
      simp only [is_encrypted_port, h1, h2, h3, h4, h5, h6, h7, h8, h9, h10, h11, if_false]
    rw [e]; simp [h]

theorem is_encrypted_traffic_iff (sp dp : Nat) :
    (is_encrypted_traffic sp dp = 1 ↔ sp ∈ encrypted_ports ∨ dp ∈ encrypted_ports) ∧
    (¬ (sp ∈ encrypted_ports ∨ dp ∈ encrypted_ports) → is_encrypted_traffic sp dp = 0) := by
  unfold is_encrypted_traffic
  have h1 := (is_encrypted_port_iff sp).2.1
  have h2 := (is_encrypted_port_iff dp).2.1
  by_cases c : is_encrypted_port sp ≠ 0 ∨ is_encrypted_port dp ≠ 0
  · rw [if_pos c]
    have c2 : sp ∈ encrypted_ports ∨ dp ∈ encrypted_ports := c.imp h1.1 h2.1
    exact ⟨⟨fun _ => c2, fun _ => rfl⟩, fun n => absurd c2 n⟩
  · rw [if_neg c]
    have c2 : ¬ (sp ∈ encrypted_ports ∨ dp ∈ encrypted_ports) := fun c2 => c (c2.imp h1.2 h2.2)
    exact ⟨⟨fun h => absurd h (by decide), fun h => absurd h c2⟩, fun _ => rfl⟩

/-- C1: for every frame, every read of `packet_handler` (EtherType, IPv4 header fields, ports,
TCP data offset, addresses, payload bytes) is at an offset below the captured length: no read
returns `none`, so the handler returns a result. -/
theorem packet_handler_reads_in_bounds (g : capture_globals) (pkt hex_pkt : packet_t)
    (packet : List Nat) :
    (packet_handler_parse packet).isSome = true ∧
    (packet_handler g pkt hex_pkt packet).isSome = true := by
  by_cases ha : frame_accepted packet
  · obtain ⟨hd, hp, _, _, hsp, hdp, _, _, _, _, _, hpay, hplen⟩ := accepted_headers packet ha
    refine ⟨by rw [hp]; rfl, ?_⟩
    rw [handler_parsed g pkt hex_pkt packet hd hp ha.2.2.1 hsp hdp]
    cases hpl : hd.payload with
    | none => rfl
    | some o =>
      simp only
      split
      · next c =>
        have hb := payload_of_bound packet.length _ _ o (by rw [← hpay]; exact hpl)
        rw [← hplen] at hb
        obtain ⟨hex, he, _⟩ := hex_event_length hex_pkt (meta_event g pkt packet hd).is_inbound
          packet o hd.payload_len (by have := c.2; simp only [MIN_PACKET_DISPLAY] at this; omega) hb
        rw [he]; rfl
      · rfl
  · have hp := parse_rejected packet ha
    refine ⟨by rw [hp]; rfl, ?_⟩
    unfold packet_handler
    rw [hp]; rfl

/-- C2: if `caplen < 14`, or the EtherType is not 0x0800, or `caplen < 14 + 20`, or the IPv4
header-length field times 4 is below 20, or `caplen < 14 + 4*IHL`, then `packet_handler` rejects
the frame: it pushes no event and leaves the event queue unchanged. -/
theorem packet_handler_rejects (g : capture_globals) (pkt hex_pkt : packet_t) (packet : List Nat)
    (h : packet.length < 14 ∨ frame_ether_type packet ≠ 2048 ∨ packet.length < 14 + 20 ∨
      frame_ihl packet * 4 < 20 ∨ packet.length < 14 + 4 * frame_ihl packet) :
    packet_handler_parse packet = some none ∧
    packet_handler g pkt hex_pkt packet = some (counted g) ∧
    (counted g).ring_buffer = g.ring_buffer := by
  have ha : ¬ frame_accepted packet := by
    intro ⟨a1, a2, a3, a4, a5⟩
    rcases h with h | h | h | h | h
    · omega
    · exact h a2
    · omega
    · omega
    · omega
  have hp := parse_rejected packet ha
  refine ⟨hp, ?_, rfl⟩
  unfold packet_handler
  rw [hp]; rfl

theorem packet_handler_rejects_witness :
    ([1, 2, 3].length < 14 ∨ frame_ether_type [1, 2, 3] ≠ 2048 ∨ [1, 2, 3].length < 14 + 20 ∨
      frame_ihl [1, 2, 3] * 4 < 20 ∨ [1, 2, 3].length < 14 + 4 * frame_ihl [1, 2, 3]) ∧
    packet_handler sample_globals packet_t.zero packet_t.zero [1, 2, 3]
      = some (counted sample_globals) :=
  ⟨Or.inl (by decide),
    (packet_handler_rejects sample_globals packet_t.zero packet_t.zero [1, 2, 3]
      (Or.inl (by decide))).2.1⟩

/-- C3 as stated fails: a frame with valid Ethernet and IPv4 headers, protocol TCP and no
TCP header at all (34 captured bytes) is not rejected; the handler pushes one event. -/
theorem truncated_tcp_not_rejected :
    frame_accepted (sample_ip_frame 6) ∧ frame_protocol (sample_ip_frame 6) = 6 ∧
    (sample_ip_frame 6).length < 14 + 4 * frame_ihl (sample_ip_frame 6) + 20 ∧
    sample_globals.ring_buffer.count = 0 ∧
    (packet_handler sample_globals packet_t.zero packet_t.zero (sample_ip_frame 6)).map
      (fun g => g.ring_buffer.count) = some 1 ∧
    packet_handler sample_globals packet_t.zero packet_t.zero (sample_ip_frame 6)
      ≠ some (counted sample_globals) := by
  decide

/-- C3 (amended): for every frame with valid Ethernet and IPv4 headers whose protocol is TCP
(respectively UDP) and whose captured length is below `14 + 4*IHL + 20` (respectively
`14 + 4*IHL + 8`), `packet_handler` reads no transport field, takes both ports as 0 and the
payload as absent, and pushes exactly one event: the non-empty, non-encrypted meta event. -/
theorem truncated_transport_meta_only (g : capture_globals) (pkt hex_pkt : packet_t)
    (packet : List Nat) (ha : frame_accepted packet)
    (ht : (frame_protocol packet = 6 ∧ packet.length < 14 + 4 * frame_ihl packet + 20) ∨
      (frame_protocol packet = 17 ∧ packet.length < 14 + 4 * frame_ihl packet + 8)) :
    ∃ hd, packet_handler_parse packet = some (some hd) ∧
      hd.src_port = 0 ∧ hd.dst_port = 0 ∧ hd.transport_header_len = 0 ∧ hd.payload = none ∧
      20 ≤ (meta_event g pkt packet hd).length ∧
      (meta_event g pkt packet hd).is_encrypted = 0 ∧
      (meta_event g pkt packet hd).column_zone = ZONE_CLEARTEXT ∧
      packet_handler g pkt hex_pkt packet
        = some { counted g with ring_buffer := pushed g.ring_buffer (meta_event g pkt packet hd) } := by
  obtain ⟨hd, hp, _, hproto, hsp, hdp, _, hz, _, h6, h17, hpay, _⟩ := accepted_headers packet ha
  have hthl : hd.transport_header_len = 0 := by
    rcases ht with ⟨t1, t2⟩ | ⟨t1, t2⟩
    · exact h6 (by rw [hproto, t1]; rfl) (by omega)
    · exact h17 (by rw [hproto, t1]; rfl) (by omega)
  obtain ⟨z1, z2⟩ := hz hthl
  have hnone : hd.payload = none := by
    rw [hpay, hthl]; simp [payload_of]
  obtain ⟨m1, m2, m3, _⟩ := meta_event_fields g pkt packet hd hsp hdp
  have henc : is_encrypted_traffic hd.src_port hd.dst_port = 0 := by rw [z1, z2]; rfl
  refine ⟨hd, hp, z1, z2, hthl, hnone, m1, by rw [m2, henc], by rw [m3, henc]; rfl, ?_⟩
  rw [handler_parsed g pkt hex_pkt packet hd hp ha.2.2.1 hsp hdp, hnone]

theorem truncated_transport_meta_only_witness :
    (frame_accepted (sample_ip_frame 17) ∧
      ((frame_protocol (sample_ip_frame 17) = 6 ∧
          (sample_ip_frame 17).length < 14 + 4 * frame_ihl (sample_ip_frame 17) + 20) ∨
        (frame_protocol (sample_ip_frame 17) = 17 ∧
          (sample_ip_frame 17).length < 14 + 4 * frame_ihl (sample_ip_frame 17) + 8))) ∧
    ∃ hd, packet_handler_parse (sample_ip_frame 17) = some (some hd) ∧
      packet_handler sample_globals packet_t.zero packet_t.zero (sample_ip_frame 17)
        = some { counted sample_globals with
            ring_buffer := pushed sample_globals.ring_buffer
              (meta_event sample_globals packet_t.zero (sample_ip_frame 17) hd) } :=
  ⟨⟨by decide, Or.inr (by decide)⟩,
    (truncated_transport_meta_only sample_globals packet_t.zero packet_t.zero (sample_ip_frame 17)
      (by decide) (Or.inr (by decide))).imp fun _ h => ⟨h.1, h.2.2.2.2.2.2.2.2⟩⟩

/-- C7: for every frame that `packet_handler` does not reject, it pushes exactly two events, the
meta event first and the hex event second, when the source or destination port is in the
encrypted-port set and the payload length (`caplen` minus Ethernet, IP and transport header
lengths) is at least `MIN_PACKET_DISPLAY`, and exactly one event, the meta event, otherwise.
The captured length fits a C `int`. -/
theorem packet_handler_event_count (g : capture_globals) (pkt hex_pkt : packet_t)
    (packet : List Nat) (ha : frame_accepted packet) (hlen : packet.length < 2147483648) :
    ∃ hd, packet_handler_parse packet = some (some hd) ∧
      0 < (meta_event g pkt packet hd).length ∧
      (meta_event g pkt packet hd).column_zone ≠ ZONE_ENCRYPTED_HEX ∧
      ((hd.src_port ∈ encrypted_ports ∨ hd.dst_port ∈ encrypted_ports) ∧
        MIN_PACKET_DISPLAY ≤
          packet.length - (14 + hd.ip_header_len + hd.transport_header_len) →
        ∃ hex, hex_event hex_pkt (meta_event g pkt packet hd).is_inbound packet
            (14 + hd.ip_header_len + hd.transport_header_len)
            (packet.length - (14 + hd.ip_header_len + hd.transport_header_len)) = some hex ∧
          0 < hex.length ∧ hex.column_zone = ZONE_ENCRYPTED_HEX ∧
          packet_handler g pkt hex_pkt packet
            = some { counted g with
                ring_buffer := pushed (pushed g.ring_buffer (meta_event g pkt packet hd)) hex }) ∧
      (¬ ((hd.src_port ∈ encrypted_ports ∨ hd.dst_port ∈ encrypted_ports) ∧
          MIN_PACKET_DISPLAY ≤
            packet.length - (14 + hd.ip_header_len + hd.transport_header_len)) →
        packet_handler g pkt hex_pkt packet
          = some { counted g with
              ring_buffer := pushed g.ring_buffer (meta_event g pkt packet hd) }) := by
  obtain ⟨hd, hp, _, hproto, hsp, hdp, _, hz, _, h6, h17, hpay, hplen⟩ := accepted_headers packet ha
  obtain ⟨m1, m2, m3, _⟩ := meta_event_fields g pkt packet hd hsp hdp
  obtain ⟨e1, e2⟩ := is_encrypted_traffic_iff hd.src_port hd.dst_port
  rw [payload_of_small _ _ _ hlen] at hpay hplen
  have hM : MIN_PACKET_DISPLAY = 20 := rfl
  refine ⟨hd, hp, by omega, ?_, ?_, ?_⟩
  · rw [m3]; split <;> decide
  · intro ⟨henc, hn⟩
    have hthl : 0 < hd.transport_header_len := by
      rcases Nat.eq_zero_or_pos hd.transport_header_len with h0 | h0
      · obtain ⟨z1, z2⟩ := hz h0
        rw [z1, z2] at henc
        exact absurd henc (by decide)
      · exact h0
    have hc : 0 < hd.transport_header_len ∧
        14 + hd.ip_header_len + hd.transport_header_len < packet.length := ⟨hthl, by omega⟩
    rw [if_pos hc] at hpay hplen
    simp only at hpay hplen
    obtain ⟨hex, he, hl, _, _, hzone⟩ := hex_event_length hex_pkt
      (meta_event g pkt packet hd).is_inbound packet
      (14 + hd.ip_header_len + hd.transport_header_len)
      (packet.length - (14 + hd.ip_header_len + hd.transport_header_len)) (by omega) (by omega)
    have hpos : 0 < hex.length := by rw [hl]; omega
    refine ⟨hex, he, hpos, hzone, ?_⟩
    rw [handler_parsed g pkt hex_pkt packet hd hp ha.2.2.1 hsp hdp, hpay]
    simp only
    rw [if_pos ⟨by rw [m2, e1.2 henc]; decide, by rw [hplen]; exact hn⟩, hplen, he]
    simp only [Option.some_bind, gt_iff_lt, hpos, if_true]
  · intro hn
    rw [handler_parsed g pkt hex_pkt packet hd hp ha.2.2.1 hsp hdp]
    cases hpl : hd.payload with
    | none => rfl
    | some o =>
      simp only
      rw [if_neg]
      intro ⟨c1, c2⟩
      apply hn
      constructor
      · by_contra hne
        exact c1 (by rw [m2, e2 hne])
      · rw [hpl] at hpay
        split at hpay
        · next c =>
          rw [hM] at c2 ⊢
          rw [if_pos c] at hplen
          simp only at hplen
          omega
        · simp at hpay

theorem packet_handler_event_count_witness :
    (frame_accepted (sample_ip_frame 6 ++ sample_tcp_header 51234 443 ++ List.replicate 20 171) ∧
      (sample_ip_frame 6 ++ sample_tcp_header 51234 443 ++ List.replicate 20 171).length
        < 2147483648) ∧
    ∃ hd, packet_handler_parse
        (sample_ip_frame 6 ++ sample_tcp_header 51234 443 ++ List.replicate 20 171)
          = some (some hd) ∧
      0 < (meta_event sample_globals packet_t.zero
        (sample_ip_frame 6 ++ sample_tcp_header 51234 443 ++ List.replicate 20 171) hd).length :=
  ⟨⟨by decide, by decide⟩,
    (packet_handler_event_count sample_globals packet_t.zero packet_t.zero
      (sample_ip_frame 6 ++ sample_tcp_header 51234 443 ++ List.replicate 20 171)
      (by decide) (by decide)).imp fun _ h => ⟨h.1, h.2.1⟩⟩

/-- A valid Ethernet+IP+TCP frame with no payload yields exactly one event. -/
theorem tcp_no_payload_one_event :
    (packet_handler sample_globals packet_t.zero packet_t.zero
      (sample_ip_frame 6 ++ sample_tcp_header 51234 443)).map
        (fun g => (rb_contents RING_BUFFER_SIZE g.ring_buffer).map (fun e => e.column_zone))
      = some [ZONE_ENCRYPTED_META] := by
  decide

/-- The same frame with 20 payload bytes and encrypted destination port 443 yields exactly two
events, the meta event first and the hex event second. -/
theorem tcp_encrypted_payload_two_events :
    (packet_handler sample_globals packet_t.zero packet_t.zero
      (sample_ip_frame 6 ++ sample_tcp_header 51234 443 ++ List.replicate 20 171)).map
        (fun g => (rb_contents RING_BUFFER_SIZE g.ring_buffer).map (fun e => e.column_zone))
      = some [ZONE_ENCRYPTED_META, ZONE_ENCRYPTED_HEX] := by
  decide

/-- C8: for every classified frame, the meta event's `is_encrypted` flag is 1 if and only if the
parsed source port or the parsed destination port is one of the encrypted ports, and 0 for every
other flow, in particular for every flow that is neither TCP nor UDP; its zone is
`ZONE_ENCRYPTED_META` when the flag is 1 and `ZONE_CLEARTEXT` otherwise. The meta event is the
first event the handler pushes. -/
theorem meta_is_encrypted_iff (g : capture_globals) (pkt hex_pkt : packet_t)
    (packet : List Nat) (ha : frame_accepted packet) :
    ∃ hd, packet_handler_parse packet = some (some hd) ∧
      ((meta_event g pkt packet hd).is_encrypted = 1 ↔
        hd.src_port ∈ encrypted_ports ∨ hd.dst_port ∈ encrypted_ports) ∧
      (¬ (hd.src_port ∈ encrypted_ports ∨ hd.dst_port ∈ encrypted_ports) →
        (meta_event g pkt packet hd).is_encrypted = 0) ∧
      (hd.protocol ≠ 6 → hd.protocol ≠ 17 → (meta_event g pkt packet hd).is_encrypted = 0) ∧
      ((meta_event g pkt packet hd).is_encrypted = 1 →
        (meta_event g pkt packet hd).column_zone = ZONE_ENCRYPTED_META) ∧
      ((meta_event g pkt packet hd).is_encrypted ≠ 1 →
        (meta_event g pkt packet hd).column_zone = ZONE_CLEARTEXT) ∧
      ∃ g', packet_handler g pkt hex_pkt packet = some g' ∧
        (g'.ring_buffer = pushed g.ring_buffer (meta_event g pkt packet hd) ∨
          ∃ hex, g'.ring_buffer = pushed (pushed g.ring_buffer (meta_event g pkt packet hd)) hex) := by
  obtain ⟨hd, hp, _, hproto, hsp, hdp, _, hz, hother, _, _, hpay, hplen⟩ := accepted_headers packet ha
  obtain ⟨m1, m2, m3, _⟩ := meta_event_fields g pkt packet hd hsp hdp
  obtain ⟨e1, e2⟩ := is_encrypted_traffic_iff hd.src_port hd.dst_port
  refine ⟨hd, hp, by rw [m2]; exact e1, fun hn => by rw [m2]; exact e2 hn, ?_, ?_, ?_, ?_⟩
  · intro h6 h17
    obtain ⟨z1, z2⟩ := hz (hother h6 h17)
    rw [m2, z1, z2]; rfl
  · intro h1
    rw [m3, ← m2, h1]; rfl
  · intro h1
    rw [m3, ← m2]
    by_cases c : hd.src_port ∈ encrypted_ports ∨ hd.dst_port ∈ encrypted_ports
    · exact absurd (by rw [m2]; exact e1.2 c) h1
    · rw [m2, e2 c]; rfl
  · rw [handler_parsed g pkt hex_pkt packet hd hp ha.2.2.1 hsp hdp]
    cases hpl : hd.payload with
    | none => exact ⟨_, rfl, Or.inl rfl⟩
    | some o =>
      simp only
      split
      · next c =>
        have hb := payload_of_bound packet.length _ _ o (by rw [← hpay]; exact hpl)
        rw [← hplen] at hb
        obtain ⟨hex, he, hl, _⟩ := hex_event_length hex_pkt (meta_event g pkt packet hd).is_inbound
          packet o hd.payload_len (by have := c.2; simp only [MIN_PACKET_DISPLAY] at this; omega) hb
        rw [he]
        simp only [Option.some_bind]
        refine ⟨_, rfl, ?_⟩
        simp only
        split
        · exact Or.inr ⟨hex, rfl⟩
        · exact Or.inl rfl
      · exact ⟨_, rfl, Or.inl rfl⟩

theorem meta_is_encrypted_iff_witness :
    frame_accepted (sample_ip_frame 6 ++ sample_tcp_header 51234 443) ∧
    ∃ hd, packet_handler_parse (sample_ip_frame 6 ++ sample_tcp_header 51234 443)
          = some (some hd) ∧
      ((meta_event sample_globals packet_t.zero
          (sample_ip_frame 6 ++ sample_tcp_header 51234 443) hd).is_encrypted = 1 ↔
        hd.src_port ∈ encrypted_ports ∨ hd.dst_port ∈ encrypted_ports) :=
  ⟨by decide,
    (meta_is_encrypted_iff sample_globals packet_t.zero packet_t.zero
      (sample_ip_frame 6 ++ sample_tcp_header 51234 443) (by decide)).imp
      fun _ h => ⟨h.1, h.2.1⟩⟩

/-! ## Direction and ports of the events -/

theorem is_local_ip_loop_iff (local_ips : List in_addr) (addr : in_addr) :
    ∀ (k i : Nat), (is_local_ip_loop local_ips addr k i = 1 ↔
        ∃ j, i ≤ j ∧ j < i + k ∧ local_ips[j]? = some addr) ∧
      (is_local_ip_loop local_ips addr k i = 0 ∨ is_local_ip_loop local_ips addr k i = 1) := by
  intro k
  induction k with
  | zero =>
    intro i
    exact ⟨⟨fun h => absurd h (by simp [is_local_ip_loop]), fun ⟨j, h1, h2, _⟩ => by omega⟩,
      Or.inl rfl⟩
  | succ k ih =>
    intro i
    unfold is_local_ip_loop
    by_cases c : local_ips[i]? = some addr
    · rw [if_pos c]
      exact ⟨⟨fun _ => ⟨i, le_refl _, by omega, c⟩, fun _ => rfl⟩, Or.inr rfl⟩
    · rw [if_neg c]
      refine ⟨?_, (ih (i + 1)).2⟩
      rw [(ih (i + 1)).1]
      constructor
      · rintro ⟨j, h1, h2, h3⟩
        exact ⟨j, by omega, by omega, h3⟩
      · rintro ⟨j, h1, h2, h3⟩
        have : j ≠ i := fun e => c (e ▸ h3)
        exact ⟨j, by omega, by omega, h3⟩

theorem mem_take_iff_getElem? {α : Type} (l : List α) (n : Nat) (a : α) :
    a ∈ l.take n ↔ ∃ j, j < n ∧ l[j]? = some a := by
  rw [List.mem_iff_getElem?]
  constructor
  · rintro ⟨j, hj⟩
    rw [List.getElem?_take] at hj
    split at hj
    · exact ⟨j, by assumption, hj⟩
    · exact absurd hj (by simp)
  · rintro ⟨j, h1, h2⟩
    exact ⟨j, by rw [List.getElem?_take, if_pos h1]; exact h2⟩

/-- Source-level meaning of `is_local_ip`: the address is one of the first `local_ip_count`
entries of `local_ips`. -/
theorem is_local_ip_iff (local_ips : List in_addr) (local_ip_count : Int) (addr : in_addr) :
    (is_local_ip local_ips local_ip_count addr = 1 ↔
      addr ∈ local_ips.take local_ip_count.toNat) ∧
    (is_local_ip local_ips local_ip_count addr = 0 ∨
      is_local_ip local_ips local_ip_count addr = 1) := by
  unfold is_local_ip
  obtain ⟨h1, h2⟩ := is_local_ip_loop_iff local_ips addr local_ip_count.toNat 0
  refine ⟨?_, h2⟩
  rw [h1, mem_take_iff_getElem?]
  constructor
  · rintro ⟨j, _, h3, h4⟩; exact ⟨j, by omega, h4⟩
  · rintro ⟨j, h3, h4⟩; exact ⟨j, by omega, by omega, h4⟩

theorem getElem?_of_take_replicate {α : Type} (l : List α) (n : Nat) (c : α)
    (h : l.take n = List.replicate n c) (i : Nat) (hi : i < n) : l[i]? = some c := by
  have h1 : (l.take n)[i]? = l[i]? := by rw [List.getElem?_take, if_pos hi]
  rw [← h1, h, List.getElem?_replicate, if_pos hi]

theorem meta_event_coloured (g : capture_globals) (pkt : packet_t) (hs : pkt.sized)
    (packet : List Nat) (h : parsed_headers) (hsp : h.src_port < 65536)
    (hdp : h.dst_port < 65536) :
    direction_coloured g packet (meta_event g pkt packet h) := by
  obtain ⟨i1, i2⟩ := is_local_ip_iff g.local_ips g.local_ip_count (frame_ip_dst packet)
  have hf := (meta_event_fields g pkt packet h hsp hdp).2.2.2
  have hw := format_state_wrote
    (if is_local_ip g.local_ips g.local_ip_count (frame_ip_dst packet) ≠ 0 then COLOR_INBOUND
      else COLOR_OUTBOUND)
    { pkt with
      length := 0, is_encrypted := 0, column_zone := 0,
      is_inbound := is_local_ip g.local_ips g.local_ip_count (frame_ip_dst packet) } hs
    (frame_ip_src packet) (frame_ip_dst packet) (h.protocol : Int) h.src_port h.dst_port hsp hdp
  obtain ⟨_, _, w3, _, w5⟩ := hw
  refine ⟨by rw [hf]; exact i1, by rw [hf]; exact i2, ?_⟩
  intro i hi
  rw [hf]
  have hc : (if is_local_ip g.local_ips g.local_ip_count (frame_ip_dst packet) = 1
      then COLOR_INBOUND else COLOR_OUTBOUND)
      = (if is_local_ip g.local_ips g.local_ip_count (frame_ip_dst packet) ≠ 0
        then COLOR_INBOUND else COLOR_OUTBOUND) := by
    rcases i2 with e | e <;> rw [e] <;> rfl
  rw [hc]
  unfold meta_event at hi ⊢
  rw [format_packet_info_eq] at hi ⊢
  simp only at hi ⊢
  rw [← w3] at w5
  exact getElem?_of_take_replicate _ _ _ w5 i hi

theorem hex_event_coloured (hex_pkt : packet_t) (hs : hex_pkt.sized) (is_inbound : Nat)
    (packet : List Nat) (payload n : Nat) (hn : 1 ≤ n) (hlen : payload + n ≤ packet.length)
    (hex : packet_t) (he : hex_event hex_pkt is_inbound packet payload n = some hex) :
    hex.is_inbound = is_inbound ∧
    ∀ i, i < hex.length →
      hex.colors[i]? = some (if is_inbound ≠ 0 then COLOR_INBOUND else COLOR_OUTBOUND) := by
  obtain ⟨st', h1, h2⟩ := hex_loop_start packet payload
    (if is_inbound ≠ 0 then COLOR_INBOUND else COLOR_OUTBOUND)
    { hex_pkt with is_encrypted := 1, is_inbound := is_inbound, column_zone := ZONE_ENCRYPTED_HEX }
    hs n hn hlen
  obtain ⟨_, _, w3, _, w5⟩ := h2
  have hf := hex_loop_fields _ _ _ _ _ _ _ _ h1
  unfold hex_event at he
  simp only at he
  rw [h1] at he
  simp only [Option.map_some', Option.some.injEq] at he
  subst he
  refine ⟨hf.2.1, ?_⟩
  intro i hi
  simp only at hi ⊢
  rw [← w3] at w5
  exact getElem?_of_take_replicate _ _ _ w5 i hi

/-- C11: for every display event produced from a frame (the meta event, and the hex event when
there is one), `is_inbound` is 1 if and only if the frame's IPv4 destination address is one of
the first `local_ip_count` entries of `local_ips`, and every colour tag `colors[i]` with
`i < length` is `COLOR_INBOUND` when `is_inbound` is 1 and `COLOR_OUTBOUND` otherwise. -/
theorem events_direction_coloured (g : capture_globals) (pkt hex_pkt : packet_t)
    (hs : pkt.sized) (hhs : hex_pkt.sized) (packet : List Nat) (ha : frame_accepted packet) :
    ∃ hd g', packet_handler_parse packet = some (some hd) ∧
      packet_handler g pkt hex_pkt packet = some g' ∧
      direction_coloured g packet (meta_event g pkt packet hd) ∧
      (g'.ring_buffer = pushed g.ring_buffer (meta_event g pkt packet hd) ∨
        ∃ hex, g'.ring_buffer = pushed (pushed g.ring_buffer (meta_event g pkt packet hd)) hex ∧
          direction_coloured g packet hex) := by
  obtain ⟨hd, hp, _, _, hsp, hdp, _, _, _, _, _, hpay, hplen⟩ := accepted_headers packet ha
  have hm := meta_event_coloured g pkt hs packet hd hsp hdp
  rw [handler_parsed g pkt hex_pkt packet hd hp ha.2.2.1 hsp hdp]
  cases hpl : hd.payload with
  | none => exact ⟨hd, _, hp, rfl, hm, Or.inl rfl⟩
  | some o =>
    simp only
    split
    · next c =>
      have hb := payload_of_bound packet.length _ _ o (by rw [← hpay]; exact hpl)
      rw [← hplen] at hb
      have hn1 : 1 ≤ hd.payload_len := by
        have := c.2; simp only [MIN_PACKET_DISPLAY] at this; omega
      obtain ⟨hex, he, hl, _⟩ := hex_event_length hex_pkt (meta_event g pkt packet hd).is_inbound
        packet o hd.payload_len hn1 hb
      obtain ⟨c1, c2⟩ := hex_event_coloured hex_pkt hhs (meta_event g pkt packet hd).is_inbound
        packet o hd.payload_len hn1 hb hex he
      rw [he]
      simp only [Option.some_bind]
      refine ⟨hd, _, hp, rfl, hm, ?_⟩
      simp only
      split
      · refine Or.inr ⟨hex, rfl, ?_⟩
        obtain ⟨m1, m2, _⟩ := hm
        refine ⟨by rw [c1]; exact m1, by rw [c1]; exact m2, ?_⟩
        intro i hi
        rw [c2 i hi, c1]
        rcases m2 with e | e <;> rw [e] <;> rfl
      · exact Or.inl rfl
    · exact ⟨hd, _, hp, rfl, hm, Or.inl rfl⟩

theorem events_direction_coloured_witness :
    (packet_t.zero.sized ∧
      frame_accepted (sample_ip_frame 6 ++ sample_tcp_header 51234 443 ++ List.replicate 20 171)) ∧
    ∃ hd g', packet_handler_parse
        (sample_ip_frame 6 ++ sample_tcp_header 51234 443 ++ List.replicate 20 171)
          = some (some hd) ∧
      packet_handler sample_globals packet_t.zero packet_t.zero
        (sample_ip_frame 6 ++ sample_tcp_header 51234 443 ++ List.replicate 20 171) = some g' ∧
      direction_coloured sample_globals
        (sample_ip_frame 6 ++ sample_tcp_header 51234 443 ++ List.replicate 20 171)
        (meta_event sample_globals packet_t.zero
          (sample_ip_frame 6 ++ sample_tcp_header 51234 443 ++ List.replicate 20 171) hd) :=
  ⟨⟨zero_sized, by decide⟩,
    (events_direction_coloured sample_globals packet_t.zero packet_t.zero zero_sized zero_sized
      (sample_ip_frame 6 ++ sample_tcp_header 51234 443 ++ List.replicate 20 171)
      (by decide)).imp fun _ h => h.imp fun _ h2 => ⟨h2.1, h2.2.1, h2.2.2.1⟩⟩

theorem digitChar_ne_colon : ∀ m, m < 10 → Nat.digitChar m ≠ ':' := by decide

theorem toDigitsCore_no_colon : ∀ (fuel n : Nat) (ds : List Char), (∀ c ∈ ds, c ≠ ':') →
    ∀ c ∈ Nat.toDigitsCore 10 fuel n ds, c ≠ ':' := by
  intro fuel
  induction fuel with
  | zero => intro n ds h; simpa [Nat.toDigitsCore] using h
  | succ fuel ih =>
    intro n ds h
    have hd : ∀ c ∈ Nat.digitChar (n % 10) :: ds, c ≠ ':' := by
      intro c hc
      rcases List.mem_cons.1 hc with e | e
      · rw [e]; exact digitChar_ne_colon _ (Nat.mod_lt _ (by decide))
      · exact h c e
    rw [Nat.toDigitsCore]
    split
    · exact hd
    · exact ih _ _ hd

theorem fmt_u_no_colon (n : Nat) : ':' ∉ fmt_u n := by
  intro h
  exact toDigitsCore_no_colon _ _ [] (by simp) _ h rfl

theorem inet_ntop_no_colon (a : in_addr) : ':' ∉ inet_ntop a := by
  have h := fmt_u_no_colon
  simp only [inet_ntop, List.mem_append, List.mem_cons, not_or]
  exact ⟨⟨⟨h _, by decide, h _⟩, by decide, h _⟩, by decide, h _⟩

theorem proto_str_no_colon (protocol : Int) : ':' ∉ proto_str protocol := by
  unfold proto_str
  split_ifs <;> decide

theorem meta_chars_no_ports (ip_src ip_dst : in_addr) (protocol : Int) :
    ':' ∉ meta_chars ip_src ip_dst protocol 0 0 := by
  have h1 := inet_ntop_no_colon ip_src
  have h2 := inet_ntop_no_colon ip_dst
  have h3 := proto_str_no_colon protocol
  simp only [meta_chars, gt_iff_lt, Nat.lt_irrefl, if_false, List.append_nil, List.mem_append,
    List.mem_cons, List.mem_singleton, List.not_mem_nil, or_false, not_or]
  exact ⟨⟨⟨⟨h3, by decide⟩, h1⟩, by decide, by decide, by decide⟩, h2⟩

theorem format_packet_info_chars (local_ips : List in_addr) (local_ip_count : Int)
    (pkt : packet_t) (hs : pkt.sized) (ip_src ip_dst : in_addr) (protocol : Int)
    (src_port dst_port : Nat) (hsp : src_port < 65536) (hdp : dst_port < 65536) :
    (format_packet_info local_ips local_ip_count pkt ip_src ip_dst protocol src_port dst_port).text.take
        (format_packet_info local_ips local_ip_count pkt ip_src ip_dst protocol src_port dst_port).length
      = meta_chars ip_src ip_dst protocol src_port dst_port := by
  have hw := format_state_wrote
    (if is_local_ip local_ips local_ip_count ip_dst ≠ 0 then COLOR_INBOUND else COLOR_OUTBOUND)
    { pkt with is_inbound := is_local_ip local_ips local_ip_count ip_dst } hs
    ip_src ip_dst protocol src_port dst_port hsp hdp
  obtain ⟨_, _, _, w4, _⟩ := hw
  rw [format_packet_info_eq]
  simp only
  rw [take_set_same, w4]

/-- C12: for every frame that is not rejected and whose IP protocol is neither TCP nor UDP, the
ports passed to the formatter are both 0, whatever bytes follow the IP header: the meta line is
`PROTO SRC > DST` with no `:PORT` part (it contains no colon), it is the only event pushed, and
no hex event is produced. -/
theorem non_transport_ports_zero (g : capture_globals) (pkt hex_pkt : packet_t)
    (packet : List Nat) (ha : frame_accepted packet)
    (h6 : frame_protocol packet ≠ 6) (h17 : frame_protocol packet ≠ 17) :
    ∃ hd, packet_handler_parse packet = some (some hd) ∧
      hd.protocol = frame_protocol packet ∧ hd.src_port = 0 ∧ hd.dst_port = 0 ∧
      hd.payload = none ∧
      packet_handler g pkt hex_pkt packet
        = some { counted g with ring_buffer := pushed g.ring_buffer (meta_event g pkt packet hd) } ∧
      (meta_event g pkt packet hd).is_encrypted = 0 ∧
      meta_line (frame_ip_src packet) (frame_ip_dst packet) (hd.protocol : Int) 0 0
        = proto_name (hd.protocol : Int) ++ " " ++ dotted_quad (frame_ip_src packet) ++ " > " ++
            dotted_quad (frame_ip_dst packet) ∧
      (pkt.sized →
        (meta_event g pkt packet hd).text.take (meta_event g pkt packet hd).length
          = (meta_line (frame_ip_src packet) (frame_ip_dst packet) (hd.protocol : Int) 0 0).data ∧
        ':' ∉ (meta_event g pkt packet hd).text.take (meta_event g pkt packet hd).length) := by
  obtain ⟨hd, hp, _, hproto, hsp, hdp, _, hz, hother, _, _, hpay, _⟩ := accepted_headers packet ha
  have hthl : hd.transport_header_len = 0 :=
    hother (by rw [hproto]; exact h6) (by rw [hproto]; exact h17)
  obtain ⟨z1, z2⟩ := hz hthl
  have hnone : hd.payload = none := by
    rw [hpay, hthl]; simp [payload_of]
  obtain ⟨_, m2, _, _⟩ := meta_event_fields g pkt packet hd hsp hdp
  refine ⟨hd, hp, hproto, z1, z2, hnone, ?_, by rw [m2, z1, z2]; rfl, ?_, ?_⟩
  · rw [handler_parsed g pkt hex_pkt packet hd hp ha.2.2.1 hsp hdp, hnone]
  · simp [meta_line]
  · intro hs
    have ht := format_packet_info_chars g.local_ips g.local_ip_count
      { pkt with length := 0, is_encrypted := 0, is_inbound := 0, column_zone := 0 } hs
      (frame_ip_src packet) (frame_ip_dst packet) (hd.protocol : Int) hd.src_port hd.dst_port
      hsp hdp
    unfold meta_event
    rw [ht, z1, z2, meta_line_data]
    exact ⟨rfl, meta_chars_no_ports _ _ _⟩

theorem non_transport_ports_zero_witness :
    (frame_accepted (sample_ip_frame 1 ++ sample_tcp_header 51234 443 ++ List.replicate 20 171) ∧
      frame_protocol (sample_ip_frame 1 ++ sample_tcp_header 51234 443 ++ List.replicate 20 171)
        ≠ 6 ∧
      frame_protocol (sample_ip_frame 1 ++ sample_tcp_header 51234 443 ++ List.replicate 20 171)
        ≠ 17) ∧
    ∃ hd, packet_handler_parse
        (sample_ip_frame 1 ++ sample_tcp_header 51234 443 ++ List.replicate 20 171)
          = some (some hd) ∧
      hd.protocol = frame_protocol
        (sample_ip_frame 1 ++ sample_tcp_header 51234 443 ++ List.replicate 20 171) ∧
      hd.src_port = 0 ∧ hd.dst_port = 0 :=
  ⟨⟨by decide, by decide, by decide⟩,
    (non_transport_ports_zero sample_globals packet_t.zero packet_t.zero
      (sample_ip_frame 1 ++ sample_tcp_header 51234 443 ++ List.replicate 20 171)
      (by decide) (by decide) (by decide)).imp fun _ h => ⟨h.1, h.2.1, h.2.2.1, h.2.2.2.1⟩⟩

/-! ## The meta line on the frames the handler accepts -/

/-- C9: for every address pair, protocol and pair of 16-bit ports that the handler can pass to
it (ports are non-zero only for protocol 6 or 17, as `packet_handler` parses them only then),
`format_packet_info` sets the text to exactly `PROTO ++ " " ++ dotted-quad(src) ++ [":" ++
decimal(src_port)] ++ " > " ++ dotted-quad(dst) ++ [":" ++ decimal(dst_port)]`, the port parts
being present for ports `> 0`; `length` is the length of that string, between 20 and 49, so the
text is not empty and not truncated by the limit `MAX_INFO_LEN - 1`, and `text[length]` is the
NUL sentinel. The second part says that the arguments of the call in `packet_handler` are of
this kind for every frame that is not rejected. -/
theorem format_packet_info_line (local_ips : List in_addr) (local_ip_count : Int)
    (pkt : packet_t) (hs : pkt.sized) (ip_src ip_dst : in_addr) (protocol : Int)
    (src_port dst_port : Nat) (hsp : src_port < 65536) (hdp : dst_port < 65536)
    (hports : protocol ≠ 6 → protocol ≠ 17 → src_port = 0 ∧ dst_port = 0) :
    ((format_packet_info local_ips local_ip_count pkt ip_src ip_dst protocol src_port dst_port).text.take
        (format_packet_info local_ips local_ip_count pkt ip_src ip_dst protocol src_port dst_port).length
      = (meta_line ip_src ip_dst protocol src_port dst_port).data ∧
    (format_packet_info local_ips local_ip_count pkt ip_src ip_dst protocol src_port dst_port).length
      = (meta_line ip_src ip_dst protocol src_port dst_port).length ∧
    20 ≤ (format_packet_info local_ips local_ip_count pkt ip_src ip_dst protocol src_port dst_port).length ∧
    (format_packet_info local_ips local_ip_count pkt ip_src ip_dst protocol src_port dst_port).length ≤ 49 ∧
    (format_packet_info local_ips local_ip_count pkt ip_src ip_dst protocol src_port dst_port).length
      ≤ MAX_INFO_LEN - 1 ∧
    (format_packet_info local_ips local_ip_count pkt ip_src ip_dst protocol src_port dst_port).text[
        (format_packet_info local_ips local_ip_count pkt ip_src ip_dst protocol src_port dst_port).length]?
      = some (Char.ofNat 0)) ∧
    (∀ packet : List Nat, frame_accepted packet →
      ∃ hd, packet_handler_parse packet = some (some hd) ∧
        hd.src_port < 65536 ∧ hd.dst_port < 65536 ∧
        ((hd.protocol : Int) ≠ 6 → (hd.protocol : Int) ≠ 17 →
          hd.src_port = 0 ∧ hd.dst_port = 0)) := by
  obtain ⟨t1, t2, t3, _, t5, t6⟩ := format_packet_info_text local_ips local_ip_count pkt hs
    ip_src ip_dst protocol src_port dst_port hsp hdp
  have h49 := t5 (by
    by_cases h1 : protocol = 1
    · right; left
      exact (hports (by omega) (by omega)).1
    · left; exact h1)
  refine ⟨⟨t1, t2, t3, h49, ?_, t6⟩, ?_⟩
  · simp only [MAX_INFO_LEN]; omega
  · intro packet ha
    obtain ⟨hd, hp, _, _, hsp1, hdp1, _, hz, hother, _⟩ := accepted_headers packet ha
    refine ⟨hd, hp, hsp1, hdp1, fun h6 h17 => hz (hother ?_ ?_)⟩
    · intro c; rw [c] at h6; exact h6 rfl
    · intro c; rw [c] at h17; exact h17 rfl

theorem format_packet_info_line_witness :
    (format_packet_info [] 0 packet_t.zero ⟨4294967295⟩ ⟨4294967295⟩ 6 65535 65535).length
      ≤ 49 :=
  (format_packet_info_line [] 0 packet_t.zero zero_sized ⟨4294967295⟩ ⟨4294967295⟩ 6
    65535 65535 (by decide) (by decide) (fun h => absurd rfl h)).1.2.2.2.1

/-! ## The stream engine: lists, slots and single loop iterations -/

theorem getD_set {α : Type} (l : List α) (i j : Nat) (x d : α) (h : i < l.length) :
    (l.set i x).getD j d = if j = i then x else l.getD j d := by
  by_cases c : j = i
  · subst c; rw [if_pos rfl]; exact getD_set_same l j x d h
  · rw [if_neg c]; exact getD_set_other l i j x d (Ne.symm c)

theorem fill_loop_eq {α : Type} (f : Nat → α) : ∀ (n : Nat) (a : List α), a.length = n →
    fill_loop n f a = (List.range n).map f := by
  intro n a h
  apply List.ext_getElem?
  intro j
  have key : ∀ (m : Nat), m ≤ n →
      ((List.range m).foldl (fun a i => a.set i (f i)) a)[j]?
        = if j < m then some (f j) else a[j]? := by
    intro m
    induction m with
    | zero => intro _; simp
    | succ m ih =>
      intro hm
      rw [List.range_succ, List.foldl_append]
      simp only [List.foldl_cons, List.foldl_nil]
      rw [List.getElem?_set]
      have hl : ((List.range m).foldl (fun a i => a.set i (f i)) a).length = n := by
        have : ∀ (l : List Nat) (b : List α),
            (l.foldl (fun a i => a.set i (f i)) b).length = b.length := by
          intro l
          induction l with
          | nil => intro b; rfl
          | cons x l ihl => intro b; simp only [List.foldl_cons]; rw [ihl]; simp
        rw [this, h]
      by_cases c : m = j
      · subst c
        rw [if_pos rfl, if_pos (by rw [hl]; omega), if_pos (by omega)]
      · rw [if_neg c, ih (by omega)]
        by_cases c2 : j < m
        · rw [if_pos c2, if_pos (by omega)]
        · rw [if_neg c2, if_neg (by omega)]
  unfold fill_loop
  rw [key n (le_refl _)]
  by_cases c : j < n
  · rw [if_pos c, List.getElem?_map, List.getElem?_range c]; rfl
  · rw [if_neg c, List.getElem?_eq_none (by omega), List.getElem?_eq_none (by simp; omega)]

theorem fill_ones (n : Nat) :
    fill_loop n (fun _ => 1) (List.replicate n 0) = List.replicate n 1 := by
  rw [fill_loop_eq _ n _ (List.length_replicate _ _)]
  apply List.ext_getElem?
  intro j
  by_cases c : j < n
  · rw [List.getElem?_map, List.getElem?_range c, List.getElem?_replicate, if_pos c]; rfl
  · rw [List.getElem?_eq_none (by simp; omega), List.getElem?_eq_none (by simp; omega)]

theorem stream_at_set (e : stream_globals) (i j : Nat) (s : stream_t) (h : i < e.streams.length) :
    (e.streams.set i s).getD j stream_t.zero = if j = i then s else stream_at e j :=
  getD_set e.streams i j s stream_t.zero h

theorem column_avail_set (avail : List Nat) (c d : Int) (v : Nat) (hc : 0 ≤ c)
    (hl : c.toNat < avail.length) (hd : 0 ≤ d) :
    (avail.set c.toNat v).getD d.toNat 0 = if d = c then v else avail.getD d.toNat 0 := by
  rw [getD_set avail c.toNat d.toNat v 0 hl]
  by_cases e : d = c
  · subst e; simp
  · rw [if_neg e, if_neg (by omega)]

/-- Rewriting slot `i` with a stream of the same column and the same emptiness keeps the
invariant. -/
theorem inv_set_keep (e : stream_globals) (i : Nat) (s : stream_t) (hinv : engine_inv e)
    (hi : i < MAX_STREAMS)
    (hst : s.state = STREAM_EMPTY ↔ (stream_at e i).state = STREAM_EMPTY)
    (hcol : s.column = (stream_at e i).column) :
    engine_inv { e with streams := e.streams.set i s } := by
  obtain ⟨h1, h2, h3, h4, h5, h6, h7, h8, h9, h10, h11⟩ := hinv
  have hat : ∀ j, stream_at { e with streams := e.streams.set i s } j
      = if j = i then s else stream_at e j := by
    intro j; exact stream_at_set e i j s (by omega)
  have hstate : ∀ j, (stream_at { e with streams := e.streams.set i s } j).state = STREAM_EMPTY ↔
      (stream_at e j).state = STREAM_EMPTY := by
    intro j; rw [hat]; split
    · next c => rw [c]; exact hst
    · rfl
  have hcolumn : ∀ j, (stream_at { e with streams := e.streams.set i s } j).column
      = (stream_at e j).column := by
    intro j; rw [hat]; split
    · next c => rw [c]; exact hcol
    · rfl
  refine ⟨by simp [h1], h2, h3, h4, h5, ?_, ?_, ?_, h9, ?_, h11⟩
  · intro j hj hne
    rw [hcolumn]
    exact h6 j hj (fun c => hne ((hstate j).2 c))
  · intro j k hj hk hjk hnj hnk
    rw [hcolumn, hcolumn]
    exact h7 j k hj hk hjk (fun c => hnj ((hstate j).2 c)) (fun c => hnk ((hstate k).2 c))
  · intro c hc0 hcw
    have := h8 c hc0 hcw
    show column_avail e c = 0 ↔ _
    rw [this]
    constructor
    · rintro ⟨j, hj, hn, hc⟩
      exact ⟨j, hj, fun c => hn ((hstate j).1 c), by rw [hcolumn]; exact hc⟩
    · rintro ⟨j, hj, hn, hc⟩
      exact ⟨j, hj, fun c => hn ((hstate j).2 c), by rw [hcolumn] at hc; exact hc⟩
  · intro x
    show x ∈ free_list e ↔ _
    rw [h10 x, hstate x]

theorem tick_stream_column (fl : ℚ → ℚ) (h : Int) (s : stream_t) :
    (tick_stream fl h s).column = s.column := by
  unfold tick_stream
  split_ifs <;> simp only [stream_fade, stream_advance] <;> (try split_ifs) <;> rfl

/-- The state after one iteration, by the state before. -/
theorem tick_stream_state (fl : ℚ → ℚ) (h : Int) (s : stream_t) :
    (s.state = STREAM_EMPTY → tick_stream fl h s = s) ∧
    (s.state = STREAM_ACTIVE →
      (tick_stream fl h s).state = STREAM_ACTIVE ∨ (tick_stream fl h s).state = STREAM_FADING) ∧
    (s.state = STREAM_FADING →
      ((tick_stream fl h s).state = STREAM_EMPTY ↔ s.chars_shown - FADE_RATE ≤ 0) ∧
      ((tick_stream fl h s).state = STREAM_FADING ↔ ¬ s.chars_shown - FADE_RATE ≤ 0)) ∧
    (s.state ≠ STREAM_EMPTY → s.state ≠ STREAM_ACTIVE → s.state ≠ STREAM_FADING →
      tick_stream fl h s = s) := by
  refine ⟨?_, ?_, ?_, ?_⟩
  · intro h0; unfold tick_stream; rw [if_pos h0]
  · intro h1
    unfold tick_stream
    rw [if_neg (by rw [h1]; decide), if_pos h1]
    simp only
    split
    · right
      simp only [stream_fade]
      split_ifs <;> rfl
    · left
      simp only [stream_advance]
      exact h1
  · intro h2
    unfold tick_stream
    rw [if_neg (by rw [h2]; decide), if_neg (by rw [h2]; decide), if_pos h2]
    simp only
    by_cases c : s.chars_shown - FADE_RATE ≤ 0
    · rw [if_pos c]; simp [c, STREAM_FADING, STREAM_EMPTY]
    · rw [if_neg c]; simp [c, h2, STREAM_FADING, STREAM_EMPTY]
  · intro h0 h1 h2
    unfold tick_stream
    rw [if_neg h0, if_neg h1, if_neg h2]

theorem free_list_length (e : stream_globals) (hinv : engine_inv e) :
    (free_list e).length = e.free_slot_count := by
  obtain ⟨_, h2, h3, _⟩ := hinv
  simp only [free_list, List.length_take]; omega

/-- While some slot is not Empty the free-slot list is not full. -/
theorem free_count_lt (e : stream_globals) (hinv : engine_inv e) (i : Nat)
    (hi : i < MAX_STREAMS) (hne : (stream_at e i).state ≠ STREAM_EMPTY) :
    e.free_slot_count < MAX_STREAMS := by
  have hl := free_list_length e hinv
  obtain ⟨_, _, _, _, _, _, _, _, h9, h10, _⟩ := hinv
  have hsub : free_list e ⊆ (List.range MAX_STREAMS).erase i := by
    intro x hx
    have := (h10 x).1 hx
    rw [List.Nodup.mem_erase_iff (List.nodup_range _)]
    exact ⟨fun c => hne (c ▸ this.2), List.mem_range.2 this.1⟩
  have hle := (List.Nodup.subperm h9 hsub).length_le
  rw [List.length_erase_of_mem (List.mem_range.2 hi), List.length_range, hl] at hle
  have : 0 < MAX_STREAMS := by decide
  omega

/-- The iteration for a slot that is not released: only the slot is rewritten. -/
theorem update_stream_keep (fl : ℚ → ℚ) (h : Int) (e : stream_globals) (i : Nat)
    (hc : ¬ ((stream_at e i).state = STREAM_FADING ∧ (stream_at e i).chars_shown - FADE_RATE ≤ 0)) :
    update_stream fl h e i
      = { e with streams := e.streams.set i (tick_stream fl h (stream_at e i)) } := by
  unfold update_stream
  simp only [stream_at] at hc ⊢
  rw [if_neg hc]

/-- The iteration for a Fading slot that has run out, in a state that satisfies the invariant:
the slot becomes Empty, its column is released and its index is appended to the free-slot
list. -/
theorem update_stream_release (fl : ℚ → ℚ) (h : Int) (e : stream_globals) (i : Nat)
    (hinv : engine_inv e) (hi : i < MAX_STREAMS)
    (hc : (stream_at e i).state = STREAM_FADING ∧ (stream_at e i).chars_shown - FADE_RATE ≤ 0) :
    update_stream fl h e i
      = { e with
          streams := e.streams.set i (tick_stream fl h (stream_at e i))
          column_available := e.column_available.set (stream_at e i).column.toNat 1
          free_slots := e.free_slots.set e.free_slot_count i
          free_slot_count := e.free_slot_count + 1 } := by
  have hlt := free_count_lt e hinv i hi (by rw [hc.1]; decide)
  unfold update_stream
  simp only [stream_at] at hc ⊢
  rw [if_pos hc, if_pos hlt]

theorem inv_update_stream (fl : ℚ → ℚ) (h : Int) (e : stream_globals) (i : Nat)
    (hinv : engine_inv e) (hi : i < MAX_STREAMS) :
    engine_inv (update_stream fl h e i) := by
  obtain ⟨t1, t2, t3, t4⟩ := tick_stream_state fl h (stream_at e i)
  by_cases hc : (stream_at e i).state = STREAM_FADING ∧
      (stream_at e i).chars_shown - FADE_RATE ≤ 0
  · rw [update_stream_release fl h e i hinv hi hc]
    have hlt := free_count_lt e hinv i hi (by rw [hc.1]; decide)
    have hfl := free_list_length e hinv
    obtain ⟨h1, h2, h3, h4, h5, h6, h7, h8, h9, h10, h11⟩ := hinv
    have hne : (stream_at e i).state ≠ STREAM_EMPTY := by rw [hc.1]; decide
    obtain ⟨hc0, hcw⟩ := h6 i hi hne
    have hempty : (tick_stream fl h (stream_at e i)).state = STREAM_EMPTY := (t3 hc.1).1.2 hc.2
    generalize hs' : tick_stream fl h (stream_at e i) = s' at hempty
    generalize he' : ({ e with
          streams := e.streams.set i s'
          column_available := e.column_available.set (stream_at e i).column.toNat 1
          free_slots := e.free_slots.set e.free_slot_count i
          free_slot_count := e.free_slot_count + 1 } : stream_globals) = e'
    have hat : ∀ j, stream_at e' j = if j = i then s' else stream_at e j := by
      intro j; rw [← he']; exact stream_at_set e i j s' (by omega)
    have hav : ∀ c : Int, 0 ≤ c →
        column_avail e' c = if c = (stream_at e i).column then 1 else column_avail e c := by
      intro c hc1; rw [← he']
      exact column_avail_set e.column_available _ c 1 hc0 (by omega) hc1
    have hw : e'.stream_screen_width = e.stream_screen_width := by rw [← he']
    have hfree : free_list e' = free_list e ++ [i] := by
      rw [← he']
      simp only [free_list]
      rw [List.take_succ, List.getElem?_set_self (by omega), List.set_take,
        List.set_eq_of_length_le (by simp)]
      rfl
    have hnot : i ∉ free_list e := fun hm => hne ((h10 i).1 hm).2
    refine ⟨by rw [← he']; simp [h1], by rw [← he']; simp [h2], by rw [← he']; simp only; omega,
      by rw [hw]; exact h4, by rw [← he']; simp [h5], ?_, ?_, ?_, ?_, ?_, ?_⟩
    · intro j hj hnj
      rw [hat] at hnj ⊢
      by_cases cj : j = i
      · rw [if_pos cj] at hnj; exact absurd hempty hnj
      · rw [if_neg cj] at hnj ⊢; rw [hw]; exact h6 j hj hnj
    · intro j k hj hk hjk hnj hnk
      rw [hat] at hnj ⊢
      rw [hat] at hnk ⊢
      by_cases cj : j = i
      · rw [if_pos cj] at hnj; exact absurd hempty hnj
      · by_cases ck : k = i
        · rw [if_pos ck] at hnk; exact absurd hempty hnk
        · rw [if_neg cj] at hnj ⊢; rw [if_neg ck] at hnk ⊢
          exact h7 j k hj hk hjk hnj hnk
    · intro c hc1 hc2
      rw [hw] at hc2
      rw [hav c hc1]
      by_cases cc : c = (stream_at e i).column
      · rw [if_pos cc]
        constructor
        · intro h01; exact absurd h01 (by decide)
        · rintro ⟨j, hj, hnj, hcj⟩
          rw [hat] at hnj hcj
          by_cases cj : j = i
          · rw [if_pos cj] at hnj; exact absurd hempty hnj
          · rw [if_neg cj] at hnj hcj
            have := h7 j i hj hi cj hnj hne
            simp only [COLUMN_GAP] at this
            omega
      · rw [if_neg cc, h8 c hc1 hc2]
        constructor
        · rintro ⟨j, hj, hnj, hcj⟩
          have cj : j ≠ i := by intro cj; rw [cj] at hcj; exact cc hcj.symm
          exact ⟨j, hj, by rw [hat, if_neg cj]; exact hnj, by rw [hat, if_neg cj]; exact hcj⟩
        · rintro ⟨j, hj, hnj, hcj⟩
          rw [hat] at hnj hcj
          by_cases cj : j = i
          · rw [if_pos cj] at hnj; exact absurd hempty hnj
          · rw [if_neg cj] at hnj hcj; exact ⟨j, hj, hnj, hcj⟩
    · rw [hfree]
      exact List.Nodup.append h9 (List.nodup_singleton i) (by simpa using hnot)
    · intro x
      rw [hfree, List.mem_append, List.mem_singleton, h10 x, hat]
      by_cases cx : x = i
      · rw [if_pos cx]; subst cx; simp [hi, hempty]
      · rw [if_neg cx]; simp [cx]
    · intro c hc1 hc2
      rw [hw] at hc2
      rw [hav c hc1]
      split
      · right; rfl
      · exact h11 c hc1 hc2
  · rw [update_stream_keep fl h e i hc]
    apply inv_set_keep e i _ hinv hi
    · by_cases c0 : (stream_at e i).state = STREAM_EMPTY
      · rw [t1 c0]
      · by_cases c1 : (stream_at e i).state = STREAM_ACTIVE
        · have := t2 c1
          constructor
          · intro hx; rcases this with y | y <;> rw [y] at hx <;> exact absurd hx (by decide)
          · intro hx; exact absurd hx c0
        · by_cases c2 : (stream_at e i).state = STREAM_FADING
          · have hnr : ¬ (stream_at e i).chars_shown - FADE_RATE ≤ 0 := fun c => hc ⟨c2, c⟩
            have := (t3 c2).2.2 hnr
            constructor
            · intro hx; rw [this] at hx; exact absurd hx (by decide)
            · intro hx; exact absurd hx c0
          · rw [t4 c0 c1 c2]
    · exact tick_stream_column fl h _

/-! ## Column search and stream creation -/

/-- The spacing rule that `column_is_spaced` decides: the column is available and so are its
in-range neighbours within `COLUMN_GAP`. -/
theorem column_is_spaced_iff (e : stream_globals) (col : Int) :
    column_is_spaced e col ≠ 0 ↔
      column_avail e col ≠ 0 ∧
      (col - 1 ≥ 0 → column_avail e (col - 1) ≠ 0) ∧
      (col + 1 < e.stream_screen_width → column_avail e (col + 1) ≠ 0) := by
  unfold column_is_spaced
  by_cases h0 : column_avail e col = 0
  · rw [if_pos h0]; simp [h0]
  · rw [if_neg h0]
    show column_gap_loop e col 1 1 ≠ 0 ↔ _
    unfold column_gap_loop
    by_cases h1 : col - 1 ≥ 0 ∧ column_avail e (col - 1) = 0
    · rw [if_pos h1]
      simp only [ne_eq, not_true_eq_false, false_iff, not_and]
      intro _ h2; exact absurd h1.2 (h2 h1.1)
    · rw [if_neg h1]
      by_cases h2 : col + 1 < e.stream_screen_width ∧ column_avail e (col + 1) = 0
      · rw [if_pos h2]
        simp only [ne_eq, not_true_eq_false, false_iff, not_and]
        intro _ _ h3; exact absurd h2.2 (h3 h2.1)
      · rw [if_neg h2]
        simp only [column_gap_loop, ne_eq, one_ne_zero, not_false_eq_true, true_iff]
        exact ⟨h0, fun c1 c2 => h1 ⟨c1, c2⟩, fun c1 c2 => h2 ⟨c1, c2⟩⟩

theorem column_is_spaced_rand (e : stream_globals) (n : Nat) (col : Int) :
    column_is_spaced { e with rand_calls := n } col = column_is_spaced e col := rfl

theorem probe_loop_spec (rand : Nat → Nat) : ∀ (k : Nat) (e : stream_globals),
    0 < e.stream_screen_width →
    (∃ n, (probe_loop rand k e).1 = { e with rand_calls := n }) ∧
    ∀ col, (probe_loop rand k e).2 = some col →
      0 ≤ col ∧ col < e.stream_screen_width ∧ column_is_spaced e col ≠ 0 := by
  intro k
  induction k with
  | zero =>
    intro e _
    exact ⟨⟨e.rand_calls, rfl⟩, fun col h => by simp [probe_loop] at h⟩
  | succ k ih =>
    intro e hw
    unfold probe_loop
    simp only
    have hr : 0 ≤ ((rand e.rand_calls : Nat) : Int).tmod e.stream_screen_width ∧
        ((rand e.rand_calls : Nat) : Int).tmod e.stream_screen_width < e.stream_screen_width := by
      rw [Int.tmod_eq_emod (by omega) (by omega)]
      exact ⟨Int.emod_nonneg _ (by omega), Int.emod_lt_of_pos _ hw⟩
    split
    · next c =>
      refine ⟨⟨_, rfl⟩, ?_⟩
      intro col hcol
      simp only [Option.some.injEq] at hcol
      subst hcol
      exact ⟨hr.1, hr.2, c⟩
    · obtain ⟨⟨n, hn⟩, h2⟩ := ih { e with rand_calls := e.rand_calls + 1 } hw
      exact ⟨⟨n, hn⟩, h2⟩

theorem scan_loop_spec (e : stream_globals) : ∀ (k : Nat) (i : Int),
    scan_loop e k i = -1 ∨
      (i ≤ scan_loop e k i ∧ scan_loop e k i < i + k ∧ column_is_spaced e (scan_loop e k i) ≠ 0) := by
  intro k
  induction k with
  | zero => intro i; left; rfl
  | succ k ih =>
    intro i
    unfold scan_loop
    split
    · next c => right; exact ⟨le_refl _, by push_cast; omega, c⟩
    · rcases ih (i + 1) with h | ⟨h1, h2, h3⟩
      · left; exact h
      · right; exact ⟨by omega, by push_cast; omega, h3⟩

/-- What `find_free_column` returns: only `rand_calls` changes, and the result is -1 or a
column of the screen that satisfies the spacing rule. -/
theorem find_free_column_spec (rand : Nat → Nat) (e : stream_globals) (zone : Nat) :
    (∃ n, (find_free_column rand e zone).1 = { e with rand_calls := n }) ∧
    ((find_free_column rand e zone).2 = -1 ∨
      (0 ≤ (find_free_column rand e zone).2 ∧
        (find_free_column rand e zone).2 < e.stream_screen_width ∧
        column_is_spaced e (find_free_column rand e zone).2 ≠ 0)) := by
  unfold find_free_column
  by_cases hw : e.stream_screen_width < 3
  · rw [if_pos hw]; exact ⟨⟨e.rand_calls, rfl⟩, Or.inl rfl⟩
  · rw [if_neg hw]
    obtain ⟨⟨n, hn⟩, h2⟩ := probe_loop_spec rand COLUMN_SEARCH_ATTEMPTS e (by omega)
    cases hp : probe_loop rand COLUMN_SEARCH_ATTEMPTS e with
    | mk e1 r =>
      rw [hp] at hn h2
      simp only at hn h2
      cases r with
      | some col =>
        simp only
        exact ⟨⟨n, hn⟩, Or.inr (h2 col rfl)⟩
      | none =>
        simp only
        refine ⟨⟨n, hn⟩, ?_⟩
        subst hn
        rcases scan_loop_spec { e with rand_calls := n } e.stream_screen_width.toNat 0 with
          h | ⟨h1, h3, h4⟩
        · left; exact h
        · right
          refine ⟨h1, ?_, h4⟩
          have : ((e.stream_screen_width.toNat : Nat) : Int) = e.stream_screen_width :=
            Int.toNat_of_nonneg (by omega)
          show scan_loop _ e.stream_screen_width.toNat 0 < e.stream_screen_width
          omega

theorem engine_inv_rand (e : stream_globals) (n : Nat) :
    engine_inv { e with rand_calls := n } ↔ engine_inv e := Iff.rfl

theorem take_pred_append {α : Type} (l : List α) (n : Nat) (d : α) (h0 : 0 < n)
    (hl : n ≤ l.length) : l.take n = l.take (n - 1) ++ [l.getD (n - 1) d] := by
  obtain ⟨m, rfl⟩ : ∃ m, n = m + 1 := ⟨n - 1, by omega⟩
  rw [List.take_succ, Nat.add_sub_cancel, List.getD_eq_getElem?_getD,
    List.getElem?_eq_getElem (by omega)]
  rfl

/-- The result of `assign_packet_to_stream` when a slot and a column are found. -/
theorem assign_some (rand : Nat → Nat) (fl : ℚ → ℚ) (e : stream_globals) (pkt : packet_t)
    (h0 : e.free_slot_count ≠ 0) (hcol : ¬ (find_free_column rand e pkt.column_zone).2 < 0) :
    ∃ s1 : stream_t, s1.state = STREAM_ACTIVE ∧
      s1.column = (find_free_column rand e pkt.column_zone).2 ∧
      s1.row = 0 ∧ s1.chars_shown = 0 ∧ s1.frames_alive = 0 ∧ s1.text_len = (pkt.length : Int) ∧
      FADE_DELAY_MIN ≤ s1.fade_at_frame ∧
      assign_packet_to_stream rand fl e pkt
        = { e with
            streams := e.streams.set (e.free_slots.getD (e.free_slot_count - 1) 0) s1
            free_slot_count := e.free_slot_count - 1
            column_available :=
              e.column_available.set (find_free_column rand e pkt.column_zone).2.toNat 0
            rand_calls := (find_free_column rand e pkt.column_zone).1.rand_calls + 2 } := by
  obtain ⟨⟨n, hn⟩, _⟩ := find_free_column_spec rand e pkt.column_zone
  unfold assign_packet_to_stream
  rw [if_neg h0]
  simp only
  rw [if_neg hcol, hn]
  exact ⟨_, rfl, rfl, rfl, rfl, rfl, rfl, by simp only [FADE_DELAY_MIN]; omega, rfl⟩

theorem inv_assign (rand : Nat → Nat) (fl : ℚ → ℚ) (e : stream_globals) (pkt : packet_t)
    (hinv : engine_inv e) : engine_inv (assign_packet_to_stream rand fl e pkt) := by
  by_cases h0 : e.free_slot_count = 0
  · unfold assign_packet_to_stream; rw [if_pos h0]; exact hinv
  obtain ⟨⟨n, hn⟩, hspec⟩ := find_free_column_spec rand e pkt.column_zone
  by_cases hneg : (find_free_column rand e pkt.column_zone).2 < 0
  · unfold assign_packet_to_stream
    rw [if_neg h0]
    simp only
    rw [if_pos hneg, hn]
    exact hinv
  obtain ⟨s1, hact, hc1, _, _, _, _, _, hres⟩ := assign_some rand fl e pkt h0 hneg
  rw [hres]
  generalize hcoldef : (find_free_column rand e pkt.column_zone).2 = col at *
  generalize (find_free_column rand e pkt.column_zone).1.rand_calls + 2 = rc
  rcases hspec with hm | ⟨hcol0, hcolw, hsp⟩
  · omega
  obtain ⟨sp0, sp1, sp2⟩ := (column_is_spaced_iff e col).1 hsp
  have hfl := free_list_length e hinv
  obtain ⟨h1, h2, h3, h4, h5, h6, h7, h8, h9, h10, h11⟩ := hinv
  generalize hidx : e.free_slots.getD (e.free_slot_count - 1) 0 = idx
  have hfree : free_list e = e.free_slots.take (e.free_slot_count - 1) ++ [idx] := by
    rw [← hidx]; exact take_pred_append _ _ 0 (by omega) (by omega)
  have hidx_mem : idx ∈ free_list e := by rw [hfree]; simp
  obtain ⟨hidx_lt, hidx_empty⟩ := (h10 idx).1 hidx_mem
  have hnd := h9
  rw [hfree] at hnd
  have hidx_not : idx ∉ e.free_slots.take (e.free_slot_count - 1) := by
    intro hm
    have := (List.nodup_append.1 hnd).2.2
    exact this hm (by simp)
  generalize he' : ({ e with
            streams := e.streams.set idx s1
            free_slot_count := e.free_slot_count - 1
            column_available := e.column_available.set col.toNat 0
            rand_calls := rc } : stream_globals) = e'
  have hat : ∀ j, stream_at e' j = if j = idx then s1 else stream_at e j := by
    intro j; rw [← he']; exact stream_at_set e idx j s1 (by omega)
  have hav : ∀ c : Int, 0 ≤ c → column_avail e' c = if c = col then 0 else column_avail e c := by
    intro c hc; rw [← he']
    exact column_avail_set e.column_available col c 0 hcol0 (by omega) hc
  have hw : e'.stream_screen_width = e.stream_screen_width := by rw [← he']
  have hfree' : free_list e' = e.free_slots.take (e.free_slot_count - 1) := by rw [← he']; rfl
  have hs1 : s1.state ≠ STREAM_EMPTY := by rw [hact]; decide
  -- no non-Empty stream of `e` is within the gap of `col`
  have hfar : ∀ k, k < MAX_STREAMS → (stream_at e k).state ≠ STREAM_EMPTY →
      (COLUMN_GAP : Int) < col - (stream_at e k).column ∨
      (COLUMN_GAP : Int) < (stream_at e k).column - col := by
    intro k hk hnk
    obtain ⟨hk0, hkw⟩ := h6 k hk hnk
    have a0 : (stream_at e k).column ≠ col := by
      intro c; exact sp0 ((h8 col hcol0 hcolw).2 ⟨k, hk, hnk, c⟩)
    have a1 : (stream_at e k).column ≠ col - 1 := by
      intro c
      exact sp1 (by omega) ((h8 (col - 1) (by omega) (by omega)).2 ⟨k, hk, hnk, c⟩)
    have a2 : (stream_at e k).column ≠ col + 1 := by
      intro c
      exact sp2 (by omega) ((h8 (col + 1) (by omega) (by omega)).2 ⟨k, hk, hnk, c⟩)
    simp only [COLUMN_GAP]
    omega
  refine ⟨by rw [← he']; simp [h1], by rw [← he']; exact h2, by rw [← he']; simp only; omega,
    by rw [hw]; exact h4, by rw [← he']; simp [h5], ?_, ?_, ?_, ?_, ?_, ?_⟩
  · intro j hj hnj
    rw [hat] at hnj ⊢
    rw [hw]
    by_cases cj : j = idx
    · rw [if_pos cj, hc1]; exact ⟨hcol0, hcolw⟩
    · rw [if_neg cj] at hnj ⊢; exact h6 j hj hnj
  · intro j k hj hk hjk hnj hnk
    rw [hat] at hnj ⊢
    rw [hat] at hnk ⊢
    by_cases cj : j = idx
    · have ck : k ≠ idx := fun c => hjk (cj.trans c.symm)
      rw [if_neg ck] at hnk ⊢
      rw [if_pos cj, hc1]
      exact hfar k hk hnk
    · rw [if_neg cj] at hnj ⊢
      by_cases ck : k = idx
      · rw [if_pos ck, hc1]
        exact (hfar j hj hnj).symm
      · rw [if_neg ck] at hnk ⊢
        exact h7 j k hj hk hjk hnj hnk
  · intro c hc0 hcw
    rw [hw] at hcw
    rw [hav c hc0]
    by_cases cc : c = col
    · rw [if_pos cc]
      exact ⟨fun _ => ⟨idx, hidx_lt, by rw [hat, if_pos rfl]; exact hs1,
        by rw [hat, if_pos rfl, hc1, cc]⟩, fun _ => rfl⟩
    · rw [if_neg cc, h8 c hc0 hcw]
      constructor
      · rintro ⟨j, hj, hnj, hcj⟩
        have cj : j ≠ idx := fun c => hnj (c ▸ hidx_empty)
        exact ⟨j, hj, by rw [hat, if_neg cj]; exact hnj, by rw [hat, if_neg cj]; exact hcj⟩
      · rintro ⟨j, hj, hnj, hcj⟩
        rw [hat] at hnj hcj
        by_cases cj : j = idx
        · rw [if_pos cj, hc1] at hcj; exact absurd hcj.symm cc
        · rw [if_neg cj] at hnj hcj; exact ⟨j, hj, hnj, hcj⟩
  · rw [hfree']; exact (List.nodup_append.1 hnd).1
  · intro x
    rw [hfree', hat]
    constructor
    · intro hx
      have cx : x ≠ idx := fun c => hidx_not (c ▸ hx)
      rw [if_neg cx]
      exact (h10 x).1 (by rw [hfree]; exact List.mem_append_left _ hx)
    · rintro ⟨hx, hxe⟩
      by_cases cx : x = idx
      · rw [if_pos cx] at hxe; exact absurd hxe hs1
      · rw [if_neg cx] at hxe
        have := (h10 x).2 ⟨hx, hxe⟩
        rw [hfree, List.mem_append, List.mem_singleton] at this
        rcases this with t | t
        · exact t
        · exact absurd t cx
  · intro c hc0 hcw
    rw [hw] at hcw
    rw [hav c hc0]
    split
    · left; rfl
    · exact h11 c hc0 hcw

/-! ## Reset, reachable states and the column invariant -/

theorem init_streams_eq (ok : Bool) (e0 : stream_globals) (width : Int)
    (hl : e0.free_slots.length = MAX_STREAMS) :
    init_streams ok e0 width
      = if width < 0 ∨ ok = false then none
        else some (reset_state e0 width e0.stream_screen_height) := by
  unfold init_streams
  by_cases c : width < 0 ∨ ok = false
  · rw [if_pos c, if_pos c]
  · rw [if_neg c, if_neg c, fill_ones]
    have hf := fill_loop_eq (fun i => MAX_STREAMS - 1 - i) MAX_STREAMS e0.free_slots hl
    refine congrArg some ?_
    unfold reset_state
    congr 1

theorem resize_streams_eq (ok : Bool) (e0 : stream_globals) (new_width new_height : Int)
    (hl : e0.free_slots.length = MAX_STREAMS) :
    resize_streams ok e0 new_width new_height
      = if new_width < 0 ∨ ok = false then none
        else some (reset_state e0 new_width new_height) := by
  unfold resize_streams
  by_cases c : new_width < 0 ∨ ok = false
  · rw [if_pos c, if_pos c]
  · rw [if_neg c, if_neg c, fill_ones]
    have hf := fill_loop_eq (fun i => MAX_STREAMS - 1 - i) MAX_STREAMS e0.free_slots hl
    refine congrArg some ?_
    unfold reset_state
    congr 1

theorem stream_at_reset (e : stream_globals) (w h : Int) (i : Nat) :
    stream_at (reset_state e w h) i = stream_t.zero := by
  simp only [stream_at, reset_state, List.getD_eq_getElem?_getD, List.getElem?_replicate]
  split <;> rfl

theorem free_list_reset (e : stream_globals) (w h : Int) :
    free_list (reset_state e w h) = (List.range MAX_STREAMS).map (fun i => MAX_STREAMS - 1 - i) := by
  simp only [free_list, reset_state]
  exact List.take_of_length_le (by simp)

theorem mem_free_list_reset (e : stream_globals) (w h : Int) (x : Nat) :
    x ∈ free_list (reset_state e w h) ↔ x < MAX_STREAMS := by
  rw [free_list_reset, List.mem_map]
  constructor
  · rintro ⟨i, hi, rfl⟩
    have := List.mem_range.1 hi
    omega
  · intro hx
    exact ⟨MAX_STREAMS - 1 - x, List.mem_range.2 (by omega), by omega⟩

theorem nodup_free_list_reset (e : stream_globals) (w h : Int) :
    (free_list (reset_state e w h)).Nodup := by
  rw [free_list_reset]
  apply List.Nodup.map_on _ (List.nodup_range _)
  intro x hx y hy hxy
  have := List.mem_range.1 hx
  have := List.mem_range.1 hy
  omega

theorem column_avail_reset (e : stream_globals) (w h : Int) (c : Int) (hc0 : 0 ≤ c)
    (hcw : c < w) : column_avail (reset_state e w h) c = 1 := by
  simp only [column_avail, reset_state, List.getD_eq_getElem?_getD, List.getElem?_replicate]
  rw [if_pos (by omega)]
  rfl

theorem inv_reset (e : stream_globals) (w h : Int) (hw : 0 ≤ w) :
    engine_inv (reset_state e w h) := by
  have hz : ∀ i, (stream_at (reset_state e w h) i).state = STREAM_EMPTY := by
    intro i; rw [stream_at_reset]; rfl
  refine ⟨by simp [reset_state], by simp [reset_state], le_refl _, hw, by simp [reset_state],
    ?_, ?_, ?_, nodup_free_list_reset e w h, ?_, ?_⟩
  · intro i _ hne; exact absurd (hz i) hne
  · intro i j _ _ _ hne; exact absurd (hz i) hne
  · intro c hc0 hcw
    rw [column_avail_reset e w h c hc0 hcw]
    constructor
    · intro h01; exact absurd h01 (by decide)
    · rintro ⟨i, _, hne, _⟩; exact absurd (hz i) hne
  · intro x
    rw [mem_free_list_reset]
    exact ⟨fun hx => ⟨hx, hz x⟩, fun hx => hx.1⟩
  · intro c hc0 hcw
    right; exact column_avail_reset e w h c hc0 hcw

theorem inv_drain (rand : Nat → Nat) (fl : ℚ → ℚ) : ∀ (k : Nat)
    (st : stream_globals × ring_buffer_t × packet_t), engine_inv st.1 →
    engine_inv (drain_loop rand fl k st).1 := by
  intro k
  induction k with
  | zero => intro st h; exact h
  | succ k ih =>
    intro st h
    unfold drain_loop
    simp only
    split
    · exact ih _ (inv_assign rand fl st.1 _ h)
    · exact h

theorem inv_stream_loop (fl : ℚ → ℚ) (h : Int) : ∀ (n : Nat) (e : stream_globals),
    n ≤ MAX_STREAMS → engine_inv e →
    engine_inv ((List.range n).foldl (update_stream fl h) e) := by
  intro n
  induction n with
  | zero => intro e _ hinv; exact hinv
  | succ n ih =>
    intro e hn hinv
    rw [List.range_succ, List.foldl_append]
    exact inv_update_stream fl h _ n (ih e (by omega) hinv) (by omega)

theorem update_streams_eq (rand : Nat → Nat) (fl : ℚ → ℚ) (e : stream_globals)
    (rb : ring_buffer_t) (pkt : packet_t) (h : Int) :
    update_streams rand fl e rb pkt h
      = ((List.range MAX_STREAMS).foldl (update_stream fl h)
          (drain_loop rand fl PACKETS_PER_FRAME (e, rb, pkt)).1,
        (drain_loop rand fl PACKETS_PER_FRAME (e, rb, pkt)).2.1) := by
  simp only [update_streams]

theorem update_streams_fst (rand : Nat → Nat) (fl : ℚ → ℚ) (e : stream_globals)
    (rb : ring_buffer_t) (pkt : packet_t) (h : Int) :
    (update_streams rand fl e rb pkt h).1
      = (List.range MAX_STREAMS).foldl (update_stream fl h)
          (drain_loop rand fl PACKETS_PER_FRAME (e, rb, pkt)).1 := by
  simp only [update_streams]

theorem update_streams_snd (rand : Nat → Nat) (fl : ℚ → ℚ) (e : stream_globals)
    (rb : ring_buffer_t) (pkt : packet_t) (h : Int) :
    (update_streams rand fl e rb pkt h).2
      = (drain_loop rand fl PACKETS_PER_FRAME (e, rb, pkt)).2.1 := by
  simp only [update_streams]

theorem inv_update_streams (rand : Nat → Nat) (fl : ℚ → ℚ) (e : stream_globals)
    (rb : ring_buffer_t) (pkt : packet_t) (h : Int) (hinv : engine_inv e) :
    engine_inv (update_streams rand fl e rb pkt h).1 := by
  have h1 := inv_drain rand fl PACKETS_PER_FRAME (e, rb, pkt) hinv
  rw [update_streams_fst]
  have h2 := inv_stream_loop fl h MAX_STREAMS _ (Nat.le_refl _) h1
  exact h2

/-- Every reachable engine state satisfies the invariant. -/
theorem inv_reachable (rand : Nat → Nat) (fl : ℚ → ℚ) (e : stream_globals)
    (hr : engine_reachable rand fl e) : engine_inv e := by
  induction hr with
  | init ok e0 e width hl hi =>
    rw [init_streams_eq ok e0 width hl] at hi
    split at hi
    · exact absurd hi (by simp)
    · next c =>
      simp only [Option.some.injEq] at hi
      subst hi
      exact inv_reset _ _ _ (by omega)
  | tick e rb pkt h _ ih => exact inv_update_streams rand fl e rb pkt h ih
  | resize ok e e' w h _ hres ih =>
    rw [resize_streams_eq ok e w h ih.2.1] at hres
    split at hres
    · exact absurd hres (by simp)
    · next c =>
      simp only [Option.some.injEq] at hres
      subst hres
      exact inv_reset _ _ _ (by omega)

theorem sample_engine_reachable (rand : Nat → Nat) (fl : ℚ → ℚ) :
    engine_reachable rand fl sample_engine := by
  have hl : stream_globals.startup.free_slots.length = MAX_STREAMS := List.length_replicate _ _
  refine engine_reachable.init true stream_globals.startup sample_engine 80 hl ?_
  rw [init_streams_eq true _ 80 hl, if_neg (by decide)]
  rfl

/-- C13: in every engine state reachable from `init_streams` by ticks of `update_streams` (any
queue contents, any random draws) and calls of `resize_streams`, two distinct non-Empty streams
have columns more than `COLUMN_GAP` apart (so they never share a column), every non-Empty
stream's column lies in `[0, width)`, and `column_available[c]` is 0 exactly for the columns held
by a non-Empty stream. -/
theorem columns_spaced (rand : Nat → Nat) (fl : ℚ → ℚ) (e : stream_globals)
    (hr : engine_reachable rand fl e) :
    (∀ i j, i < MAX_STREAMS → j < MAX_STREAMS → i ≠ j →
      (stream_at e i).state ≠ STREAM_EMPTY → (stream_at e j).state ≠ STREAM_EMPTY →
      (COLUMN_GAP : Int) < |(stream_at e i).column - (stream_at e j).column| ∧
      (stream_at e i).column ≠ (stream_at e j).column) ∧
    (∀ i, i < MAX_STREAMS → (stream_at e i).state ≠ STREAM_EMPTY →
      0 ≤ (stream_at e i).column ∧ (stream_at e i).column < e.stream_screen_width) ∧
    (∀ c : Int, 0 ≤ c → c < e.stream_screen_width →
      (column_avail e c = 0 ↔
        ∃ i, i < MAX_STREAMS ∧ (stream_at e i).state ≠ STREAM_EMPTY ∧
          (stream_at e i).column = c)) := by
  obtain ⟨_, _, _, _, _, h6, h7, h8, _⟩ := inv_reachable rand fl e hr
  refine ⟨?_, h6, h8⟩
  intro i j hi hj hij hni hnj
  have := h7 i j hi hj hij hni hnj
  simp only [COLUMN_GAP] at this ⊢
  rw [lt_abs]
  constructor
  · rcases this with t | t
    · left; exact t
    · right; push_cast at t ⊢; omega
  · push_cast at this; omega

/-! ## Slots through a tick -/

theorem assign_keeps (rand : Nat → Nat) (fl : ℚ → ℚ) (e : stream_globals) (pkt : packet_t)
    (hinv : engine_inv e) (i : Nat) (hne : (stream_at e i).state ≠ STREAM_EMPTY) :
    stream_at (assign_packet_to_stream rand fl e pkt) i = stream_at e i := by
  by_cases h0 : e.free_slot_count = 0
  · unfold assign_packet_to_stream; rw [if_pos h0]
  obtain ⟨⟨n, hn⟩, _⟩ := find_free_column_spec rand e pkt.column_zone
  by_cases hneg : (find_free_column rand e pkt.column_zone).2 < 0
  · unfold assign_packet_to_stream
    rw [if_neg h0]
    simp only
    rw [if_pos hneg, hn]
    rfl
  obtain ⟨s1, _, _, _, _, _, _, _, hres⟩ := assign_some rand fl e pkt h0 hneg
  rw [hres]
  have hfl := free_list_length e hinv
  obtain ⟨h1, h2, h3, _, _, _, _, _, _, h10, _⟩ := hinv
  have hmem : e.free_slots.getD (e.free_slot_count - 1) 0 ∈ free_list e := by
    unfold free_list
    rw [take_pred_append _ _ 0 (by omega) (by omega)]
    simp
  have hidx := (h10 _).1 hmem
  have hi : i ≠ e.free_slots.getD (e.free_slot_count - 1) 0 := by
    intro c; rw [← c] at hidx; exact hne hidx.2
  show (e.streams.set _ s1).getD i stream_t.zero = _
  rw [stream_at_set e _ i s1 (by omega), if_neg hi]

theorem drain_keeps (rand : Nat → Nat) (fl : ℚ → ℚ) : ∀ (k : Nat)
    (st : stream_globals × ring_buffer_t × packet_t), engine_inv st.1 →
    ∀ i, (stream_at st.1 i).state ≠ STREAM_EMPTY →
      stream_at (drain_loop rand fl k st).1 i = stream_at st.1 i := by
  intro k
  induction k with
  | zero => intro st _ i _; rfl
  | succ k ih =>
    intro st hinv i hne
    unfold drain_loop
    simp only
    split
    · have hk := assign_keeps rand fl st.1
        (ring_buffer_pop RING_BUFFER_SIZE st.2.1 st.2.2).2.1 hinv i hne
      rw [ih _ (inv_assign rand fl st.1 _ hinv) i (by rw [hk]; exact hne), hk]
    · rfl

theorem update_stream_length (fl : ℚ → ℚ) (h : Int) (e : stream_globals) (j : Nat) :
    (update_stream fl h e j).streams.length = e.streams.length := by
  unfold update_stream
  simp only
  split
  · split <;> simp
  · simp

theorem update_stream_at (fl : ℚ → ℚ) (h : Int) (e : stream_globals) (j i : Nat)
    (hj : j < e.streams.length) :
    stream_at (update_stream fl h e j) i
      = if i = j then tick_stream fl h (stream_at e j) else stream_at e i := by
  have key : (update_stream fl h e j).streams
      = e.streams.set j (tick_stream fl h (stream_at e j)) := by
    unfold update_stream
    simp only
    split
    · split <;> rfl
    · rfl
  unfold stream_at at key ⊢
  rw [key]
  exact getD_set e.streams j i _ stream_t.zero hj

theorem stream_loop_at (fl : ℚ → ℚ) (h : Int) (e : stream_globals) : ∀ (n : Nat),
    n ≤ e.streams.length →
    ((List.range n).foldl (update_stream fl h) e).streams.length = e.streams.length ∧
    ∀ i, stream_at ((List.range n).foldl (update_stream fl h) e) i
      = if i < n then tick_stream fl h (stream_at e i) else stream_at e i := by
  intro n
  induction n with
  | zero => intro _; exact ⟨rfl, fun i => by simp⟩
  | succ n ih =>
    intro hn
    obtain ⟨hl, hat⟩ := ih (by omega)
    rw [List.range_succ, List.foldl_append]
    simp only [List.foldl_cons, List.foldl_nil]
    refine ⟨by rw [update_stream_length, hl], ?_⟩
    intro i
    rw [update_stream_at fl h _ n i (by rw [hl]; omega)]
    by_cases c : i = n
    · rw [if_pos c, if_pos (by omega), hat n, if_neg (by omega), c]
    · rw [if_neg c, hat i]
      by_cases c2 : i < n
      · rw [if_pos c2, if_pos (by omega)]
      · rw [if_neg c2, if_neg (by omega)]

/-- In one call of `update_streams` every slot is advanced by `tick_stream`, starting from its
contents after the drain loop; a slot that was not Empty before the call is not touched by the
drain loop. -/
theorem slot_tick (rand : Nat → Nat) (fl : ℚ → ℚ) (e : stream_globals) (rb : ring_buffer_t)
    (pkt : packet_t) (h : Int) (hinv : engine_inv e) (i : Nat) (hi : i < MAX_STREAMS) :
    stream_at (update_streams rand fl e rb pkt h).1 i
      = tick_stream fl h (stream_at (drain_loop rand fl PACKETS_PER_FRAME (e, rb, pkt)).1 i) ∧
    ((stream_at e i).state ≠ STREAM_EMPTY →
      stream_at (update_streams rand fl e rb pkt h).1 i = tick_stream fl h (stream_at e i)) := by
  have hd := inv_drain rand fl PACKETS_PER_FRAME (e, rb, pkt) hinv
  have hl := (stream_loop_at fl h (drain_loop rand fl PACKETS_PER_FRAME (e, rb, pkt)).1
    MAX_STREAMS (by rw [hd.1])).2 i
  rw [if_pos hi] at hl
  rw [update_streams_fst]
  refine ⟨hl, fun hne => ?_⟩
  rw [hl, drain_keeps rand fl PACKETS_PER_FRAME (e, rb, pkt) hinv i hne]

theorem assign_width (rand : Nat → Nat) (fl : ℚ → ℚ) (e : stream_globals) (pkt : packet_t) :
    (assign_packet_to_stream rand fl e pkt).stream_screen_width = e.stream_screen_width := by
  by_cases h0 : e.free_slot_count = 0
  · unfold assign_packet_to_stream; rw [if_pos h0]
  obtain ⟨⟨n, hn⟩, _⟩ := find_free_column_spec rand e pkt.column_zone
  by_cases hneg : (find_free_column rand e pkt.column_zone).2 < 0
  · unfold assign_packet_to_stream
    rw [if_neg h0]
    simp only
    rw [if_pos hneg, hn]
  obtain ⟨s1, _, _, _, _, _, _, _, hres⟩ := assign_some rand fl e pkt h0 hneg
  rw [hres]

theorem drain_width (rand : Nat → Nat) (fl : ℚ → ℚ) : ∀ (k : Nat)
    (st : stream_globals × ring_buffer_t × packet_t),
    (drain_loop rand fl k st).1.stream_screen_width = st.1.stream_screen_width := by
  intro k
  induction k with
  | zero => intro st; rfl
  | succ k ih =>
    intro st
    unfold drain_loop
    simp only
    split
    · rw [ih, assign_width]
    · rfl

theorem update_stream_width (fl : ℚ → ℚ) (h : Int) (e : stream_globals) (j : Nat) :
    (update_stream fl h e j).stream_screen_width = e.stream_screen_width := by
  unfold update_stream
  simp only
  split
  · split <;> rfl
  · rfl

theorem stream_loop_width (fl : ℚ → ℚ) (h : Int) : ∀ (n : Nat) (e : stream_globals),
    ((List.range n).foldl (update_stream fl h) e).stream_screen_width
      = e.stream_screen_width := by
  intro n
  induction n with
  | zero => intro e; rfl
  | succ n ih =>
    intro e
    rw [List.range_succ, List.foldl_append]
    simp only [List.foldl_cons, List.foldl_nil]
    rw [update_stream_width, ih]

theorem update_streams_width (rand : Nat → Nat) (fl : ℚ → ℚ) (e : stream_globals)
    (rb : ring_buffer_t) (pkt : packet_t) (h : Int) :
    (update_streams rand fl e rb pkt h).1.stream_screen_width = e.stream_screen_width := by
  rw [update_streams_fst, stream_loop_width, drain_width]

theorem loop_state_inv (rand : Nat → Nat) (fl : ℚ → ℚ) (e : stream_globals) (rb : ring_buffer_t)
    (pkt : packet_t) (h : Int) (hinv : engine_inv e) (i : Nat) (hi : i < MAX_STREAMS) :
    engine_inv (loop_state rand fl e rb pkt h i) ∧
    ((stream_at e i).state ≠ STREAM_EMPTY →
      stream_at (loop_state rand fl e rb pkt h i) i = stream_at e i) := by
  have hd := inv_drain rand fl PACKETS_PER_FRAME (e, rb, pkt) hinv
  refine ⟨inv_stream_loop fl h i _ (by omega) hd, fun hne => ?_⟩
  have hl := (stream_loop_at fl h (drain_loop rand fl PACKETS_PER_FRAME (e, rb, pkt)).1
    i (by rw [hd.1]; omega)).2 i
  rw [if_neg (by omega)] at hl
  unfold loop_state
  rw [hl, drain_keeps rand fl PACKETS_PER_FRAME (e, rb, pkt) hinv i hne]

/-- C17: for every Fading stream with `chars_shown = v` in an engine state satisfying the
invariant `engine_inv` (as every reachable state does, `inv_reachable`), one tick of
`update_streams` sets `chars_shown` to `v - FADE_RATE`; if the new value is `<= 0` the slot
becomes Empty, `column_available[column]` becomes 1 and the loop iteration appends the slot's
index to the free-slot list (`free_slot_count` grows by 1); otherwise the stream stays Fading
and its column stays unavailable. A Fading stream does not become Active, and an Active stream
does not become Empty, in a tick. -/
theorem fading_tick (rand : Nat → Nat) (fl : ℚ → ℚ) (e : stream_globals) (rb : ring_buffer_t)
    (pkt : packet_t) (h : Int) (hinv : engine_inv e) (i : Nat)
    (hi : i < MAX_STREAMS) (hf : (stream_at e i).state = STREAM_FADING) :
    (stream_at (update_streams rand fl e rb pkt h).1 i).chars_shown
      = (stream_at e i).chars_shown - FADE_RATE ∧
    (stream_at (update_streams rand fl e rb pkt h).1 i).column = (stream_at e i).column ∧
    ((stream_at e i).chars_shown - FADE_RATE ≤ 0 →
      (stream_at (update_streams rand fl e rb pkt h).1 i).state = STREAM_EMPTY ∧
      column_avail (update_streams rand fl e rb pkt h).1 (stream_at e i).column = 1 ∧
      i ∈ free_list (update_streams rand fl e rb pkt h).1 ∧
      (update_stream fl h (loop_state rand fl e rb pkt h i) i).free_slot_count
        = (loop_state rand fl e rb pkt h i).free_slot_count + 1 ∧
      free_list (update_stream fl h (loop_state rand fl e rb pkt h i) i)
        = free_list (loop_state rand fl e rb pkt h i) ++ [i]) ∧
    (¬ (stream_at e i).chars_shown - FADE_RATE ≤ 0 →
      (stream_at (update_streams rand fl e rb pkt h).1 i).state = STREAM_FADING ∧
      column_avail (update_streams rand fl e rb pkt h).1 (stream_at e i).column = 0) ∧
    (stream_at (update_streams rand fl e rb pkt h).1 i).state ≠ STREAM_ACTIVE ∧
    (∀ j, j < MAX_STREAMS → (stream_at e j).state = STREAM_ACTIVE →
      (stream_at (update_streams rand fl e rb pkt h).1 j).state = STREAM_ACTIVE ∨
      (stream_at (update_streams rand fl e rb pkt h).1 j).state = STREAM_FADING) := by
  have hinv' := inv_update_streams rand fl e rb pkt h hinv
  have hne : (stream_at e i).state ≠ STREAM_EMPTY := by rw [hf]; decide
  have hst := (slot_tick rand fl e rb pkt h hinv i hi).2 hne
  obtain ⟨_, _, t3, _⟩ := tick_stream_state fl h (stream_at e i)
  obtain ⟨t3a, t3b⟩ := t3 hf
  have hcol : (stream_at (update_streams rand fl e rb pkt h).1 i).column = (stream_at e i).column := by
    rw [hst]; exact tick_stream_column fl h _
  have hchars : (stream_at (update_streams rand fl e rb pkt h).1 i).chars_shown
      = (stream_at e i).chars_shown - FADE_RATE := by
    rw [hst]
    unfold tick_stream
    rw [if_neg hne, if_neg (by rw [hf]; decide), if_pos hf]
    simp only
    split <;> rfl
  obtain ⟨hc0, hcw⟩ := hinv.2.2.2.2.2.1 i hi hne
  have hw := update_streams_width rand fl e rb pkt h
  refine ⟨hchars, hcol, ?_, ?_, ?_, ?_⟩
  · intro hle
    have hempty : (stream_at (update_streams rand fl e rb pkt h).1 i).state = STREAM_EMPTY := by
      rw [hst]; exact t3a.2 hle
    obtain ⟨hli, hlat⟩ := loop_state_inv rand fl e rb pkt h hinv i hi
    have hlat := hlat hne
    have hrel := update_stream_release fl h _ i hli hi (by rw [hlat]; exact ⟨hf, hle⟩)
    have hlen := free_list_length _ hli
    have hcnt := free_count_lt _ hli i hi (by rw [hlat]; exact hne)
    refine ⟨hempty, ?_, ?_, by rw [hrel], ?_⟩
    · -- the column is free again: nobody else holds it
      obtain ⟨_, _, _, _, _, _, _, h8, _, _, h11⟩ := hinv'
      rcases h11 _ hc0 (by rw [hw]; exact hcw) with z | z
      · exfalso
        obtain ⟨j, hj, hnj, hcj⟩ := (h8 _ hc0 (by rw [hw]; exact hcw)).1 z
        have hji : j ≠ i := by intro c; rw [c] at hnj; exact hnj hempty
        have hd := inv_drain rand fl PACKETS_PER_FRAME (e, rb, pkt) hinv
        have hsj := (slot_tick rand fl e rb pkt h hinv j hj).1
        have hnj1 : (stream_at (drain_loop rand fl PACKETS_PER_FRAME (e, rb, pkt)).1 j).state
            ≠ STREAM_EMPTY := by
          intro c
          rw [hsj, (tick_stream_state fl h _).1 c] at hnj
          exact hnj c
        rw [hsj, tick_stream_column] at hcj
        have hki := drain_keeps rand fl PACKETS_PER_FRAME (e, rb, pkt) hinv i hne
        have := hd.2.2.2.2.2.2.1 j i hj hi hji hnj1 (by rw [hki]; exact hne)
        rw [hki, hcj] at this
        simp only [COLUMN_GAP] at this
        omega
      · exact z
    · exact (hinv'.2.2.2.2.2.2.2.2.2.1 i).2 ⟨hi, hempty⟩
    · rw [hrel]
      simp only [free_list]
      rw [List.take_succ, List.getElem?_set_self (by rw [hli.2.1]; exact hcnt), List.set_take,
        List.set_eq_of_length_le (by simp)]
      rfl
  · intro hgt
    have hfad : (stream_at (update_streams rand fl e rb pkt h).1 i).state = STREAM_FADING := by
      rw [hst]; exact t3b.2 hgt
    refine ⟨hfad, ?_⟩
    obtain ⟨_, _, _, _, _, _, _, h8, _⟩ := hinv'
    exact (h8 _ hc0 (by rw [hw]; exact hcw)).2 ⟨i, hi, by rw [hfad]; decide, hcol⟩
  · rw [hst]
    by_cases c : (stream_at e i).chars_shown - FADE_RATE ≤ 0
    · rw [t3a.2 c]; decide
    · rw [t3b.2 c]; decide
  · intro j hj hact
    have hstj := (slot_tick rand fl e rb pkt h hinv j hj).2 (by rw [hact]; decide)
    rw [hstj]
    exact (tick_stream_state fl h (stream_at e j)).2.1 hact

/-- The drain loop on a well-formed queue holding `l`: the first `k` events (with
`k = PACKETS_PER_FRAME` at the call) are offered to `assign_packet_to_stream`, in order, but
`min (k + 1) |l|` events are removed from the queue. -/
theorem drain_loop_spec (rand : Nat → Nat) (fl : ℚ → ℚ) : ∀ (k : Nat) (e : stream_globals)
    (rb : ring_buffer_t) (pkt : packet_t), rb_wf RING_BUFFER_SIZE rb →
    (drain_loop rand fl k (e, rb, pkt)).1
      = ((rb_contents RING_BUFFER_SIZE rb).take k).foldl (assign_packet_to_stream rand fl) e ∧
    rb_wf RING_BUFFER_SIZE (drain_loop rand fl k (e, rb, pkt)).2.1 ∧
    rb_contents RING_BUFFER_SIZE (drain_loop rand fl k (e, rb, pkt)).2.1
      = (rb_contents RING_BUFFER_SIZE rb).drop (k + 1) := by
  intro k
  induction k with
  | zero =>
    intro e rb pkt hwf
    obtain ⟨hp0, hp1⟩ := contents_pop hwf pkt
    have hw := wf_pop hwf pkt
    unfold drain_loop
    simp only
    refine ⟨by simp, hw, ?_⟩
    cases hl : rb_contents RING_BUFFER_SIZE rb with
    | nil => rw [hp0 hl]; simpa using hl
    | cons x t => rw [(hp1 x t hl).2.2]; simp
  | succ k ih =>
    intro e rb pkt hwf
    obtain ⟨hp0, hp1⟩ := contents_pop hwf pkt
    have hw := wf_pop hwf pkt
    unfold drain_loop
    simp only
    cases hl : rb_contents RING_BUFFER_SIZE rb with
    | nil =>
      rw [hp0 hl]
      simp only
      rw [if_neg (by decide)]
      exact ⟨by simp, hwf, by simpa using hl⟩
    | cons x t =>
      obtain ⟨q1, q2, q3⟩ := hp1 x t hl
      rw [if_pos q1]
      obtain ⟨i1, i2, i3⟩ := ih (assign_packet_to_stream rand fl e
        (ring_buffer_pop RING_BUFFER_SIZE rb pkt).2.1)
        (ring_buffer_pop RING_BUFFER_SIZE rb pkt).1
        (ring_buffer_pop RING_BUFFER_SIZE rb pkt).2.1 hw
      refine ⟨?_, i2, ?_⟩
      · rw [i1, q3, q2]; simp
      · rw [i3, q3]; simp

/-! ## Sample engine states -/

theorem sample_engine_inv : engine_inv sample_engine := inv_reset _ _ _ (by decide)

/-- When the first random column is free and spaced, `find_free_column` returns it after one
draw. -/
theorem find_first (rand : Nat → Nat) (e : stream_globals) (zone : Nat)
    (hw : ¬ e.stream_screen_width < 3)
    (hsp : column_is_spaced e (((rand e.rand_calls : Nat) : Int).tmod e.stream_screen_width) ≠ 0) :
    find_free_column rand e zone
      = ({ e with rand_calls := e.rand_calls + 1 },
          ((rand e.rand_calls : Nat) : Int).tmod e.stream_screen_width) := by
  unfold find_free_column
  rw [if_neg hw]
  have hp : probe_loop rand COLUMN_SEARCH_ATTEMPTS e
      = ({ e with rand_calls := e.rand_calls + 1 },
          some (((rand e.rand_calls : Nat) : Int).tmod e.stream_screen_width)) := by
    show probe_loop rand (39 + 1) e = _
    unfold probe_loop
    simp only
    rw [if_pos (by rw [column_is_spaced_rand]; exact hsp)]
  rw [hp]

/-- The stream that `assign_packet_to_stream` creates when a slot and a column are found. -/
theorem assign_at (rand : Nat → Nat) (fl : ℚ → ℚ) (e : stream_globals) (pkt : packet_t)
    (hinv : engine_inv e) (h0 : e.free_slot_count ≠ 0)
    (hcol : ¬ (find_free_column rand e pkt.column_zone).2 < 0) :
    e.free_slots.getD (e.free_slot_count - 1) 0 < MAX_STREAMS ∧
    (stream_at e (e.free_slots.getD (e.free_slot_count - 1) 0)).state = STREAM_EMPTY ∧
    stream_at (assign_packet_to_stream rand fl e pkt) (e.free_slots.getD (e.free_slot_count - 1) 0)
      = { state := STREAM_ACTIVE
          column := (find_free_column rand e pkt.column_zone).2
          row := 0
          speed := stream_speed fl (rand (find_free_column rand e pkt.column_zone).1.rand_calls)
          text := pkt.text.take (pkt.length + 1) ++
            (stream_at e (e.free_slots.getD (e.free_slot_count - 1) 0)).text.drop (pkt.length + 1)
          colors := pkt.colors.take pkt.length ++
            (stream_at e (e.free_slots.getD (e.free_slot_count - 1) 0)).colors.drop pkt.length
          text_len := (pkt.length : Int)
          chars_shown := 0
          frames_alive := 0
          fade_at_frame := FADE_DELAY_MIN +
            ((rand ((find_free_column rand e pkt.column_zone).1.rand_calls + 1)
              % FADE_DELAY_RANGE : Nat) : Int) } := by
  have hmem : e.free_slots.getD (e.free_slot_count - 1) 0 ∈ free_list e := by
    unfold free_list
    rw [take_pred_append _ _ 0 (by omega) (by rw [hinv.2.1]; exact hinv.2.2.1)]
    simp
  obtain ⟨hlt, hem⟩ := (hinv.2.2.2.2.2.2.2.2.2.1 _).1 hmem
  refine ⟨hlt, hem, ?_⟩
  obtain ⟨⟨n, hn⟩, _⟩ := find_free_column_spec rand e pkt.column_zone
  unfold assign_packet_to_stream
  rw [if_neg h0]
  simp only
  rw [if_neg hcol, hn]
  simp only [stream_at]
  rw [getD_set_same _ _ _ _ (by rw [hinv.1]; exact hlt)]

theorem sample_find :
    find_free_column (fun _ => 60) sample_engine sample_packet.column_zone
      = ({ sample_engine with rand_calls := sample_engine.rand_calls + 1 }, 60) := by
  have h1 : ∀ c : Int, 0 ≤ c → c < 80 → column_avail sample_engine c ≠ 0 := by
    intro c hc0 hc
    rw [show sample_engine = reset_state stream_globals.startup 80 0 from rfl,
      column_avail_reset _ _ _ _ hc0 hc]
    decide
  have hw : sample_engine.stream_screen_width = 80 := rfl
  have := find_first (fun _ => 60) sample_engine sample_packet.column_zone
    (by rw [hw]; decide)
    (by
      rw [hw, column_is_spaced_iff]
      exact ⟨h1 _ (by decide) (by decide), fun _ => h1 _ (by decide) (by decide),
        fun _ => h1 _ (by decide) (by decide)⟩)
  rw [this, hw]
  rfl

theorem sample_active_facts :
    engine_inv sample_active ∧ sample_slot < MAX_STREAMS ∧
    (stream_at sample_active sample_slot).state = STREAM_ACTIVE ∧
    (stream_at sample_active sample_slot).row = 0 ∧
    (stream_at sample_active sample_slot).speed = 1 ∧
    (stream_at sample_active sample_slot).chars_shown = 0 ∧
    (stream_at sample_active sample_slot).frames_alive = 0 ∧
    (stream_at sample_active sample_slot).text_len = 40 ∧
    (stream_at sample_active sample_slot).fade_at_frame = 90 := by
  have hinv := sample_engine_inv
  have h0 : sample_engine.free_slot_count ≠ 0 := by
    rw [show sample_engine.free_slot_count = MAX_STREAMS from rfl]; decide
  have hneg : ¬ (find_free_column (fun _ => 60) sample_engine sample_packet.column_zone).2 < 0 := by
    rw [sample_find]; decide
  obtain ⟨hlt, _, hat⟩ := assign_at (fun _ => 60) (fun x => x) sample_engine sample_packet
    hinv h0 hneg
  refine ⟨inv_assign _ _ _ _ hinv, hlt, ?_⟩
  unfold sample_active sample_slot
  rw [hat]
  refine ⟨rfl, rfl, ?_, rfl, rfl, rfl, rfl⟩
  simp only [stream_speed]
  norm_num

/-! ## Advancing and fading streams -/

theorem float_to_int_nat (n : Nat) : float_to_int (n : ℚ) = (n : Int) := by
  simp [float_to_int]

theorem float_to_int_floor (q : ℚ) (h : 0 ≤ q) : float_to_int q = ⌊q⌋ := by
  rw [Rat.floor_def, float_to_int]
  exact Int.tdiv_eq_ediv (Rat.num_nonneg.2 h) (Int.ofNat_nonneg _)

theorem stream_advance_fields (fl : ℚ → ℚ) (s : stream_t) :
    (stream_advance fl s).row = fl (s.row + s.speed) ∧
    (stream_advance fl s).frames_alive = s.frames_alive + 1 ∧
    (stream_advance fl s).chars_shown
      = min (float_to_int (fl (s.row + s.speed))) (min s.text_len MAX_STREAM_LENGTH) ∧
    (stream_advance fl s).state = s.state ∧
    (stream_advance fl s).speed = s.speed ∧
    (stream_advance fl s).text_len = s.text_len ∧
    (stream_advance fl s).fade_at_frame = s.fade_at_frame ∧
    (stream_advance fl s).column = s.column ∧
    (stream_advance fl s).text = s.text ∧
    (stream_advance fl s).colors = s.colors := by
  refine ⟨rfl, rfl, ?_, rfl, rfl, rfl, rfl, rfl, rfl, rfl⟩
  simp only [stream_advance]
  split_ifs <;> omega

theorem stream_fade_fields (fl : ℚ → ℚ) (h : Int) (s : stream_t) :
    (stream_fade fl h s).state = STREAM_FADING ∧
    (stream_fade fl h s).frames_alive = s.frames_alive := by
  unfold stream_fade
  simp only
  split_ifs <;> exact ⟨rfl, rfl⟩

theorem tick_active (fl : ℚ → ℚ) (h : Int) (s : stream_t) (ha : s.state = STREAM_ACTIVE) :
    tick_stream fl h s
      = if float_to_int (stream_advance fl s).row - (stream_advance fl s).chars_shown > h ∨
            (stream_advance fl s).frames_alive ≥ (stream_advance fl s).fade_at_frame
        then stream_fade fl h (stream_advance fl s) else stream_advance fl s := by
  unfold tick_stream
  rw [if_neg (by rw [ha]; decide), if_pos ha]

/-- A stream that is Active before and after a loop iteration was advanced, not faded. -/
theorem tick_active_stays (fl : ℚ → ℚ) (h : Int) (s : stream_t) (ha : s.state = STREAM_ACTIVE)
    (ha' : (tick_stream fl h s).state = STREAM_ACTIVE) :
    tick_stream fl h s = stream_advance fl s := by
  rw [tick_active fl h s ha] at ha' ⊢
  split_ifs at ha' ⊢ with c
  · rw [(stream_fade_fields fl h _).1] at ha'
    exact absurd ha' (by decide)
  · rfl

theorem iterate_advance_fields (fl : ℚ → ℚ) (s : stream_t) (m : Nat) :
    ((stream_advance fl)^[m] s).state = s.state ∧
    ((stream_advance fl)^[m] s).frames_alive = s.frames_alive + (m : Int) ∧
    ((stream_advance fl)^[m] s).fade_at_frame = s.fade_at_frame ∧
    ((stream_advance fl)^[m] s).speed = s.speed ∧
    ((stream_advance fl)^[m] s).text_len = s.text_len := by
  induction m with
  | zero => simp
  | succ m ih =>
    rw [Function.iterate_succ_apply']
    obtain ⟨_, f2, _, f4, f5, f6, f7, _⟩ := stream_advance_fields fl ((stream_advance fl)^[m] s)
    rw [f2, f4, f5, f6, f7, ih.1, ih.2.1, ih.2.2.1, ih.2.2.2.1, ih.2.2.2.2]
    refine ⟨rfl, ?_, rfl, rfl, rfl⟩
    push_cast
    ring

theorem stream_ticks_snoc (fl : ℚ → ℚ) (s : stream_t) (hs : List Int) (h : Int) :
    stream_ticks fl s (hs ++ [h]) = tick_stream fl h (stream_ticks fl s hs) := by
  simp [stream_ticks, List.foldl_append]

theorem take_succ_snoc {α : Type} (l : List α) (m : Nat) (d : α) (hm : m < l.length) :
    l.take (m + 1) = l.take m ++ [l.getD m d] := by
  rw [List.take_succ, List.getD_eq_getElem?_getD, List.getElem?_eq_getElem hm]
  rfl

/-- While neither fading condition holds, the ticks of an Active stream are plain advances. -/
theorem ticks_advance (fl : ℚ → ℚ) (s : stream_t) (hs : List Int)
    (ha : s.state = STREAM_ACTIVE) :
    ∀ m, m ≤ hs.length →
      (∀ j, j < m →
        float_to_int ((stream_advance fl)^[j + 1] s).row
            - ((stream_advance fl)^[j + 1] s).chars_shown ≤ hs.getD j 0 ∧
        s.frames_alive + ((j : Int) + 1) < s.fade_at_frame) →
      stream_ticks fl s (hs.take m) = (stream_advance fl)^[m] s := by
  intro m
  induction m with
  | zero => intro _ _; rfl
  | succ m ih =>
    intro hm hc
    rw [take_succ_snoc hs m 0 (by omega), stream_ticks_snoc,
      ih (by omega) (fun j hj => hc j (by omega)), Function.iterate_succ_apply']
    obtain ⟨i1, i2, i3, _⟩ := iterate_advance_fields fl s m
    have c := hc m (by omega)
    rw [Function.iterate_succ_apply'] at c
    rw [tick_active fl _ _ (by rw [i1]; exact ha), if_neg]
    obtain ⟨_, f2, _, _, _, _, f7, _⟩ := stream_advance_fields fl ((stream_advance fl)^[m] s)
    rw [f2, f7, i2, i3]
    intro hor
    rcases hor with h1 | h2
    · omega
    · omega

theorem run_ticks_nil (rand : Nat → Nat) (fl : ℚ → ℚ) (e : stream_globals) :
    run_ticks rand fl e [] = e := by
  simp only [run_ticks, List.foldl_nil]

theorem run_ticks_cons (rand : Nat → Nat) (fl : ℚ → ℚ) (e : stream_globals)
    (x : ring_buffer_t × packet_t × Int) (xs : List (ring_buffer_t × packet_t × Int)) :
    run_ticks rand fl e (x :: xs)
      = run_ticks rand fl (update_streams rand fl e x.1 x.2.1 x.2.2).1 xs := by
  simp only [run_ticks, List.foldl_cons]

theorem inv_run_ticks (rand : Nat → Nat) (fl : ℚ → ℚ) :
    ∀ (xs : List (ring_buffer_t × packet_t × Int)) (e : stream_globals),
      engine_inv e → engine_inv (run_ticks rand fl e xs) := by
  intro xs
  induction xs with
  | nil => intro e h; rw [run_ticks_nil]; exact h
  | cons x xs ih =>
    intro e h
    rw [run_ticks_cons]
    exact ih _ (inv_update_streams rand fl e x.1 x.2.1 x.2.2 h)

theorem run_ticks_snoc (rand : Nat → Nat) (fl : ℚ → ℚ) :
    ∀ (xs : List (ring_buffer_t × packet_t × Int)) (e : stream_globals)
      (x : ring_buffer_t × packet_t × Int),
      run_ticks rand fl e (xs ++ [x])
        = (update_streams rand fl (run_ticks rand fl e xs) x.1 x.2.1 x.2.2).1 := by
  intro xs
  induction xs with
  | nil => intro e x; rw [List.nil_append, run_ticks_cons, run_ticks_nil, run_ticks_nil]
  | cons y xs ih => intro e x; rw [List.cons_append, run_ticks_cons, run_ticks_cons]; exact ih _ x

/-- A slot that holds a stream through a sequence of ticks goes through the loop iterations of
these ticks, whatever the event queues hold. -/
theorem run_ticks_slot (rand : Nat → Nat) (fl : ℚ → ℚ) (i : Nat) (hi : i < MAX_STREAMS) :
    ∀ (xs : List (ring_buffer_t × packet_t × Int)) (e : stream_globals), engine_inv e →
      (∀ m, m < xs.length →
        (stream_ticks fl (stream_at e i) ((xs.map (fun x => x.2.2)).take m)).state
          ≠ STREAM_EMPTY) →
      stream_at (run_ticks rand fl e xs) i
        = stream_ticks fl (stream_at e i) (xs.map (fun x => x.2.2)) := by
  intro xs
  induction xs using List.reverseRecOn with
  | nil => intro e _ _; rw [run_ticks_nil]; rfl
  | append_singleton xs x ih =>
    intro e hinv hne
    have hpre : ∀ m, m < xs.length →
        (stream_ticks fl (stream_at e i) ((xs.map (fun x => x.2.2)).take m)).state
          ≠ STREAM_EMPTY := by
      intro m hm
      have := hne m (by rw [List.length_append]; omega)
      rw [List.map_append, List.take_append_of_le_length (by rw [List.length_map]; omega)] at this
      exact this
    have hlast := hne xs.length (by rw [List.length_append, List.length_singleton]; omega)
    rw [List.map_append, List.take_append_of_le_length (by rw [List.length_map]),
      List.take_of_length_le (by rw [List.length_map])] at hlast
    rw [run_ticks_snoc, List.map_append, List.map_singleton, stream_ticks_snoc, ← ih e hinv hpre]
    rw [← ih e hinv hpre] at hlast
    exact (slot_tick rand fl _ x.1 x.2.1 x.2.2 (inv_run_ticks rand fl xs e hinv) i hi).2 hlast

/-- A slot that is Active after each of a sequence of ticks was advanced by each of them. -/
theorem run_ticks_active (rand : Nat → Nat) (fl : ℚ → ℚ) (e : stream_globals) (i : Nat)
    (xs : List (ring_buffer_t × packet_t × Int)) (hinv : engine_inv e) (hi : i < MAX_STREAMS)
    (hact : ∀ m, m ≤ xs.length →
      (stream_at (run_ticks rand fl e (xs.take m)) i).state = STREAM_ACTIVE) :
    ∀ m, m ≤ xs.length →
      stream_at (run_ticks rand fl e (xs.take m)) i = (stream_advance fl)^[m] (stream_at e i) := by
  intro m
  induction m with
  | zero => intro _; rw [List.take_zero, run_ticks_nil]; rfl
  | succ m ih =>
    intro hm
    have h1 := hact m (by omega)
    have h2 := hact (m + 1) hm
    rw [take_succ_snoc xs m sample_tick (by omega), run_ticks_snoc] at h2 ⊢
    have hs := (slot_tick rand fl (run_ticks rand fl e (xs.take m)) (xs.getD m sample_tick).1
      (xs.getD m sample_tick).2.1 (xs.getD m sample_tick).2.2
      (inv_run_ticks rand fl _ e hinv) i hi).2 (by rw [h1]; decide)
    rw [hs] at h2 ⊢
    rw [tick_active_stays fl _ _ h1 h2, ih (by omega), Function.iterate_succ_apply']

/-- Advances of a stream that starts at position 0 with speed 1, when `fl` is exact on the
natural numbers up to `k`. -/
theorem unit_speed_fields (fl : ℚ → ℚ) (s : stream_t) (k : Nat) (hrow : s.row = 0)
    (hspeed : s.speed = 1) (hfl : ∀ n : Nat, n ≤ k → fl (n : ℚ) = (n : ℚ)) :
    ∀ m, m ≤ k →
      ((stream_advance fl)^[m] s).row = (m : ℚ) ∧
      (1 ≤ m → ((stream_advance fl)^[m] s).chars_shown
        = min (m : Int) (min s.text_len MAX_STREAM_LENGTH)) := by
  intro m
  induction m with
  | zero => intro _; exact ⟨by simpa using hrow, fun h => absurd h (by decide)⟩
  | succ m ih =>
    intro hm
    obtain ⟨r, _⟩ := ih (by omega)
    obtain ⟨_, _, _, i4, i5⟩ := iterate_advance_fields fl s m
    obtain ⟨f1, _, f3, _⟩ := stream_advance_fields fl ((stream_advance fl)^[m] s)
    have hr : fl (((stream_advance fl)^[m] s).row + ((stream_advance fl)^[m] s).speed)
        = ((m + 1 : Nat) : ℚ) := by
      rw [r, i4, hspeed, ← hfl (m + 1) hm]
      push_cast
      rfl
    rw [Function.iterate_succ_apply', f1, f3, hr, i5, float_to_int_nat]
    exact ⟨rfl, fun _ => rfl⟩

/-- C15 (amended): for a slot that holds an Active stream in an engine state satisfying the
invariant `engine_inv` (as every reachable state does) and is still Active after a tick of
`update_streams`, the position after the tick is the float sum of the position before and the
speed, that is their sum rounded to `float` by `fl` (for every rounding `fl`, in particular
`float_round`), `frames_alive` has grown by 1, and `chars_shown` is the minimum of the truncated position
and `min(text_len, MAX_STREAM_LENGTH)`, the truncation being the floor for a position `>= 0`;
speed and `text_len` are unchanged. A slot at position 0 with speed 1 that is Active after each
of `k >= 1` ticks has `chars_shown = min(k, min(text_len, 160))` after them, provided float
addition is exact on the natural numbers up to `k`. -/
theorem active_tick (rand : Nat → Nat) (fl : ℚ → ℚ) (e : stream_globals) (i : Nat)
    (hinv : engine_inv e) (hi : i < MAX_STREAMS) :
    (∀ (rb : ring_buffer_t) (pkt : packet_t) (h : Int),
      (stream_at e i).state = STREAM_ACTIVE →
      (stream_at (update_streams rand fl e rb pkt h).1 i).state = STREAM_ACTIVE →
      (stream_at (update_streams rand fl e rb pkt h).1 i).row
        = fl ((stream_at e i).row + (stream_at e i).speed) ∧
      (stream_at (update_streams rand fl e rb pkt h).1 i).frames_alive
        = (stream_at e i).frames_alive + 1 ∧
      (stream_at (update_streams rand fl e rb pkt h).1 i).chars_shown
        = min (float_to_int (stream_at (update_streams rand fl e rb pkt h).1 i).row)
            (min (stream_at e i).text_len MAX_STREAM_LENGTH) ∧
      (0 ≤ (stream_at (update_streams rand fl e rb pkt h).1 i).row →
        (stream_at (update_streams rand fl e rb pkt h).1 i).chars_shown
          = min ⌊(stream_at (update_streams rand fl e rb pkt h).1 i).row⌋
              (min (stream_at e i).text_len 160)) ∧
      (stream_at (update_streams rand fl e rb pkt h).1 i).speed = (stream_at e i).speed ∧
      (stream_at (update_streams rand fl e rb pkt h).1 i).text_len = (stream_at e i).text_len) ∧
    (∀ xs : List (ring_buffer_t × packet_t × Int), 1 ≤ xs.length →
      (stream_at e i).row = 0 → (stream_at e i).speed = 1 →
      (∀ n : Nat, n ≤ xs.length → fl (n : ℚ) = (n : ℚ)) →
      (∀ m, m ≤ xs.length →
        (stream_at (run_ticks rand fl e (xs.take m)) i).state = STREAM_ACTIVE) →
      (stream_at (run_ticks rand fl e xs) i).chars_shown
        = min (xs.length : Int) (min (stream_at e i).text_len 160)) := by
  constructor
  · intro rb pkt h ha ha'
    have hs := (slot_tick rand fl e rb pkt h hinv i hi).2 (by rw [ha]; decide)
    rw [hs] at ha' ⊢
    rw [tick_active_stays fl h _ ha ha']
    obtain ⟨f1, f2, f3, _, f5, f6, _⟩ := stream_advance_fields fl (stream_at e i)
    refine ⟨f1, f2, ?_, ?_, f5, f6⟩
    · rw [f3, f1]
    · intro h0
      rw [f3, f1, float_to_int_floor _ (by rw [← f1]; exact h0)]
      rfl
  · intro xs h1 hrow hspeed hfl hact
    have := run_ticks_active rand fl e i xs hinv hi hact xs.length (le_refl _)
    rw [List.take_length] at this
    rw [this]
    exact (unit_speed_fields fl _ xs.length hrow hspeed hfl xs.length (le_refl _)).2 h1

/-- While neither fading condition holds, the ticks of the engine advance an Active slot. -/
theorem run_ticks_advance (rand : Nat → Nat) (fl : ℚ → ℚ) (e : stream_globals) (i : Nat)
    (xs : List (ring_buffer_t × packet_t × Int)) (hinv : engine_inv e) (hi : i < MAX_STREAMS)
    (ha : (stream_at e i).state = STREAM_ACTIVE) (m : Nat) (hm : m ≤ xs.length)
    (hc : ∀ j, j < m →
      float_to_int ((stream_advance fl)^[j + 1] (stream_at e i)).row
          - ((stream_advance fl)^[j + 1] (stream_at e i)).chars_shown
        ≤ (xs.map (fun x => x.2.2)).getD j 0 ∧
      (stream_at e i).frames_alive + ((j : Int) + 1) < (stream_at e i).fade_at_frame) :
    stream_at (run_ticks rand fl e (xs.take m)) i = (stream_advance fl)^[m] (stream_at e i) := by
  have hst : ∀ n, n ≤ m → stream_ticks fl (stream_at e i) ((xs.map (fun x => x.2.2)).take n)
      = (stream_advance fl)^[n] (stream_at e i) := by
    intro n hn
    exact ticks_advance fl (stream_at e i) (xs.map (fun x => x.2.2)) ha n
      (by rw [List.length_map]; omega) (fun j hj => hc j (by omega))
  rw [run_ticks_slot rand fl i hi (xs.take m) e hinv, List.map_take, hst m (le_refl _)]
  intro n hn
  rw [List.length_take] at hn
  rw [List.map_take, List.take_take, min_eq_left (by omega), hst n (by omega),
    (iterate_advance_fields fl _ n).1, ha]
  decide

/-- C16: for a slot that holds an Active stream with `frames_alive = a` and fade deadline
`fade_at_frame = F > a` in an engine state satisfying `engine_inv`, and a sequence of `F - a`
ticks (for a stream just created, `a = 0` and these are its first `F` ticks) in which the
trailing edge does not pass the bottom boundary before the last of them (the truncated position
minus `chars_shown`, as computed in the tick, is `<= screen_height`): the slot is Active after
each of the first `F - a - 1` ticks, with `frames_alive` growing by 1 per tick, and Fading
after the last one, with `frames_alive = F`. -/
theorem fade_deadline (rand : Nat → Nat) (fl : ℚ → ℚ) (e : stream_globals) (i : Nat)
    (xs : List (ring_buffer_t × packet_t × Int)) (hinv : engine_inv e) (hi : i < MAX_STREAMS)
    (ha : (stream_at e i).state = STREAM_ACTIVE) (h1 : 1 ≤ xs.length)
    (hlen : (xs.length : Int) = (stream_at e i).fade_at_frame - (stream_at e i).frames_alive)
    (htrail : ∀ j, j + 1 < xs.length →
      float_to_int ((stream_advance fl)^[j + 1] (stream_at e i)).row
          - ((stream_advance fl)^[j + 1] (stream_at e i)).chars_shown
        ≤ (xs.map (fun x => x.2.2)).getD j 0) :
    (∀ m, m < xs.length →
      (stream_at (run_ticks rand fl e (xs.take m)) i).state = STREAM_ACTIVE ∧
      (stream_at (run_ticks rand fl e (xs.take m)) i).frames_alive
        = (stream_at e i).frames_alive + (m : Int)) ∧
    (stream_at (run_ticks rand fl e xs) i).state = STREAM_FADING ∧
    (stream_at (run_ticks rand fl e xs) i).frames_alive = (stream_at e i).fade_at_frame := by
  have hadv : ∀ m, m < xs.length →
      stream_at (run_ticks rand fl e (xs.take m)) i
        = (stream_advance fl)^[m] (stream_at e i) := by
    intro m hm
    exact run_ticks_advance rand fl e i xs hinv hi ha m (by omega)
      (fun j hj => ⟨htrail j (by omega), by omega⟩)
  have hfields : ∀ m, m < xs.length →
      (stream_at (run_ticks rand fl e (xs.take m)) i).state = STREAM_ACTIVE ∧
      (stream_at (run_ticks rand fl e (xs.take m)) i).frames_alive
        = (stream_at e i).frames_alive + (m : Int) := by
    intro m hm
    rw [hadv m hm]
    obtain ⟨i1, i2, _⟩ := iterate_advance_fields fl (stream_at e i) m
    exact ⟨by rw [i1, ha], i2⟩
  refine ⟨hfields, ?_⟩
  obtain ⟨k, hk⟩ : ∃ k, xs.length = k + 1 := ⟨xs.length - 1, by omega⟩
  have hxs : xs = xs.take k ++ [xs.getD k sample_tick] := by
    rw [← take_succ_snoc xs k sample_tick (by omega), ← hk, List.take_length]
  have hst := hadv k (by omega)
  obtain ⟨i1, i2, i3, _⟩ := iterate_advance_fields fl (stream_at e i) k
  have hs := (slot_tick rand fl (run_ticks rand fl e (xs.take k)) (xs.getD k sample_tick).1
    (xs.getD k sample_tick).2.1 (xs.getD k sample_tick).2.2
    (inv_run_ticks rand fl _ e hinv) i hi).2 (by rw [hst, i1, ha]; decide)
  rw [hxs, run_ticks_snoc, hs, hst, tick_active fl _ _ (by rw [i1, ha])]
  obtain ⟨_, f2, _, _, _, _, f7, _⟩ := stream_advance_fields fl
    ((stream_advance fl)^[k] (stream_at e i))
  rw [if_pos (Or.inr (by rw [f2, f7, i2, i3]; omega))]
  obtain ⟨g1, g2⟩ := stream_fade_fields fl (xs.getD k sample_tick).2.2
    (stream_advance fl ((stream_advance fl)^[k] (stream_at e i)))
  rw [g1, g2, f2, i2]
  exact ⟨rfl, by omega⟩

theorem inv_set_state (e : stream_globals) (i : Nat) (st : Nat) (c : Int) (hinv : engine_inv e)
    (hi : i < MAX_STREAMS) (hst : st ≠ STREAM_EMPTY)
    (hne : (stream_at e i).state ≠ STREAM_EMPTY) :
    engine_inv { e with
      streams := e.streams.set i { stream_at e i with state := st, chars_shown := c } } :=
  inv_set_keep e i _ hinv hi ⟨fun h => absurd h hst, fun h => absurd h hne⟩ rfl

theorem stream_at_set_state (e : stream_globals) (i : Nat) (st : Nat) (c : Int)
    (hi : i < e.streams.length) :
    stream_at { e with
        streams := e.streams.set i { stream_at e i with state := st, chars_shown := c } } i
      = { stream_at e i with state := st, chars_shown := c } := by
  simp only [stream_at]
  rw [getD_set_same _ _ _ _ hi]

theorem sample_fading_facts :
    engine_inv sample_fading ∧
    (stream_at sample_fading sample_slot).state = STREAM_FADING ∧
    (stream_at sample_fading sample_slot).chars_shown = 1 := by
  obtain ⟨hinv, hlt, hact, _⟩ := sample_active_facts
  have hat := stream_at_set_state sample_active sample_slot STREAM_FADING 1
    (by rw [hinv.1]; exact hlt)
  have hi2 := inv_set_state sample_active sample_slot STREAM_FADING 1 hinv hlt (by decide)
    (by rw [hact]; decide)
  unfold sample_fading
  exact ⟨hi2, by rw [hat], by rw [hat]⟩

/-- The stream of `sample_active` moves one row per advance and shows one more character each
time, up to its 40 characters. -/
theorem sample_trail (k : Nat) : ∀ m, m ≤ k →
    ((stream_advance (fun x => x))^[m] (stream_at sample_active sample_slot)).row = (m : ℚ) ∧
    (1 ≤ m → ((stream_advance (fun x => x))^[m] (stream_at sample_active sample_slot)).chars_shown
      = min (m : Int) 40) := by
  intro m hm
  obtain ⟨_, _, _, hrow, hspeed, _, _, htl, _⟩ := sample_active_facts
  obtain ⟨r, c⟩ := unit_speed_fields (fun x => x) (stream_at sample_active sample_slot) k hrow
    hspeed (fun _ _ => rfl) m hm
  refine ⟨r, fun h1 => ?_⟩
  rw [c h1, htl, show min (40 : Int) MAX_STREAM_LENGTH = 40 from by decide]

theorem sample_heights (n j : Nat) (t : ring_buffer_t × packet_t × Int) (hj : j < n) :
    ((List.replicate n t).map (fun x => x.2.2)).getD j 0 = t.2.2 := by
  simp [List.getD_eq_getElem?_getD, List.getElem?_replicate, hj]

theorem fading_tick_witness :
    (stream_at (update_streams (fun n => n) (fun x => x) sample_fading
        (ring_buffer_init RING_BUFFER_SIZE) packet_t.zero 24).1 sample_slot).chars_shown = -1 ∧
    (stream_at (update_streams (fun n => n) (fun x => x) sample_fading
        (ring_buffer_init RING_BUFFER_SIZE) packet_t.zero 24).1 sample_slot).state
      = STREAM_EMPTY := by
  obtain ⟨hinv, hf, hc⟩ := sample_fading_facts
  obtain ⟨h1, _, h3, _⟩ := fading_tick (fun n => n) (fun x => x) sample_fading
    (ring_buffer_init RING_BUFFER_SIZE) packet_t.zero 24 hinv sample_slot
    sample_active_facts.2.1 hf
  rw [hc] at h1 h3
  exact ⟨h1, (h3 (by decide)).1⟩

theorem active_tick_witness :
    (stream_at (run_ticks (fun _ => 60) (fun x => x) sample_active
        (List.replicate 5 sample_tick)) sample_slot).chars_shown = 5 := by
  obtain ⟨hinv, hlt, hact, hrow, hspeed, _, hfa, htl, hfade⟩ := sample_active_facts
  have h := (active_tick (fun _ => 60) (fun x => x) sample_active sample_slot hinv hlt).2
    (List.replicate 5 sample_tick) (by simp) hrow hspeed (fun _ _ => rfl)
    (by
      intro m hm
      rw [List.length_replicate] at hm
      rw [run_ticks_advance (fun _ => 60) (fun x => x) sample_active sample_slot
        (List.replicate 5 sample_tick) hinv hlt hact m (by rw [List.length_replicate]; exact hm)
        (by
          intro j hj
          obtain ⟨r, c⟩ := sample_trail 5 (j + 1) (by omega)
          rw [r, c (by omega), float_to_int_nat, sample_heights 5 j sample_tick (by omega),
            hfa, hfade]
          constructor
          · show _ ≤ (24 : Int)
            omega
          · omega),
        (iterate_advance_fields _ _ m).1, hact])
  rw [h, htl, List.length_replicate]
  decide

theorem fade_deadline_witness :
    (stream_at (run_ticks (fun _ => 60) (fun x => x) sample_active
        (List.replicate 89 sample_tall_tick)) sample_slot).state = STREAM_ACTIVE ∧
    (stream_at (run_ticks (fun _ => 60) (fun x => x) sample_active
        (List.replicate 90 sample_tall_tick)) sample_slot).state = STREAM_FADING ∧
    (stream_at (run_ticks (fun _ => 60) (fun x => x) sample_active
        (List.replicate 90 sample_tall_tick)) sample_slot).frames_alive = 90 := by
  obtain ⟨hinv, hlt, hact, hrow, hspeed, _, hfa, htl, hfade⟩ := sample_active_facts
  obtain ⟨h1, h2, h3⟩ := fade_deadline (fun _ => 60) (fun x => x) sample_active sample_slot
    (List.replicate 90 sample_tall_tick) hinv hlt hact (by simp)
    (by rw [List.length_replicate, hfa, hfade]; decide)
    (by
      intro j hj
      rw [List.length_replicate] at hj
      obtain ⟨r, c⟩ := sample_trail 90 (j + 1) (by omega)
      rw [r, c (by omega), float_to_int_nat, sample_heights 90 j sample_tall_tick (by omega)]
      show _ ≤ (100 : Int)
      omega)
  have h89 := (h1 89 (by simp)).1
  rw [List.take_replicate] at h89
  exact ⟨h89, h2, by rw [h3, hfade]⟩

/-! ## Draining the event queue -/

theorem queue_of_contents (l : List packet_t) (hl : l.length ≤ RING_BUFFER_SIZE) :
    rb_wf RING_BUFFER_SIZE (queue_of l) ∧ rb_contents RING_BUFFER_SIZE (queue_of l) = l := by
  have h := pushes_contents (show 0 < RING_BUFFER_SIZE by decide) l
  rw [show l.length - RING_BUFFER_SIZE = 0 by omega, List.drop_zero] at h
  exact h

/-- One call of `update_streams` on a well-formed queue holding `l`: `PACKETS_PER_FRAME + 1`
events leave the queue, and the engine is the one that was offered the first
`PACKETS_PER_FRAME` of them. -/
theorem update_streams_drain (rand : Nat → Nat) (fl : ℚ → ℚ) (e : stream_globals)
    (rb : ring_buffer_t) (pkt : packet_t) (h : Int) (hwf : rb_wf RING_BUFFER_SIZE rb) :
    rb_contents RING_BUFFER_SIZE (update_streams rand fl e rb pkt h).2
      = (rb_contents RING_BUFFER_SIZE rb).drop (PACKETS_PER_FRAME + 1) ∧
    (update_streams rand fl e rb pkt h).1
      = (List.range MAX_STREAMS).foldl (update_stream fl h)
          (((rb_contents RING_BUFFER_SIZE rb).take PACKETS_PER_FRAME).foldl
            (assign_packet_to_stream rand fl) e) := by
  obtain ⟨h1, _, h3⟩ := drain_loop_spec rand fl PACKETS_PER_FRAME e rb pkt hwf
  rw [update_streams_snd, update_streams_fst, h1, h3]
  exact ⟨rfl, rfl⟩

/-- C14 (the code departs from the claim): with 21 events in the queue, one call of
`update_streams` removes all 21 of them, not 20, and the engine it leaves is the one obtained
by offering only the first 20 to `assign_packet_to_stream` before the stream loop: the 21st
event is dequeued by the loop condition and dropped. -/
theorem drain_discards_event (rand : Nat → Nat) (fl : ℚ → ℚ) (e : stream_globals)
    (pkt : packet_t) (h : Int) :
    rb_contents RING_BUFFER_SIZE (queue_of ((List.range 21).map numbered_event))
      = (List.range 21).map numbered_event ∧
    rb_contents RING_BUFFER_SIZE
      (update_streams rand fl e (queue_of ((List.range 21).map numbered_event)) pkt h).2 = [] ∧
    (update_streams rand fl e (queue_of ((List.range 21).map numbered_event)) pkt h).1
      = (List.range MAX_STREAMS).foldl (update_stream fl h)
          (((List.range 20).map numbered_event).foldl (assign_packet_to_stream rand fl) e) := by
  obtain ⟨hwf, hc⟩ := queue_of_contents ((List.range 21).map numbered_event)
    (by rw [List.length_map, List.length_range]; decide)
  obtain ⟨h1, h2⟩ := update_streams_drain rand fl e _ pkt h hwf
  rw [h1, h2, hc]
  refine ⟨rfl, ?_, ?_⟩
  · exact List.drop_eq_nil_of_le (by rw [List.length_map, List.length_range]; decide)
  · rw [← List.map_take, List.take_range]
    rfl

/-! ## Resize and idle ticks -/

theorem streams_have_content_loop_spec (e : stream_globals) : ∀ (k i : Nat),
    (streams_have_content_loop e k i = 1 ↔
      ∃ j, i ≤ j ∧ j < i + k ∧ (stream_at e j).state ≠ STREAM_EMPTY) ∧
    (streams_have_content_loop e k i = 0 ↔
      ∀ j, i ≤ j → j < i + k → (stream_at e j).state = STREAM_EMPTY) := by
  intro k
  induction k with
  | zero =>
    intro i
    unfold streams_have_content_loop
    exact ⟨⟨fun h => absurd h (by decide), fun ⟨j, h1, h2, _⟩ => by omega⟩,
      ⟨fun _ j h1 h2 => by omega, fun _ => rfl⟩⟩
  | succ k ih =>
    intro i
    unfold streams_have_content_loop
    obtain ⟨ih1, ih0⟩ := ih (i + 1)
    show ((if (stream_at e i).state ≠ STREAM_EMPTY then 1
        else streams_have_content_loop e k (i + 1)) = 1 ↔ _) ∧
      ((if (stream_at e i).state ≠ STREAM_EMPTY then 1
        else streams_have_content_loop e k (i + 1)) = 0 ↔ _)
    by_cases c : (stream_at e i).state ≠ STREAM_EMPTY
    · rw [if_pos c]
      exact ⟨⟨fun _ => ⟨i, le_refl _, by omega, c⟩, fun _ => rfl⟩,
        ⟨fun h => absurd h (by decide), fun h => absurd (h i (le_refl _) (by omega)) c⟩⟩
    · rw [if_neg c]
      have c0 : (stream_at e i).state = STREAM_EMPTY := not_not.1 c
      constructor
      · rw [ih1]
        constructor
        · rintro ⟨j, h1, h2, h3⟩
          exact ⟨j, by omega, by omega, h3⟩
        · rintro ⟨j, h1, h2, h3⟩
          have : j ≠ i := fun hji => h3 (hji ▸ c0)
          exact ⟨j, by omega, by omega, h3⟩
      · rw [ih0]
        constructor
        · intro h j h1 h2
          by_cases hji : j = i
          · rw [hji]; exact c0
          · exact h j (by omega) (by omega)
        · intro h j h1 h2
          exact h j (by omega) (by omega)

/-- The query `streams_have_content` returns 1 when some slot is not Empty and 0 when every
slot is Empty. -/
theorem streams_have_content_spec (e : stream_globals) :
    (streams_have_content e = 1 ↔ ∃ j, j < MAX_STREAMS ∧ (stream_at e j).state ≠ STREAM_EMPTY) ∧
    (streams_have_content e = 0 ↔ ∀ j, j < MAX_STREAMS → (stream_at e j).state = STREAM_EMPTY) := by
  obtain ⟨h1, h0⟩ := streams_have_content_loop_spec e MAX_STREAMS 0
  unfold streams_have_content
  rw [h1, h0]
  constructor
  · constructor
    · rintro ⟨j, _, h2, h3⟩
      exact ⟨j, by omega, h3⟩
    · rintro ⟨j, h2, h3⟩
      exact ⟨j, Nat.zero_le _, by omega, h3⟩
  · constructor
    · intro h j hj
      exact h j (Nat.zero_le _) (by omega)
    · intro h j _ hj
      exact h j (by omega)

/-- C18: for every engine state (whatever its streams and column occupancy; `free_slots` is
the array of `MAX_STREAMS` entries) and every `new_width >= 0` and `new_height`, a call
`resize_streams(new_width, new_height)` whose `calloc` succeeds returns with every one of the
`MAX_STREAMS` slots Empty, every column in `[0, new_width)` marked available, `free_slot_count
= MAX_STREAMS` and the free-slot list holding each index below `MAX_STREAMS` exactly once, and
`streams_have_content()` returns 0 in that state. -/
theorem resize_streams_resets (e : stream_globals) (new_width new_height : Int)
    (hw : 0 ≤ new_width) (hfs : e.free_slots.length = MAX_STREAMS) :
    ∃ e1, resize_streams true e new_width new_height = some e1 ∧
      (∀ i, i < MAX_STREAMS → (stream_at e1 i).state = STREAM_EMPTY) ∧
      (∀ c : Int, 0 ≤ c → c < new_width → column_avail e1 c = 1) ∧
      e1.free_slot_count = MAX_STREAMS ∧
      (free_list e1).length = MAX_STREAMS ∧
      (free_list e1).Nodup ∧
      (∀ x, x ∈ free_list e1 ↔ x < MAX_STREAMS) ∧
      streams_have_content e1 = 0 ∧
      e1.stream_screen_width = new_width ∧ e1.stream_screen_height = new_height := by
  refine ⟨reset_state e new_width new_height, ?_, ?_, ?_, rfl, ?_, ?_, ?_, ?_, rfl, rfl⟩
  · rw [resize_streams_eq true e new_width new_height hfs, if_neg]
    rintro (h | h)
    · omega
    · exact absurd h (by decide)
  · intro i _
    rw [stream_at_reset]
    rfl
  · intro c hc0 hcw
    exact column_avail_reset e new_width new_height c hc0 hcw
  · rw [free_list_length _ (inv_reset e new_width new_height hw)]
    rfl
  · exact nodup_free_list_reset e new_width new_height
  · exact mem_free_list_reset e new_width new_height
  · rw [(streams_have_content_spec _).2]
    intro j _
    rw [stream_at_reset]
    rfl

theorem resize_streams_resets_witness :
    ∃ e1, resize_streams true sample_fading 100 30 = some e1 ∧
      (stream_at sample_fading sample_slot).state = STREAM_FADING ∧
      (stream_at e1 sample_slot).state = STREAM_EMPTY ∧
      e1.free_slot_count = MAX_STREAMS ∧ streams_have_content e1 = 0 := by
  obtain ⟨e1, h1, h2, _, h4, _, _, _, h8, _⟩ := resize_streams_resets sample_fading 100 30
    (by decide) sample_fading_facts.1.2.1
  exact ⟨e1, h1, sample_fading_facts.2.1, h2 _ sample_active_facts.2.1, h4, h8⟩

theorem set_getD_self {α : Type} (l : List α) (i : Nat) (d : α) : l.set i (l.getD i d) = l := by
  apply List.ext_getElem
  · simp
  · intro n h1 h2
    rw [List.getElem_set]
    split
    · next c =>
      subst c
      rw [List.getD_eq_getElem?_getD, List.getElem?_eq_getElem h2]
      rfl
    · rfl

/-- The loop iteration for an Empty slot changes nothing. -/
theorem update_stream_empty (fl : ℚ → ℚ) (h : Int) (e : stream_globals) (i : Nat)
    (hs : (stream_at e i).state = STREAM_EMPTY) : update_stream fl h e i = e := by
  rw [update_stream_keep fl h e i (by rw [hs]; exact fun c => absurd c.1 (by decide))]
  have ht : tick_stream fl h (stream_at e i) = stream_at e i := by
    unfold tick_stream
    rw [if_pos hs]
  rw [ht]
  unfold stream_at
  rw [set_getD_self]

theorem stream_loop_empty (fl : ℚ → ℚ) (h : Int) (e : stream_globals) (n : Nat)
    (hs : ∀ i, i < n → (stream_at e i).state = STREAM_EMPTY) :
    (List.range n).foldl (update_stream fl h) e = e := by
  induction n with
  | zero => rfl
  | succ n ih =>
    rw [List.range_succ, List.foldl_append, ih (fun i hi => hs i (by omega))]
    exact update_stream_empty fl h e n (hs n (by omega))

/-- The drain loop on an empty queue removes and assigns nothing. -/
theorem drain_loop_empty (rand : Nat → Nat) (fl : ℚ → ℚ) (e : stream_globals)
    (rb : ring_buffer_t) (pkt : packet_t) (hq : rb.count = 0) :
    drain_loop rand fl PACKETS_PER_FRAME (e, rb, pkt) = (e, rb, pkt) := by
  have hp : ring_buffer_pop RING_BUFFER_SIZE rb pkt = (rb, pkt, -1) := by
    unfold ring_buffer_pop
    rw [if_pos hq]
  show drain_loop rand fl (19 + 1) (e, rb, pkt) = _
  unfold drain_loop
  simp only
  rw [hp, if_neg (show ¬ ((-1 : Int) = 0) by decide)]

/-- C19: for every engine state in which all `MAX_STREAMS` slots are Empty, and an event queue
that is empty (`count = 0`), a call of `update_streams`, for any screen height, returns the
engine state (stream slots, column availability, free-slot list, everything else) and the
event queue unchanged, and `streams_have_content()` returns 0 before and after it; in every
engine state `streams_have_content()` returns 1 when some slot is not Empty and 0 otherwise. -/
theorem idle_tick (rand : Nat → Nat) (fl : ℚ → ℚ) (e : stream_globals) (rb : ring_buffer_t)
    (pkt : packet_t) (h : Int)
    (hs : ∀ i, i < MAX_STREAMS → (stream_at e i).state = STREAM_EMPTY) (hq : rb.count = 0) :
    update_streams rand fl e rb pkt h = (e, rb) ∧
    streams_have_content e = 0 ∧
    streams_have_content (update_streams rand fl e rb pkt h).1 = 0 ∧
    (∀ e2 : stream_globals,
      (streams_have_content e2 = 1 ↔
        ∃ j, j < MAX_STREAMS ∧ (stream_at e2 j).state ≠ STREAM_EMPTY) ∧
      (streams_have_content e2 = 0 ↔
        ¬ ∃ j, j < MAX_STREAMS ∧ (stream_at e2 j).state ≠ STREAM_EMPTY)) := by
  have h0 : streams_have_content e = 0 := (streams_have_content_spec e).2.2 hs
  have hu : update_streams rand fl e rb pkt h = (e, rb) := by
    rw [update_streams_eq, drain_loop_empty rand fl e rb pkt hq]
    have hl := stream_loop_empty fl h e MAX_STREAMS hs
    rw [hl]
  refine ⟨hu, h0, by rw [hu]; exact h0, fun e2 => ⟨(streams_have_content_spec e2).1, ?_⟩⟩
  rw [(streams_have_content_spec e2).2]
  constructor
  · rintro h1 ⟨j, hj, hne⟩
    exact hne (h1 j hj)
  · intro h1 j hj
    by_contra hne
    exact h1 ⟨j, hj, hne⟩

theorem idle_tick_witness :
    sample_idle = (sample_engine, ring_buffer_init RING_BUFFER_SIZE) ∧
    streams_have_content sample_engine = 0 ∧ streams_have_content sample_active = 1 := by
  obtain ⟨h1, h2, _, h4⟩ := idle_tick (fun n => n) (fun x => x) sample_engine
    (ring_buffer_init RING_BUFFER_SIZE) packet_t.zero 24
    (fun i _ => by
      rw [show sample_engine = reset_state stream_globals.startup 80 0 from rfl, stream_at_reset]
      rfl)
    rfl
  refine ⟨h1, h2, (h4 sample_active).1.2 ⟨sample_slot, sample_active_facts.2.1, ?_⟩⟩
  rw [sample_active_facts.2.2.1]
  decide

/-! ## The column search -/

/-- On a column of the screen, `column_is_spaced` decides the spacing rule. -/
theorem column_is_spaced_rule (e : stream_globals) (c : Int) (hc0 : 0 ≤ c)
    (hcw : c < e.stream_screen_width) : column_is_spaced e c ≠ 0 ↔ spacing_rule e c := by
  rw [column_is_spaced_iff]
  unfold spacing_rule
  simp only [COLUMN_GAP]
  constructor
  · rintro ⟨h0, h1, h2⟩
    refine ⟨h0, fun d hd0 hdw hd => ?_⟩
    rw [abs_le] at hd
    obtain ⟨hd1, hd2⟩ := hd
    push_cast at hd1 hd2
    have : d = c - 1 ∨ d = c ∨ d = c + 1 := by omega
    rcases this with rfl | rfl | rfl
    · exact h1 (by omega)
    · exact h0
    · exact h2 hdw
  · rintro ⟨h0, h⟩
    refine ⟨h0, fun h1 => h _ (by omega) (by omega) ?_, fun h2 => h _ (by omega) h2 ?_⟩
    · rw [abs_le]; push_cast; constructor <;> omega
    · rw [abs_le]; push_cast; constructor <;> omega

/-- The linear scan of `find_free_column` returns the lowest column that `column_is_spaced`
accepts, and -1 when it accepts none. -/
theorem scan_loop_lowest (e : stream_globals) : ∀ (k : Nat) (i : Int), 0 ≤ i →
    (scan_loop e k i = -1 → ∀ c, i ≤ c → c < i + k → column_is_spaced e c = 0) ∧
    (scan_loop e k i ≠ -1 → ∀ c, i ≤ c → c < scan_loop e k i → column_is_spaced e c = 0) := by
  intro k
  induction k with
  | zero =>
    intro i _
    unfold scan_loop
    exact ⟨fun _ c h1 h2 => by omega, fun h => absurd rfl h⟩
  | succ k ih =>
    intro i hi
    unfold scan_loop
    by_cases c0 : column_is_spaced e i ≠ 0
    · rw [if_pos c0]
      exact ⟨fun h => by omega, fun _ c h1 h2 => by omega⟩
    · rw [if_neg c0]
      obtain ⟨ih1, ih2⟩ := ih (i + 1) (by omega)
      have c1 : column_is_spaced e i = 0 := not_not.1 c0
      constructor
      · intro h c h1 h2
        by_cases hci : c = i
        · rw [hci]; exact c1
        · exact ih1 h c (by omega) (by push_cast at h2; omega)
      · intro h c h1 h2
        by_cases hci : c = i
        · rw [hci]; exact c1
        · exact ih2 h c (by omega) h2

/-- When every probe fails, the probe loop ends without a column after `k` draws. -/
theorem probe_loop_none (rand : Nat → Nat) : ∀ (k : Nat) (e : stream_globals),
    (∀ j, j < k →
      column_is_spaced e (((rand (e.rand_calls + j) : Nat) : Int).tmod e.stream_screen_width)
        = 0) →
    probe_loop rand k e = ({ e with rand_calls := e.rand_calls + k }, none) := by
  intro k
  induction k with
  | zero => intro e _; rfl
  | succ k ih =>
    intro e h
    unfold probe_loop
    simp only
    have h0 := h 0 (by omega)
    rw [Nat.add_zero] at h0
    rw [if_neg (by rw [column_is_spaced_rand, h0]; decide)]
    rw [ih { e with rand_calls := e.rand_calls + 1 } (fun j hj => by
      have := h (j + 1) (by omega)
      rw [column_is_spaced_rand]
      show column_is_spaced e (((rand (e.rand_calls + 1 + j) : Nat) : Int).tmod
        e.stream_screen_width) = 0
      rw [show e.rand_calls + 1 + j = e.rand_calls + (j + 1) by omega]
      exact this)]
    show _ = ({ e with rand_calls := e.rand_calls + (k + 1) }, none)
    rw [show e.rand_calls + 1 + k = e.rand_calls + (k + 1) by omega]

theorem scan_loop_rand (e : stream_globals) (n : Nat) : ∀ (k : Nat) (i : Int),
    scan_loop { e with rand_calls := n } k i = scan_loop e k i := by
  intro k
  induction k with
  | zero => intro i; rfl
  | succ k ih =>
    intro i
    unfold scan_loop
    rw [column_is_spaced_rand, ih]

/-- A probe that returns no column leaves the result to the scan. -/
theorem find_free_column_cases (rand : Nat → Nat) (e : stream_globals) (zone : Nat)
    (hw : 3 ≤ e.stream_screen_width) :
    (∃ col, (probe_loop rand COLUMN_SEARCH_ATTEMPTS e).2 = some col ∧
      (find_free_column rand e zone).2 = col) ∨
    ((probe_loop rand COLUMN_SEARCH_ATTEMPTS e).2 = none ∧
      (find_free_column rand e zone).2 = scan_loop e e.stream_screen_width.toNat 0) := by
  obtain ⟨⟨n, hn⟩, _⟩ := probe_loop_spec rand COLUMN_SEARCH_ATTEMPTS e (by omega)
  unfold find_free_column
  rw [if_neg (by omega)]
  cases hp : probe_loop rand COLUMN_SEARCH_ATTEMPTS e with
  | mk e1 r =>
    rw [hp] at hn
    simp only at hn
    cases r with
    | some col => left; exact ⟨col, rfl, rfl⟩
    | none =>
      right
      subst hn
      exact ⟨rfl, scan_loop_rand e n _ 0⟩

/-- On a screen narrower than 3 columns `find_free_column` returns -1 without a draw. -/
theorem find_free_column_narrow (rand : Nat → Nat) (e : stream_globals) (zone : Nat)
    (hw : e.stream_screen_width < 3) : find_free_column rand e zone = (e, -1) := by
  unfold find_free_column
  rw [if_pos hw]

theorem reset_spacing_rule (e : stream_globals) (w h c : Int) (hc0 : 0 ≤ c) (hcw : c < w) :
    spacing_rule (reset_state e w h) c :=
  ⟨by rw [column_avail_reset e w h c hc0 hcw]; decide,
    fun d hd0 hdw _ => by rw [column_avail_reset e w h d hd0 hdw]; decide⟩

/-- C21 (as stated, refuted): on a screen of two columns that are both available, column 0
satisfies the spacing rule, and `find_free_column` returns -1. -/
theorem narrow_screen_no_column :
    (0 : Int) < narrow_engine.stream_screen_width ∧ spacing_rule narrow_engine 0 ∧
    (find_free_column (fun n => n) narrow_engine 0).2 = -1 := by
  refine ⟨by decide, reset_spacing_rule _ 2 0 0 (by decide) (by decide), ?_⟩
  rw [find_free_column_narrow (fun n => n) narrow_engine 0 (by decide)]

/-- C21 (amended): for every screen width `>= 3`, column occupancy and sequence of random
draws, `find_free_column` returns -1 only if no column in `[0, width)` satisfies the spacing
rule; whenever such a column exists it returns a column of the screen that satisfies the rule;
and when all `COLUMN_SEARCH_ATTEMPTS` random probes fail it returns the lowest-indexed such
column. -/
theorem find_free_column_correct (rand : Nat → Nat) (e : stream_globals) (zone : Nat)
    (hw : 3 ≤ e.stream_screen_width) :
    ((find_free_column rand e zone).2 = -1 →
      ∀ c, 0 ≤ c → c < e.stream_screen_width → ¬ spacing_rule e c) ∧
    ((∃ c, 0 ≤ c ∧ c < e.stream_screen_width ∧ spacing_rule e c) →
      0 ≤ (find_free_column rand e zone).2 ∧
      (find_free_column rand e zone).2 < e.stream_screen_width ∧
      spacing_rule e (find_free_column rand e zone).2) ∧
    ((∀ k, k < COLUMN_SEARCH_ATTEMPTS →
        ¬ spacing_rule e (((rand (e.rand_calls + k) : Nat) : Int).tmod e.stream_screen_width)) →
      (∃ c, 0 ≤ c ∧ c < e.stream_screen_width ∧ spacing_rule e c) →
      ∀ c, 0 ≤ c → c < (find_free_column rand e zone).2 → ¬ spacing_rule e c) := by
  have hwn : ((e.stream_screen_width.toNat : Nat) : Int) = e.stream_screen_width :=
    Int.toNat_of_nonneg (by omega)
  have hminus : (find_free_column rand e zone).2 = -1 →
      ∀ c, 0 ≤ c → c < e.stream_screen_width → ¬ spacing_rule e c := by
    intro hr c hc0 hcw hrule
    rcases find_free_column_cases rand e zone hw with ⟨col, hp, hf⟩ | ⟨_, hf⟩
    · have := ((probe_loop_spec rand COLUMN_SEARCH_ATTEMPTS e (by omega)).2 col hp).1
      omega
    · rw [hf] at hr
      have := (scan_loop_lowest e e.stream_screen_width.toNat 0 (le_refl _)).1 hr c hc0
        (by omega)
      exact (column_is_spaced_rule e c hc0 hcw).2 hrule this
  have hrange : (find_free_column rand e zone).2 ≠ -1 →
      0 ≤ (find_free_column rand e zone).2 ∧
      (find_free_column rand e zone).2 < e.stream_screen_width ∧
      spacing_rule e (find_free_column rand e zone).2 := by
    intro hne
    rcases (find_free_column_spec rand e zone).2 with h | ⟨h1, h2, h3⟩
    · exact absurd h hne
    · exact ⟨h1, h2, (column_is_spaced_rule e _ h1 h2).1 h3⟩
  have hex : (∃ c, 0 ≤ c ∧ c < e.stream_screen_width ∧ spacing_rule e c) →
      (find_free_column rand e zone).2 ≠ -1 := by
    rintro ⟨c, hc0, hcw, hrule⟩ hr
    exact hminus hr c hc0 hcw hrule
  refine ⟨hminus, fun h => hrange (hex h), ?_⟩
  intro hfail h c hc0 hcr hrule
  obtain ⟨_, hr2, _⟩ := hrange (hex h)
  have hnone := probe_loop_none rand COLUMN_SEARCH_ATTEMPTS e (fun j hj => by
    have hr : 0 ≤ ((rand (e.rand_calls + j) : Nat) : Int).tmod e.stream_screen_width ∧
        ((rand (e.rand_calls + j) : Nat) : Int).tmod e.stream_screen_width
          < e.stream_screen_width := by
      rw [Int.tmod_eq_emod (by omega) (by omega)]
      exact ⟨Int.emod_nonneg _ (by omega), Int.emod_lt_of_pos _ (by omega)⟩
    by_contra hsp
    exact hfail j hj ((column_is_spaced_rule e _ hr.1 hr.2).1 hsp))
  rcases find_free_column_cases rand e zone hw with ⟨col, hp, _⟩ | ⟨_, hf⟩
  · rw [hnone] at hp
    exact absurd hp (by simp)
  · rw [hf] at hcr
    have hne : scan_loop e e.stream_screen_width.toNat 0 ≠ -1 := by
      rw [← hf]; exact hex h
    have := (scan_loop_lowest e e.stream_screen_width.toNat 0 (le_refl _)).2 hne c hc0 hcr
    exact (column_is_spaced_rule e c hc0 (by rw [hf] at hr2; omega)).2 hrule this

theorem find_free_column_correct_witness :
    0 ≤ (find_free_column (fun _ => 60) sample_engine 0).2 ∧
    (find_free_column (fun _ => 60) sample_engine 0).2 < sample_engine.stream_screen_width ∧
    spacing_rule sample_engine (find_free_column (fun _ => 60) sample_engine 0).2 :=
  (find_free_column_correct (fun _ => 60) sample_engine 0 (by decide)).2.1
    ⟨7, by decide, by decide, reset_spacing_rule _ 80 0 7 (by decide) (by decide)⟩

/-! ## The overshoot clamp -/

/-- The transition to Fading, with and without the overshoot clamp, when the conversions of
`screen_height` and `screen_height - 1` to `float` are exact. -/
theorem stream_fade_cases (fl : ℚ → ℚ) (h : Int) (s : stream_t) (hfl : fl (h : ℚ) = (h : ℚ))
    (hfl1 : fl (((h - 1 : Int)) : ℚ) = (((h - 1 : Int)) : ℚ)) :
    ((h : ℚ) ≤ s.row →
      (stream_fade fl h s).row = (((h - 1 : Int)) : ℚ) ∧
      (stream_fade fl h s).chars_shown
        = max 1 (s.chars_shown - (float_to_int s.row - (h - 1)))) ∧
    (s.row < (h : ℚ) →
      (stream_fade fl h s).row = s.row ∧ (stream_fade fl h s).chars_shown = s.chars_shown) := by
  unfold stream_fade
  simp only [hfl, hfl1]
  constructor
  · intro hc
    rw [if_pos hc]
    split_ifs with c
    · exact ⟨rfl, by rw [max_eq_left (by omega)]⟩
    · exact ⟨rfl, by rw [max_eq_right (by omega)]⟩
  · intro hc
    rw [if_neg (not_le.2 hc)]
    exact ⟨rfl, rfl⟩

/-- An Active stream that is Fading after a loop iteration went through `stream_fade`, and one
of the two fading conditions held. -/
theorem tick_active_fades (fl : ℚ → ℚ) (h : Int) (s : stream_t) (ha : s.state = STREAM_ACTIVE)
    (hf : (tick_stream fl h s).state = STREAM_FADING) :
    tick_stream fl h s = stream_fade fl h (stream_advance fl s) ∧
    (float_to_int (stream_advance fl s).row - (stream_advance fl s).chars_shown > h ∨
      (stream_advance fl s).frames_alive ≥ (stream_advance fl s).fade_at_frame) := by
  rw [tick_active fl h s ha] at hf ⊢
  split_ifs at hf ⊢ with c
  · exact ⟨rfl, c⟩
  · rw [(stream_advance_fields fl s).2.2.2.1, ha] at hf
    exact absurd hf (by decide)

theorem inv_set_frames (e : stream_globals) (i : Nat) (n : Int) (hinv : engine_inv e)
    (hi : i < MAX_STREAMS) :
    engine_inv { e with
      streams := e.streams.set i { stream_at e i with frames_alive := n } } :=
  inv_set_keep e i _ hinv hi Iff.rfl rfl

theorem stream_at_set_frames (e : stream_globals) (i : Nat) (n : Int)
    (hi : i < e.streams.length) :
    stream_at { e with
        streams := e.streams.set i { stream_at e i with frames_alive := n } } i
      = { stream_at e i with frames_alive := n } := by
  simp only [stream_at]
  rw [getD_set_same _ _ _ _ hi]

theorem set_frames_fields (s : stream_t) (n : Int) :
    ({ s with frames_alive := n } : stream_t).state = s.state ∧
    ({ s with frames_alive := n } : stream_t).row = s.row ∧
    ({ s with frames_alive := n } : stream_t).speed = s.speed ∧
    ({ s with frames_alive := n } : stream_t).frames_alive = n ∧
    ({ s with frames_alive := n } : stream_t).text_len = s.text_len ∧
    ({ s with frames_alive := n } : stream_t).fade_at_frame = s.fade_at_frame :=
  ⟨rfl, rfl, rfl, rfl, rfl, rfl⟩

theorem sample_due_facts :
    engine_inv sample_due ∧
    (stream_at sample_due sample_slot).state = STREAM_ACTIVE ∧
    (stream_at sample_due sample_slot).row = 0 ∧
    (stream_at sample_due sample_slot).speed = 1 ∧
    (stream_at sample_due sample_slot).frames_alive = 89 ∧
    (stream_at sample_due sample_slot).text_len = 40 ∧
    (stream_at sample_due sample_slot).fade_at_frame = 90 := by
  obtain ⟨hinv, hlt, hact, hrow, hspeed, _, _, htl, hfade⟩ := sample_active_facts
  have hat := stream_at_set_frames sample_active sample_slot 89 (by rw [hinv.1]; exact hlt)
  have hi2 := inv_set_frames sample_active sample_slot 89 hinv hlt
  obtain ⟨g1, g2, g3, g4, g5, g6⟩ := set_frames_fields (stream_at sample_active sample_slot) 89
  unfold sample_due
  rw [hat, g1, g2, g3, g4, g5, g6]
  exact ⟨hi2, hact, hrow, hspeed, rfl, htl, hfade⟩

/-- C22: for every `screen_height >= 1` (whose conversion to `float`, and that of
`screen_height - 1`, is exact) and every slot that holds an Active stream in an engine state
satisfying `engine_inv` and is Fading after a tick of `update_streams`: after the tick the floor
of the position is `<= screen_height - 1`; if the position computed in the tick had reached
`screen_height`, the position is `screen_height - 1` (so its floor is `>= 0`) and `chars_shown`
is `max(1, chars_shown - (floor(old position) - (screen_height - 1)))`, hence `>= 1`; otherwise
position and `chars_shown` are the ones computed in the tick. -/
theorem fade_clamp (rand : Nat → Nat) (fl : ℚ → ℚ) (e : stream_globals) (rb : ring_buffer_t)
    (pkt : packet_t) (h : Int) (i : Nat) (hinv : engine_inv e) (hi : i < MAX_STREAMS)
    (hh : 1 ≤ h) (hfl : fl (h : ℚ) = (h : ℚ))
    (hfl1 : fl (((h - 1 : Int)) : ℚ) = (((h - 1 : Int)) : ℚ))
    (ha : (stream_at e i).state = STREAM_ACTIVE)
    (hf : (stream_at (update_streams rand fl e rb pkt h).1 i).state = STREAM_FADING) :
    ⌊(stream_at (update_streams rand fl e rb pkt h).1 i).row⌋ ≤ h - 1 ∧
    ((h : ℚ) ≤ (stream_advance fl (stream_at e i)).row →
      (stream_at (update_streams rand fl e rb pkt h).1 i).row = (((h - 1 : Int)) : ℚ) ∧
      (stream_at (update_streams rand fl e rb pkt h).1 i).chars_shown
        = max 1 ((stream_advance fl (stream_at e i)).chars_shown
            - (⌊(stream_advance fl (stream_at e i)).row⌋ - (h - 1))) ∧
      1 ≤ (stream_at (update_streams rand fl e rb pkt h).1 i).chars_shown ∧
      0 ≤ ⌊(stream_at (update_streams rand fl e rb pkt h).1 i).row⌋) ∧
    ((stream_advance fl (stream_at e i)).row < (h : ℚ) →
      (stream_at (update_streams rand fl e rb pkt h).1 i).row
        = (stream_advance fl (stream_at e i)).row ∧
      (stream_at (update_streams rand fl e rb pkt h).1 i).chars_shown
        = (stream_advance fl (stream_at e i)).chars_shown) := by
  have hs := (slot_tick rand fl e rb pkt h hinv i hi).2 (by rw [ha]; decide)
  rw [hs] at hf ⊢
  rw [(tick_active_fades fl h _ ha hf).1]
  obtain ⟨c1, c2⟩ := stream_fade_cases fl h (stream_advance fl (stream_at e i)) hfl hfl1
  have hclamp : (h : ℚ) ≤ (stream_advance fl (stream_at e i)).row →
      (stream_fade fl h (stream_advance fl (stream_at e i))).row = (((h - 1 : Int)) : ℚ) ∧
      (stream_fade fl h (stream_advance fl (stream_at e i))).chars_shown
        = max 1 ((stream_advance fl (stream_at e i)).chars_shown
            - (⌊(stream_advance fl (stream_at e i)).row⌋ - (h - 1))) := by
    intro hc
    have h0 : (0 : ℚ) ≤ (stream_advance fl (stream_at e i)).row :=
      le_trans (by exact_mod_cast (by omega : (0 : Int) ≤ h)) hc
    rw [← float_to_int_floor _ h0]
    exact c1 hc
  refine ⟨?_, fun hc => ?_, c2⟩
  · by_cases hc : (h : ℚ) ≤ (stream_advance fl (stream_at e i)).row
    · rw [(hclamp hc).1, Int.floor_intCast]
    · rw [(c2 (not_le.1 hc)).1]
      have := Int.floor_lt.2 (not_le.1 hc)
      omega
  · obtain ⟨r1, r2⟩ := hclamp hc
    refine ⟨r1, r2, ?_, ?_⟩
    · rw [r2]; exact le_max_left _ _
    · rw [r1, Int.floor_intCast]; omega

theorem fade_clamp_witness :
    (stream_at (update_streams (fun n => n) (fun x => x) sample_due
        (ring_buffer_init RING_BUFFER_SIZE) packet_t.zero 1).1 sample_slot).row = 0 ∧
    (stream_at (update_streams (fun n => n) (fun x => x) sample_due
        (ring_buffer_init RING_BUFFER_SIZE) packet_t.zero 1).1 sample_slot).chars_shown = 1 := by
  obtain ⟨hinv, hact, hrow, hspeed, hfa, htl, hfade⟩ := sample_due_facts
  have hlt := sample_active_facts.2.1
  obtain ⟨f1, f2, f3, _, _, _, f7, _⟩ := stream_advance_fields (fun x => x)
    (stream_at sample_due sample_slot)
  rw [hrow, hspeed] at f1 f3
  have hs := (slot_tick (fun n => n) (fun x => x) sample_due
    (ring_buffer_init RING_BUFFER_SIZE) packet_t.zero 1 hinv sample_slot hlt).2
    (by rw [hact]; decide)
  have hf : (stream_at (update_streams (fun n => n) (fun x => x) sample_due
      (ring_buffer_init RING_BUFFER_SIZE) packet_t.zero 1).1 sample_slot).state
        = STREAM_FADING := by
    rw [hs, tick_active _ _ _ hact, if_pos (Or.inr (by rw [f2, f7, hfa, hfade]; decide))]
    exact (stream_fade_fields _ _ _).1
  obtain ⟨_, h2, _⟩ := fade_clamp (fun n => n) (fun x => x) sample_due
    (ring_buffer_init RING_BUFFER_SIZE) packet_t.zero 1 sample_slot hinv hlt (by decide)
    rfl rfl hact hf
  obtain ⟨r1, _, r3, _⟩ := h2 (by rw [f1]; norm_num)
  obtain ⟨c1, _⟩ := stream_fade_cases (fun x => x) 1
    (stream_advance (fun x => x) (stream_at sample_due sample_slot)) rfl rfl
  have hc := (c1 (by rw [f1]; norm_num)).2
  rw [f3, f1] at hc
  refine ⟨by rw [r1]; norm_num, ?_⟩
  rw [hs, (tick_active_fades _ _ _ hact (by rw [← hs]; exact hf)).1, hc,
    show ((0 : ℚ) + 1) = ((1 : Nat) : ℚ) by norm_num, float_to_int_nat, htl]
  decide

/-! ## The free-slot list -/

theorem inv_assigns (rand : Nat → Nat) (fl : ℚ → ℚ) : ∀ (l : List packet_t)
    (e : stream_globals), engine_inv e →
    engine_inv (l.foldl (assign_packet_to_stream rand fl) e) := by
  intro l
  induction l with
  | nil => intro e h; exact h
  | cons x l ih => intro e h; exact ih _ (inv_assign rand fl e x h)

/-- The slot that `assign_packet_to_stream` takes from the free-slot list is an Empty one. -/
theorem free_top_empty (e : stream_globals) (hinv : engine_inv e) (h0 : e.free_slot_count ≠ 0) :
    e.free_slots.getD (e.free_slot_count - 1) 0 < MAX_STREAMS ∧
    (stream_at e (e.free_slots.getD (e.free_slot_count - 1) 0)).state = STREAM_EMPTY := by
  have hmem : e.free_slots.getD (e.free_slot_count - 1) 0 ∈ free_list e := by
    unfold free_list
    rw [take_pred_append _ _ 0 (by omega) (by rw [hinv.2.1]; exact hinv.2.2.1)]
    simp
  exact (hinv.2.2.2.2.2.2.2.2.2.1 _).1 hmem

/-- In a state that satisfies the invariant, the free slots and the slots in use add up to
`MAX_STREAMS`. -/
theorem free_count_add (e : stream_globals) (hinv : engine_inv e) :
    e.free_slot_count + nonempty_count e = MAX_STREAMS := by
  have hl := free_list_length e hinv
  obtain ⟨_, _, _, _, _, _, _, _, h9, h10, _⟩ := hinv
  have hperm : (free_list e).Perm
      ((List.range MAX_STREAMS).filter
        (fun i => decide ((stream_at e i).state = STREAM_EMPTY))) := by
    rw [List.perm_ext_iff_of_nodup h9 ((List.nodup_range _).filter _)]
    intro x
    rw [h10 x, List.mem_filter, List.mem_range, decide_eq_true_eq]
  have hlen := hperm.length_eq
  rw [hl, ← List.countP_eq_length_filter] at hlen
  have hsum := List.length_eq_countP_add_countP
    (fun i => decide ((stream_at e i).state = STREAM_EMPTY)) (List.range MAX_STREAMS)
  rw [List.length_range] at hsum
  have hc : List.countP (fun a => decide ¬ (fun i => decide ((stream_at e i).state
      = STREAM_EMPTY)) a = true) (List.range MAX_STREAMS) = nonempty_count e := by
    unfold nonempty_count
    congr 1
    funext a
    simp
  rw [hc] at hsum
  omega

/-- C23: in every engine state reachable from `init_streams` by ticks of `update_streams` and
calls of `resize_streams`, the entries `free_slots[0 .. free_slot_count)` are pairwise distinct
and are exactly the indices of the Empty slots, so `free_slot_count` plus the number of
non-Empty slots is `MAX_STREAMS`; in every tick, whenever a loop iteration releases a slot the
guard `free_slot_count < MAX_STREAMS` holds; and after any sequence of assignments in the drain
loop of a tick, the slot that `assign_packet_to_stream` takes next is an Empty one. -/
theorem free_slots_exact (rand : Nat → Nat) (fl : ℚ → ℚ) (e : stream_globals)
    (hr : engine_reachable rand fl e) :
    (free_list e).Nodup ∧
    (∀ x, x ∈ free_list e ↔ x < MAX_STREAMS ∧ (stream_at e x).state = STREAM_EMPTY) ∧
    e.free_slot_count + nonempty_count e = MAX_STREAMS ∧
    (∀ (rb : ring_buffer_t) (pkt : packet_t) (h : Int) (i : Nat), i < MAX_STREAMS →
      (stream_at (loop_state rand fl e rb pkt h i) i).state = STREAM_FADING →
      (stream_at (loop_state rand fl e rb pkt h i) i).chars_shown - FADE_RATE ≤ 0 →
      (loop_state rand fl e rb pkt h i).free_slot_count < MAX_STREAMS) ∧
    (∀ l : List packet_t,
      (l.foldl (assign_packet_to_stream rand fl) e).free_slot_count ≠ 0 →
      (l.foldl (assign_packet_to_stream rand fl) e).free_slots.getD
          ((l.foldl (assign_packet_to_stream rand fl) e).free_slot_count - 1) 0 < MAX_STREAMS ∧
      (stream_at (l.foldl (assign_packet_to_stream rand fl) e)
        ((l.foldl (assign_packet_to_stream rand fl) e).free_slots.getD
          ((l.foldl (assign_packet_to_stream rand fl) e).free_slot_count - 1) 0)).state
        = STREAM_EMPTY) := by
  have hinv := inv_reachable rand fl e hr
  refine ⟨hinv.2.2.2.2.2.2.2.2.1, hinv.2.2.2.2.2.2.2.2.2.1, free_count_add e hinv, ?_, ?_⟩
  · intro rb pkt h i hi hf _
    exact free_count_lt _ (loop_state_inv rand fl e rb pkt h hinv i hi).1 i hi
      (by rw [hf]; decide)
  · intro l h0
    exact free_top_empty _ (inv_assigns rand fl l e hinv) h0

theorem free_slots_exact_witness :
    engine_reachable (fun _ => 60) (fun x => x) sample_ticked ∧
    sample_ticked.free_slot_count + nonempty_count sample_ticked = MAX_STREAMS := by
  have hr : engine_reachable (fun _ => 60) (fun x => x) sample_ticked :=
    engine_reachable.tick _ _ _ _ (sample_engine_reachable _ _)
  exact ⟨hr, (free_slots_exact (fun _ => 60) (fun x => x) sample_ticked hr).2.2.1⟩

/-! ## Streams that fall off the bottom -/

theorem stream_fade_keeps (fl : ℚ → ℚ) (h : Int) (s : stream_t) :
    (stream_fade fl h s).speed = s.speed ∧ (stream_fade fl h s).text_len = s.text_len ∧
    (stream_fade fl h s).column = s.column := by
  unfold stream_fade
  simp only
  split_ifs <;> exact ⟨rfl, rfl, rfl⟩

theorem sane_tick (fl : ℚ → ℚ) (hfl0 : ∀ x, 0 ≤ x → 0 ≤ fl x) (h : Int) (s : stream_t)
    (hs : stream_sane s) : stream_sane (tick_stream fl h s) := by
  obtain ⟨s1, s2, s3⟩ := hs
  by_cases h0 : s.state = STREAM_EMPTY
  · rw [(tick_stream_state fl h s).1 h0]; exact ⟨s1, s2, s3⟩
  by_cases h1 : s.state = STREAM_ACTIVE
  · obtain ⟨f1, _, _, f4, f5, f6, _⟩ := stream_advance_fields fl s
    rw [tick_active fl h s h1]
    split
    · obtain ⟨g1, g2, _⟩ := stream_fade_keeps fl h (stream_advance fl s)
      refine ⟨by rw [g1, f5]; exact s1, by rw [g2, f6]; exact s2, fun c => ?_⟩
      rw [(stream_fade_fields fl h _).1] at c
      exact absurd c (by decide)
    · exact ⟨by rw [f5]; exact s1, by rw [f6]; exact s2,
        fun _ => by rw [f1]; exact hfl0 _ (add_nonneg (s3 h1) s1)⟩
  by_cases h2 : s.state = STREAM_FADING
  · unfold tick_stream
    rw [if_neg h0, if_neg h1, if_pos h2]
    simp only
    split
    · exact ⟨s1, s2, fun c => absurd (show STREAM_EMPTY = STREAM_ACTIVE from c) (by decide)⟩
    · exact ⟨s1, s2, fun c => absurd (show s.state = STREAM_ACTIVE from c) h1⟩
  · rw [(tick_stream_state fl h s).2.2.2 h0 h1 h2]; exact ⟨s1, s2, s3⟩

theorem sane_zero : stream_sane stream_t.zero :=
  ⟨le_refl _, le_refl _, fun _ => le_refl _⟩

theorem sane_assign (rand : Nat → Nat) (fl : ℚ → ℚ) (hfl0 : ∀ x, 0 ≤ x → 0 ≤ fl x)
    (e : stream_globals) (pkt : packet_t) (hinv : engine_inv e) (hs : streams_sane e) :
    streams_sane (assign_packet_to_stream rand fl e pkt) := by
  intro j
  by_cases h0 : e.free_slot_count = 0
  · unfold assign_packet_to_stream; rw [if_pos h0]; exact hs j
  obtain ⟨⟨n, hn⟩, _⟩ := find_free_column_spec rand e pkt.column_zone
  by_cases hneg : (find_free_column rand e pkt.column_zone).2 < 0
  · unfold assign_packet_to_stream
    rw [if_neg h0]
    simp only
    rw [if_pos hneg, hn]
    exact hs j
  obtain ⟨hlt, _, hat⟩ := assign_at rand fl e pkt hinv h0 hneg
  by_cases hj : j = e.free_slots.getD (e.free_slot_count - 1) 0
  · rw [hj, hat]
    refine ⟨?_, Int.ofNat_nonneg _, fun _ => le_refl _⟩
    show 0 ≤ stream_speed fl _
    unfold stream_speed
    exact hfl0 _ (add_nonneg (hfl0 _ (by norm_num))
      (hfl0 _ (div_nonneg (Nat.cast_nonneg _) (by norm_num))))
  · obtain ⟨s1, _, _, _, _, _, _, _, hres⟩ := assign_some rand fl e pkt h0 hneg
    rw [hres]
    have : stream_at { e with
        streams := e.streams.set (e.free_slots.getD (e.free_slot_count - 1) 0) s1
        free_slot_count := e.free_slot_count - 1
        column_available :=
          e.column_available.set (find_free_column rand e pkt.column_zone).2.toNat 0
        rand_calls := (find_free_column rand e pkt.column_zone).1.rand_calls + 2 } j
        = stream_at e j := by
      show (e.streams.set _ s1).getD j stream_t.zero = _
      rw [stream_at_set e _ j s1 (by rw [hinv.1]; exact hlt), if_neg hj]
    rw [this]
    exact hs j

theorem sane_drain (rand : Nat → Nat) (fl : ℚ → ℚ) (hfl0 : ∀ x, 0 ≤ x → 0 ≤ fl x) :
    ∀ (k : Nat) (st : stream_globals × ring_buffer_t × packet_t), engine_inv st.1 →
    streams_sane st.1 → streams_sane (drain_loop rand fl k st).1 := by
  intro k
  induction k with
  | zero => intro st _ h; exact h
  | succ k ih =>
    intro st hinv h
    unfold drain_loop
    simp only
    split
    · exact ih _ (inv_assign rand fl st.1 _ hinv) (sane_assign rand fl hfl0 st.1 _ hinv h)
    · exact h

theorem sane_update_streams (rand : Nat → Nat) (fl : ℚ → ℚ) (hfl0 : ∀ x, 0 ≤ x → 0 ≤ fl x)
    (e : stream_globals) (rb : ring_buffer_t) (pkt : packet_t) (h : Int) (hinv : engine_inv e)
    (hs : streams_sane e) : streams_sane (update_streams rand fl e rb pkt h).1 := by
  have hd := inv_drain rand fl PACKETS_PER_FRAME (e, rb, pkt) hinv
  have hsd := sane_drain rand fl hfl0 PACKETS_PER_FRAME (e, rb, pkt) hinv hs
  have hl := (stream_loop_at fl h (drain_loop rand fl PACKETS_PER_FRAME (e, rb, pkt)).1
    MAX_STREAMS (by rw [hd.1])).2
  intro j
  rw [update_streams_fst, hl j]
  split
  · exact sane_tick fl hfl0 h _ (hsd j)
  · exact hsd j

theorem sane_reset (e : stream_globals) (w h : Int) : streams_sane (reset_state e w h) := by
  intro j
  rw [stream_at_reset]
  exact sane_zero

/-- In every reachable engine state the slots satisfy `stream_sane`, when rounding keeps
numbers that are not negative so. -/
theorem sane_reachable (rand : Nat → Nat) (fl : ℚ → ℚ) (hfl0 : ∀ x, 0 ≤ x → 0 ≤ fl x)
    (e : stream_globals) (hr : engine_reachable rand fl e) : streams_sane e := by
  induction hr with
  | init ok e0 e width hl hi =>
    rw [init_streams_eq ok e0 width hl] at hi
    split at hi
    · exact absurd hi (by simp)
    · simp only [Option.some.injEq] at hi
      subst hi
      exact sane_reset _ _ _
  | tick e rb pkt h hr ih =>
    exact sane_update_streams rand fl hfl0 e rb pkt h (inv_reachable rand fl e hr) ih
  | resize ok e e' w h hr hres _ =>
    rw [resize_streams_eq ok e w h (inv_reachable rand fl e hr).2.1] at hres
    split at hres
    · exact absurd hres (by simp)
    · simp only [Option.some.injEq] at hres
      subst hres
      exact sane_reset _ _ _

/-- A Fading slot whose `chars_shown` runs out in a tick is Empty after it, and its column is
available again. -/
theorem fading_release (rand : Nat → Nat) (fl : ℚ → ℚ) (e : stream_globals)
    (rb : ring_buffer_t) (pkt : packet_t) (h : Int) (hinv : engine_inv e) (i : Nat)
    (hi : i < MAX_STREAMS) (hf : (stream_at e i).state = STREAM_FADING)
    (hle : (stream_at e i).chars_shown - FADE_RATE ≤ 0) :
    (stream_at (update_streams rand fl e rb pkt h).1 i).state = STREAM_EMPTY ∧
    column_avail (update_streams rand fl e rb pkt h).1 (stream_at e i).column = 1 := by
  have hinv' := inv_update_streams rand fl e rb pkt h hinv
  have hne : (stream_at e i).state ≠ STREAM_EMPTY := by rw [hf]; decide
  have hst := (slot_tick rand fl e rb pkt h hinv i hi).2 hne
  obtain ⟨_, _, t3, _⟩ := tick_stream_state fl h (stream_at e i)
  obtain ⟨t3a, _⟩ := t3 hf
  obtain ⟨hc0, hcw⟩ := hinv.2.2.2.2.2.1 i hi hne
  have hw := update_streams_width rand fl e rb pkt h
  have hempty : (stream_at (update_streams rand fl e rb pkt h).1 i).state = STREAM_EMPTY := by
    rw [hst]; exact t3a.2 hle
  refine ⟨hempty, ?_⟩
  obtain ⟨_, _, _, _, _, _, _, h8, _, _, h11⟩ := hinv'
  rcases h11 _ hc0 (by rw [hw]; exact hcw) with z | z
  · exfalso
    obtain ⟨j, hj, hnj, hcj⟩ := (h8 _ hc0 (by rw [hw]; exact hcw)).1 z
    have hji : j ≠ i := by intro c; rw [c] at hnj; exact hnj hempty
    have hd := inv_drain rand fl PACKETS_PER_FRAME (e, rb, pkt) hinv
    have hsj := (slot_tick rand fl e rb pkt h hinv j hj).1
    have hnj1 : (stream_at (drain_loop rand fl PACKETS_PER_FRAME (e, rb, pkt)).1 j).state
        ≠ STREAM_EMPTY := by
      intro c
      rw [hsj, (tick_stream_state fl h _).1 c] at hnj
      exact hnj c
    rw [hsj, tick_stream_column] at hcj
    have hki := drain_keeps rand fl PACKETS_PER_FRAME (e, rb, pkt) hinv i hne
    have := hd.2.2.2.2.2.2.1 j i hj hi hji hnj1 (by rw [hki]; exact hne)
    rw [hki, hcj] at this
    simp only [COLUMN_GAP] at this
    omega
  · exact z

/-- C24: for every slot that holds an Active stream in a reachable engine state and every
`screen_height` (rounding keeps numbers that are not negative so, and the conversions of
`screen_height` and `screen_height - 1` to `float` are exact): if in a tick the trailing edge
has passed the bottom boundary (floor of the new position minus the new `chars_shown` is
`> screen_height`), then after the tick the stream is Fading, the overshoot clamp has applied
(the new position had reached `screen_height`), `chars_shown` is 1 and the position is
`screen_height - 1`; and after the next tick, whatever its queue and screen height, the slot
is Empty and its column is available. -/
theorem falls_off_bottom (rand : Nat → Nat) (fl : ℚ → ℚ) (e : stream_globals)
    (rb rb2 : ring_buffer_t) (pkt pkt2 : packet_t) (h h2 : Int) (i : Nat)
    (hr : engine_reachable rand fl e) (hfl0 : ∀ x, 0 ≤ x → 0 ≤ fl x)
    (hfl : fl (h : ℚ) = (h : ℚ))
    (hfl1 : fl (((h - 1 : Int)) : ℚ) = (((h - 1 : Int)) : ℚ))
    (hi : i < MAX_STREAMS) (ha : (stream_at e i).state = STREAM_ACTIVE)
    (htail : ⌊(stream_advance fl (stream_at e i)).row⌋
      - (stream_advance fl (stream_at e i)).chars_shown > h) :
    (stream_at (update_streams rand fl e rb pkt h).1 i).state = STREAM_FADING ∧
    (h : ℚ) ≤ (stream_advance fl (stream_at e i)).row ∧
    (stream_at (update_streams rand fl e rb pkt h).1 i).chars_shown = 1 ∧
    (stream_at (update_streams rand fl e rb pkt h).1 i).row = (((h - 1 : Int)) : ℚ) ∧
    (stream_at (update_streams rand fl (update_streams rand fl e rb pkt h).1
      rb2 pkt2 h2).1 i).state = STREAM_EMPTY ∧
    column_avail (update_streams rand fl (update_streams rand fl e rb pkt h).1 rb2 pkt2 h2).1
      (stream_at e i).column = 1 := by
  have hinv := inv_reachable rand fl e hr
  obtain ⟨s1, s2, s3⟩ := sane_reachable rand fl hfl0 e hr i
  obtain ⟨f1, _, f3, _, _, _, _, f8, _⟩ := stream_advance_fields fl (stream_at e i)
  have hrow0 : 0 ≤ (stream_advance fl (stream_at e i)).row := by
    rw [f1]; exact hfl0 _ (add_nonneg (s3 ha) s1)
  have hfloor := float_to_int_floor _ hrow0
  have hn0 : 0 ≤ ⌊(stream_advance fl (stream_at e i)).row⌋ := Int.floor_nonneg.2 hrow0
  rw [← f1, hfloor] at f3
  have hchars0 : 0 ≤ (stream_advance fl (stream_at e i)).chars_shown := by
    rw [f3]
    exact le_min hn0 (le_min s2 (by decide))
  have hreach : (h : ℚ) ≤ (stream_advance fl (stream_at e i)).row := by
    have h1 : h ≤ ⌊(stream_advance fl (stream_at e i)).row⌋ := by omega
    exact le_trans (by exact_mod_cast h1) (Int.floor_le _)
  have hs := (slot_tick rand fl e rb pkt h hinv i hi).2 (by rw [ha]; decide)
  have htick : tick_stream fl h (stream_at e i)
      = stream_fade fl h (stream_advance fl (stream_at e i)) := by
    rw [tick_active fl h _ ha, if_pos (Or.inl (by rw [hfloor]; exact htail))]
  obtain ⟨c1, c2⟩ := (stream_fade_cases fl h (stream_advance fl (stream_at e i)) hfl hfl1).1
    hreach
  rw [hfloor] at c2
  have hstate : (stream_at (update_streams rand fl e rb pkt h).1 i).state = STREAM_FADING := by
    rw [hs, htick]; exact (stream_fade_fields fl h _).1
  have hchars : (stream_at (update_streams rand fl e rb pkt h).1 i).chars_shown = 1 := by
    rw [hs, htick, c2]
    exact max_eq_left (by omega)
  have hcol : (stream_at (update_streams rand fl e rb pkt h).1 i).column
      = (stream_at e i).column := by
    rw [hs, htick, (stream_fade_keeps fl h _).2.2, f8]
  obtain ⟨r1, r2⟩ := fading_release rand fl (update_streams rand fl e rb pkt h).1 rb2 pkt2 h2
    (inv_update_streams rand fl e rb pkt h hinv) i hi hstate (by rw [hchars]; decide)
  rw [hcol] at r2
  exact ⟨hstate, hreach, hchars, by rw [hs, htick, c1], r1, r2⟩

theorem reachable_run_ticks (rand : Nat → Nat) (fl : ℚ → ℚ) :
    ∀ (xs : List (ring_buffer_t × packet_t × Int)) (e : stream_globals),
      engine_reachable rand fl e → engine_reachable rand fl (run_ticks rand fl e xs) := by
  intro xs
  induction xs with
  | nil => intro e h; rw [run_ticks_nil]; exact h
  | cons x xs ih =>
    intro e h
    rw [run_ticks_cons]
    exact ih _ (engine_reachable.tick e x.1 x.2.1 x.2.2 h)

theorem sample_ticked_reachable :
    engine_reachable (fun _ => 60) (fun x => x) sample_ticked :=
  engine_reachable.tick _ _ _ _ (sample_engine_reachable _ _)

theorem sample_ticked_slot :
    stream_at sample_ticked sample_slot
      = tick_stream (fun x => x) 24 (stream_at sample_active sample_slot) := by
  obtain ⟨hwf, hc⟩ := queue_of_contents [sample_packet]
    (by rw [List.length_singleton]; decide)
  have hd := (drain_loop_spec (fun _ => 60) (fun x => x) PACKETS_PER_FRAME sample_engine
    (queue_of [sample_packet]) packet_t.zero hwf).1
  rw [hc, List.take_of_length_le (by rw [List.length_singleton]; decide), List.foldl_cons,
    List.foldl_nil] at hd
  have hs := (slot_tick (fun _ => 60) (fun x => x) sample_engine (queue_of [sample_packet])
    packet_t.zero 24 sample_engine_inv sample_slot sample_active_facts.2.1).1
  rw [hd] at hs
  exact hs

theorem stream_ticks_cons (fl : ℚ → ℚ) (s : stream_t) (h : Int) (hs : List Int) :
    stream_ticks fl s (h :: hs) = stream_ticks fl (tick_stream fl h s) hs := by
  simp only [stream_ticks, List.foldl_cons]

/-- On a screen of 24 rows the stream of `sample_active` only advances in its first 64
ticks. -/
theorem sample_stream_ticks (m : Nat) (hm : m ≤ 64) :
    stream_ticks (fun x => x) (stream_at sample_active sample_slot) (List.replicate m 24)
      = (stream_advance (fun x => x))^[m] (stream_at sample_active sample_slot) := by
  obtain ⟨_, _, hact, _, _, _, hfa, _, hfade⟩ := sample_active_facts
  have h := ticks_advance (fun x => x) (stream_at sample_active sample_slot)
    ((List.replicate 64 sample_tick).map (fun x => x.2.2)) hact m
    (by rw [List.length_map, List.length_replicate]; exact hm)
    (fun j hj => by
      obtain ⟨r, c⟩ := sample_trail 64 (j + 1) (by omega)
      rw [r, c (by omega), float_to_int_nat, sample_heights 64 j sample_tick (by omega),
        hfa, hfade]
      constructor
      · show _ ≤ (24 : Int)
        omega
      · omega)
  rw [List.map_replicate, List.take_replicate, min_eq_left hm] at h
  exact h

theorem sample_low_slot (m : Nat) (hm : m ≤ 63) :
    stream_at (run_ticks (fun _ => 60) (fun x => x) sample_ticked
        (List.replicate m sample_tick)) sample_slot
      = (stream_advance (fun x => x))^[m + 1] (stream_at sample_active sample_slot) := by
  have hinv := inv_reachable _ _ _ sample_ticked_reachable
  have hpre : ∀ k, k ≤ m →
      stream_ticks (fun x => x) (stream_at sample_ticked sample_slot) (List.replicate k 24)
        = (stream_advance (fun x => x))^[k + 1] (stream_at sample_active sample_slot) := by
    intro k hk
    rw [sample_ticked_slot, ← stream_ticks_cons, ← List.replicate_succ,
      sample_stream_ticks (k + 1) (by omega)]
  rw [run_ticks_slot (fun _ => 60) (fun x => x) sample_slot sample_active_facts.2.1
    (List.replicate m sample_tick) sample_ticked hinv, List.map_replicate]
  · exact hpre m (le_refl _)
  · intro k hk
    rw [List.length_replicate] at hk
    rw [List.map_replicate, List.take_replicate, min_eq_left (by omega),
      show sample_tick.2.2 = (24 : Int) from rfl, hpre k (by omega),
      (iterate_advance_fields _ _ (k + 1)).1, sample_active_facts.2.2.1]
    decide

theorem falls_off_bottom_witness :
    engine_reachable (fun _ => 60) (fun x => x) sample_low ∧
    (stream_at sample_low sample_slot).state = STREAM_ACTIVE ∧
    (stream_at (update_streams (fun _ => 60) (fun x => x) sample_low
        (ring_buffer_init RING_BUFFER_SIZE) packet_t.zero 24).1 sample_slot).chars_shown = 1 ∧
    (stream_at (update_streams (fun _ => 60) (fun x => x) sample_low
        (ring_buffer_init RING_BUFFER_SIZE) packet_t.zero 24).1 sample_slot).row = 23 ∧
    (stream_at (update_streams (fun _ => 60) (fun x => x)
        (update_streams (fun _ => 60) (fun x => x) sample_low
          (ring_buffer_init RING_BUFFER_SIZE) packet_t.zero 24).1
        (ring_buffer_init RING_BUFFER_SIZE) packet_t.zero 24).1 sample_slot).state
      = STREAM_EMPTY := by
  have hr : engine_reachable (fun _ => 60) (fun x => x) sample_low :=
    reachable_run_ticks _ _ _ _ sample_ticked_reachable
  have hat : stream_at sample_low sample_slot
      = (stream_advance (fun x => x))^[64] (stream_at sample_active sample_slot) :=
    sample_low_slot 63 (le_refl _)
  have ha : (stream_at sample_low sample_slot).state = STREAM_ACTIVE := by
    rw [hat, (iterate_advance_fields _ _ 64).1, sample_active_facts.2.2.1]
  obtain ⟨_, _, h3, h4, h5, _⟩ := falls_off_bottom (fun _ => 60) (fun x => x) sample_low
    (ring_buffer_init RING_BUFFER_SIZE) (ring_buffer_init RING_BUFFER_SIZE)
    packet_t.zero packet_t.zero 24 24 sample_slot hr (fun _ hx => hx) rfl rfl
    sample_active_facts.2.1 ha
    (by
      obtain ⟨r, c⟩ := sample_trail 65 65 (le_refl _)
      rw [hat, ← Function.iterate_succ_apply' (stream_advance (fun x => x)) 64, r,
        c (by decide), Int.floor_natCast]
      decide)
  exact ⟨hr, ha, h3, by rw [h4]; norm_num, h5⟩

/-! ## Two streams created in one tick -/

/-- When some column of a screen of at least 3 columns passes `column_is_spaced`,
`find_free_column` returns a column. -/
theorem find_free_column_some (rand : Nat → Nat) (e : stream_globals) (zone : Nat)
    (hw : 3 ≤ e.stream_screen_width) (c : Int) (hc0 : 0 ≤ c) (hcw : c < e.stream_screen_width)
    (hsp : column_is_spaced e c ≠ 0) : ¬ (find_free_column rand e zone).2 < 0 := by
  have hwn : ((e.stream_screen_width.toNat : Nat) : Int) = e.stream_screen_width :=
    Int.toNat_of_nonneg (by omega)
  rcases (find_free_column_spec rand e zone).2 with h | ⟨h1, _, _⟩
  · exfalso
    rcases find_free_column_cases rand e zone hw with ⟨col, hp, hf⟩ | ⟨_, hf⟩
    · have := ((probe_loop_spec rand COLUMN_SEARCH_ATTEMPTS e (by omega)).2 col hp).1
      omega
    · rw [hf] at h
      exact hsp ((scan_loop_lowest e e.stream_screen_width.toNat 0 (le_refl _)).1 h c hc0
        (by omega))
  · omega

/-- What an assignment that finds a slot and a column does to the free-slot count and to the
other columns. -/
theorem assign_effects (rand : Nat → Nat) (fl : ℚ → ℚ) (e : stream_globals) (pkt : packet_t)
    (hinv : engine_inv e) (h0 : e.free_slot_count ≠ 0)
    (hcol : ¬ (find_free_column rand e pkt.column_zone).2 < 0) :
    (assign_packet_to_stream rand fl e pkt).free_slot_count = e.free_slot_count - 1 ∧
    ∀ d : Int, 0 ≤ d → d ≠ (find_free_column rand e pkt.column_zone).2 →
      column_avail (assign_packet_to_stream rand fl e pkt) d = column_avail e d := by
  obtain ⟨s1, _, _, _, _, _, _, _, hres⟩ := assign_some rand fl e pkt h0 hcol
  rw [hres]
  refine ⟨rfl, fun d hd hne => ?_⟩
  rcases (find_free_column_spec rand e pkt.column_zone).2 with h | ⟨h1, h2, _⟩
  · omega
  · show (e.column_available.set _ 0).getD d.toNat 0 = _
    rw [column_avail_set _ _ d 0 h1 (by rw [hinv.2.2.2.2.1]; omega) hd, if_neg hne]
    rfl

theorem sample_active_shape :
    sample_active.stream_screen_width = 80 ∧ sample_active.free_slot_count ≠ 0 ∧
    ∀ d : Int, 0 ≤ d → d < 80 → d ≠ 60 → column_avail sample_active d = 1 := by
  have hinv := sample_engine_inv
  have h0 : sample_engine.free_slot_count ≠ 0 := by
    rw [show sample_engine.free_slot_count = MAX_STREAMS from rfl]; decide
  have hf := sample_find
  have hneg : ¬ (find_free_column (fun _ => 60) sample_engine sample_packet.column_zone).2 < 0 := by
    rw [hf]; decide
  obtain ⟨e1, e2⟩ := assign_effects (fun _ => 60) (fun x => x) sample_engine sample_packet
    hinv h0 hneg
  rw [hf] at e2
  refine ⟨?_, ?_, fun d hd0 hdw hne => ?_⟩
  · unfold sample_active
    rw [assign_width]
    rfl
  · unfold sample_active
    rw [e1, show sample_engine.free_slot_count = MAX_STREAMS from rfl]
    decide
  · unfold sample_active
    rw [e2 d hd0 hne, show sample_engine = reset_state stream_globals.startup 80 0 from rfl,
      column_avail_reset _ _ _ _ hd0 hdw]

/-- The two streams of `sample_pair` after the drain loop and after the tick. -/
theorem sample_pair_facts :
    sample_slot < MAX_STREAMS ∧ sample_slot2 < MAX_STREAMS ∧ sample_slot ≠ sample_slot2 ∧
    (stream_at sample_pair sample_slot).state ≠ STREAM_EMPTY ∧
    (stream_at sample_pair sample_slot2).state ≠ STREAM_EMPTY := by
  obtain ⟨hinv, hlt, hact, _⟩ := sample_active_facts
  obtain ⟨hw, h0, hav⟩ := sample_active_shape
  have hneg : ¬ (find_free_column (fun _ => 60) sample_active sample_packet.column_zone).2 < 0 :=
    find_free_column_some (fun _ => 60) sample_active _ (by rw [hw]; decide) 0 (le_refl _)
      (by rw [hw]; decide)
      (by
        rw [column_is_spaced_iff]
        refine ⟨by rw [hav 0 (by decide) (by decide) (by decide)]; decide,
          fun h => absurd h (by decide), fun _ => ?_⟩
        rw [hav (0 + 1) (by decide) (by decide) (by decide)]
        decide)
  obtain ⟨hlt2, hem2, hat2⟩ := assign_at (fun _ => 60) (fun x => x) sample_active sample_packet
    hinv h0 hneg
  have hne : sample_slot ≠ sample_slot2 := by
    intro c
    unfold sample_slot2 at c
    rw [← c, hact] at hem2
    exact absurd hem2 (by decide)
  -- the engine after the drain loop
  obtain ⟨hwf, hc⟩ := queue_of_contents [sample_packet, sample_packet]
    (by rw [List.length_cons, List.length_singleton]; decide)
  have hd := (drain_loop_spec (fun _ => 60) (fun x => x) PACKETS_PER_FRAME sample_engine
    (queue_of [sample_packet, sample_packet]) packet_t.zero hwf).1
  rw [hc, List.take_of_length_le (by rw [List.length_cons, List.length_singleton]; decide),
    List.foldl_cons, List.foldl_cons, List.foldl_nil] at hd
  have hd2 : (drain_loop (fun _ => 60) (fun x => x) PACKETS_PER_FRAME
      (sample_engine, queue_of [sample_packet, sample_packet], packet_t.zero)).1
      = assign_packet_to_stream (fun _ => 60) (fun x => x) sample_active sample_packet := hd
  have htick : ∀ i, i < MAX_STREAMS →
      (stream_at (assign_packet_to_stream (fun _ => 60) (fun x => x) sample_active
        sample_packet) i).state = STREAM_ACTIVE →
      (stream_at sample_pair i).state ≠ STREAM_EMPTY := by
    intro i hi ha
    have hs := (slot_tick (fun _ => 60) (fun x => x) sample_engine
      (queue_of [sample_packet, sample_packet]) packet_t.zero 24 sample_engine_inv i hi).1
    rw [hd2] at hs
    unfold sample_pair
    rw [hs]
    rcases (tick_stream_state (fun x => x) 24 _).2.1 ha with t | t
    · rw [t]; decide
    · rw [t]; decide
  refine ⟨hlt, hlt2, hne, htick _ hlt ?_, htick _ hlt2 ?_⟩
  · rw [assign_keeps (fun _ => 60) (fun x => x) sample_active sample_packet hinv sample_slot
      (by rw [hact]; decide), hact]
  · unfold sample_slot2
    rw [hat2]

theorem columns_spaced_witness :
    engine_reachable (fun _ => 60) (fun x => x) sample_pair ∧
    sample_slot ≠ sample_slot2 ∧
    (stream_at sample_pair sample_slot).state ≠ STREAM_EMPTY ∧
    (stream_at sample_pair sample_slot2).state ≠ STREAM_EMPTY ∧
    (COLUMN_GAP : Int)
      < |(stream_at sample_pair sample_slot).column
          - (stream_at sample_pair sample_slot2).column| ∧
    (stream_at sample_pair sample_slot).column ≠ (stream_at sample_pair sample_slot2).column := by
  obtain ⟨h1, h2, hne, hs1, hs2⟩ := sample_pair_facts
  have hr : engine_reachable (fun _ => 60) (fun x => x) sample_pair :=
    engine_reachable.tick _ _ _ _ (sample_engine_reachable _ _)
  have h := (columns_spaced (fun _ => 60) (fun x => x) sample_pair hr).1 sample_slot
    sample_slot2 h1 h2 hne hs1 hs2
  exact ⟨hr, hne, hs1, hs2, h.1, h.2⟩

/-! ## Binary32 rounding of the position -/

theorem round_half_even_int (f : Int) : round_half_even (f : ℚ) = f := by
  unfold round_half_even
  rw [Int.floor_intCast, sub_self, if_pos (by norm_num)]

theorem round_half_even_up (y : ℚ) (f : Int) (h1 : (f : ℚ) + 1 / 2 < y) (h2 : y < (f : ℚ) + 1) :
    round_half_even y = f + 1 := by
  have hf : ⌊y⌋ = f := Int.floor_eq_iff.2 ⟨by linarith, h2⟩
  unfold round_half_even
  rw [hf, if_neg (by linarith), if_pos (by linarith)]

theorem round_half_even_tie (y : ℚ) (f : Int) (h1 : y = (f : ℚ) + 1 / 2) (h2 : f % 2 = 0) :
    round_half_even y = f := by
  have hf : ⌊y⌋ = f := Int.floor_eq_iff.2 ⟨by linarith, by linarith⟩
  unfold round_half_even
  rw [hf, if_neg (by linarith), if_neg (by linarith), if_pos h2]

/-- The value of `float_round` at a number of the binade `[2 ^ k, 2 ^ (k + 1))`. -/
theorem float_round_eq (x : ℚ) (k n : Int) (hk : -126 ≤ k) (h1 : (2 : ℚ) ^ k ≤ |x|)
    (h2 : |x| < (2 : ℚ) ^ (k + 1)) (hr : round_half_even (x / (2 : ℚ) ^ (k - 23)) = n) :
    float_round x = (n : ℚ) * (2 : ℚ) ^ (k - 23) := by
  have hpos : 0 < |x| := lt_of_lt_of_le (zpow_pos (by norm_num) k) h1
  have hlog : Int.log 2 |x| = k := by
    have a := (Int.zpow_le_iff_le_log (by norm_num : 1 < 2) hpos).1 (by exact_mod_cast h1)
    have b := (Int.lt_zpow_iff_log_lt (by norm_num : 1 < 2) hpos).1 (by exact_mod_cast h2)
    omega
  unfold float_round float_ulp
  rw [hlog, max_eq_left hk, hr]

theorem float_round_two_fifths : float_round (2 / 5) = 13421773 / 33554432 := by
  rw [float_round_eq (2 / 5) (-2) 13421773 (by decide)
    (by rw [abs_of_pos (by norm_num)]; norm_num)
    (by rw [abs_of_pos (by norm_num)]; norm_num)
    (by rw [round_half_even_up _ 13421772 (by norm_num) (by norm_num)]; norm_num)]
  norm_num

theorem float_round_fifth : float_round (1 / 5) = 13421773 / 67108864 := by
  rw [float_round_eq (1 / 5) (-3) 13421773 (by decide)
    (by rw [abs_of_pos (by norm_num)]; norm_num)
    (by rw [abs_of_pos (by norm_num)]; norm_num)
    (by rw [round_half_even_up _ 13421772 (by norm_num) (by norm_num)]; norm_num)]
  norm_num

theorem float_round_speed :
    float_round (13421773 / 33554432 + 13421773 / 67108864) = 5033165 / 8388608 := by
  rw [float_round_eq _ (-1) 10066330 (by decide)
    (by rw [abs_of_pos (by norm_num)]; norm_num)
    (by rw [abs_of_pos (by norm_num)]; norm_num)
    (by rw [round_half_even_up _ 10066329 (by norm_num) (by norm_num)]; norm_num)]
  norm_num

/-- The speed `0.4f + 20 / 100.0f` in binary32. -/
theorem stream_speed_20 : stream_speed float_round 20 = 5033165 / 8388608 := by
  unfold stream_speed
  rw [show (((20 % 150 : Nat) : ℚ) / 100) = 1 / 5 by norm_num, float_round_two_fifths,
    float_round_fifth, float_round_speed]

/-- A number of the binade `[2 ^ k, 2 ^ (k + 1))` that is a multiple of the spacing there is its
own rounding. -/
theorem float_round_exact (x : ℚ) (k n : Int) (hk : -126 ≤ k) (h1 : (2 : ℚ) ^ k ≤ |x|)
    (h2 : |x| < (2 : ℚ) ^ (k + 1)) (hx : x / (2 : ℚ) ^ (k - 23) = (n : ℚ)) :
    float_round x = (n : ℚ) * (2 : ℚ) ^ (k - 23) :=
  float_round_eq x k n hk h1 h2 (by rw [hx, round_half_even_int])

theorem float_round_row1 : float_round (0 + 5033165 / 8388608) = 5033165 / 8388608 := by
  rw [float_round_exact _ (-1) 10066330 (by decide)
    (by rw [abs_of_pos (by norm_num)]; norm_num)
    (by rw [abs_of_pos (by norm_num)]; norm_num) (by norm_num)]
  norm_num

theorem float_round_row2 :
    float_round (5033165 / 8388608 + 5033165 / 8388608) = 5033165 / 4194304 := by
  rw [float_round_exact _ 0 10066330 (by decide)
    (by rw [abs_of_pos (by norm_num)]; norm_num)
    (by rw [abs_of_pos (by norm_num)]; norm_num) (by norm_num)]
  norm_num

theorem float_round_row3 :
    float_round (5033165 / 4194304 + 5033165 / 8388608) = 15099495 / 8388608 := by
  rw [float_round_exact _ 0 15099495 (by decide)
    (by rw [abs_of_pos (by norm_num)]; norm_num)
    (by rw [abs_of_pos (by norm_num)]; norm_num) (by norm_num)]
  norm_num

theorem float_round_row4 :
    float_round (15099495 / 8388608 + 5033165 / 8388608) = 5033165 / 2097152 := by
  rw [float_round_exact _ 1 10066330 (by decide)
    (by rw [abs_of_pos (by norm_num)]; norm_num)
    (by rw [abs_of_pos (by norm_num)]; norm_num) (by norm_num)]
  norm_num

/-- The fifth sum is half-way between two binary32 numbers and is rounded to the even one,
which is 3. -/
theorem float_round_row5 : float_round (5033165 / 2097152 + 5033165 / 8388608) = 3 := by
  rw [float_round_eq _ 1 12582912 (by decide)
    (by rw [abs_of_pos (by norm_num)]; norm_num)
    (by rw [abs_of_pos (by norm_num)]; norm_num)
    (by rw [round_half_even_tie _ 12582912 (by norm_num) (by decide)])]
  norm_num

theorem float_to_int_eq (q : ℚ) (n : Int) (hn : 0 ≤ n) (h0 : (n : ℚ) ≤ q)
    (h1 : q < (n : ℚ) + 1) : float_to_int q = n := by
  rw [float_to_int_floor q (le_trans (by exact_mod_cast hn) h0)]
  exact Int.floor_eq_iff.2 ⟨h0, h1⟩

/-- On the engine right after `init_streams(80)`, a first draw below 80 is the column found. -/
theorem sample_find_const (r : Nat) (hr : r < 80) (zone : Nat) :
    find_free_column (fun _ => r) sample_engine zone
      = ({ sample_engine with rand_calls := sample_engine.rand_calls + 1 }, (r : Int)) := by
  have h1 : ∀ c : Int, 0 ≤ c → c < 80 → column_avail sample_engine c ≠ 0 := by
    intro c hc0 hc
    rw [show sample_engine = reset_state stream_globals.startup 80 0 from rfl,
      column_avail_reset _ _ _ _ hc0 hc]
    decide
  have hw : sample_engine.stream_screen_width = 80 := rfl
  have hmod : ((r : Nat) : Int).tmod 80 = (r : Int) :=
    Int.tmod_eq_of_lt (Int.ofNat_nonneg _) (by omega)
  have := find_first (fun _ => r) sample_engine zone
    (by rw [hw]; decide)
    (by
      rw [hw, hmod, column_is_spaced_iff]
      exact ⟨h1 _ (by omega) (by omega), fun _ => h1 _ (by omega) (by omega),
        fun c => h1 _ (by omega) (by rw [hw] at c; exact c)⟩)
  rw [this, hw, hmod]
  rfl

/-- The stream created from `sample_packet` on the engine right after `init_streams(80)`, with
every draw equal to 20 and binary32 arithmetic. -/
theorem rounding_created :
    (stream_at (assign_packet_to_stream (fun _ => 20) float_round sample_engine sample_packet)
      sample_slot).state = STREAM_ACTIVE ∧
    (stream_at (assign_packet_to_stream (fun _ => 20) float_round sample_engine sample_packet)
      sample_slot).row = 0 ∧
    (stream_at (assign_packet_to_stream (fun _ => 20) float_round sample_engine sample_packet)
      sample_slot).speed = 5033165 / 8388608 ∧
    (stream_at (assign_packet_to_stream (fun _ => 20) float_round sample_engine sample_packet)
      sample_slot).frames_alive = 0 ∧
    (stream_at (assign_packet_to_stream (fun _ => 20) float_round sample_engine sample_packet)
      sample_slot).text_len = 40 ∧
    (stream_at (assign_packet_to_stream (fun _ => 20) float_round sample_engine sample_packet)
      sample_slot).fade_at_frame = 50 := by
  have hinv := sample_engine_inv
  have h0 : sample_engine.free_slot_count ≠ 0 := by
    rw [show sample_engine.free_slot_count = MAX_STREAMS from rfl]; decide
  have hneg : ¬ (find_free_column (fun _ => 20) sample_engine sample_packet.column_zone).2 < 0 := by
    rw [sample_find_const 20 (by decide)]; decide
  obtain ⟨_, _, hat⟩ := assign_at (fun _ => 20) float_round sample_engine sample_packet
    hinv h0 hneg
  unfold sample_slot
  rw [hat]
  exact ⟨rfl, rfl, stream_speed_20, rfl, rfl, rfl⟩

/-- The slot of the first stream after the tick that creates it. -/
theorem first_tick_slot (rand : Nat → Nat) (fl : ℚ → ℚ) (pkt : packet_t) (h : Int) :
    stream_at (update_streams rand fl sample_engine (queue_of [pkt]) packet_t.zero h).1
        sample_slot
      = tick_stream fl h
          (stream_at (assign_packet_to_stream rand fl sample_engine pkt) sample_slot) := by
  obtain ⟨hwf, hc⟩ := queue_of_contents [pkt] (by rw [List.length_singleton]; decide)
  have hd := (drain_loop_spec rand fl PACKETS_PER_FRAME sample_engine (queue_of [pkt])
    packet_t.zero hwf).1
  rw [hc, List.take_of_length_le (by rw [List.length_singleton]; decide), List.foldl_cons,
    List.foldl_nil] at hd
  have hs := (slot_tick rand fl sample_engine (queue_of [pkt]) packet_t.zero h
    sample_engine_inv sample_slot sample_active_facts.2.1).1
  rw [hd] at hs
  exact hs

/-- The first stream through the tick that creates it and the ticks that follow, as long as
neither fading condition holds: it is advanced once per tick. -/
theorem created_run (rand : Nat → Nat) (fl : ℚ → ℚ) (pkt : packet_t) (h0 : Int)
    (xs : List (ring_buffer_t × packet_t × Int))
    (ha : (stream_at (assign_packet_to_stream rand fl sample_engine pkt) sample_slot).state
      = STREAM_ACTIVE)
    (hc : ∀ j, j < xs.length + 1 →
      float_to_int ((stream_advance fl)^[j + 1]
          (stream_at (assign_packet_to_stream rand fl sample_engine pkt) sample_slot)).row
        - ((stream_advance fl)^[j + 1]
          (stream_at (assign_packet_to_stream rand fl sample_engine pkt) sample_slot)).chars_shown
        ≤ (h0 :: xs.map (fun x => x.2.2)).getD j 0 ∧
      (stream_at (assign_packet_to_stream rand fl sample_engine pkt) sample_slot).frames_alive
        + ((j : Int) + 1)
        < (stream_at (assign_packet_to_stream rand fl sample_engine pkt)
            sample_slot).fade_at_frame) :
    stream_at (run_ticks rand fl sample_engine ((queue_of [pkt], packet_t.zero, h0) :: xs))
        sample_slot
      = (stream_advance fl)^[xs.length + 1]
          (stream_at (assign_packet_to_stream rand fl sample_engine pkt) sample_slot) := by
  have hst : ∀ n, n ≤ xs.length + 1 →
      stream_ticks fl (stream_at (assign_packet_to_stream rand fl sample_engine pkt) sample_slot)
        ((h0 :: xs.map (fun x => x.2.2)).take n)
      = (stream_advance fl)^[n]
          (stream_at (assign_packet_to_stream rand fl sample_engine pkt) sample_slot) := by
    intro n hn
    exact ticks_advance fl _ (h0 :: xs.map (fun x => x.2.2)) ha n
      (by rw [List.length_cons, List.length_map]; exact hn) (fun j hj => hc j (by omega))
  have hinv1 := inv_update_streams rand fl sample_engine (queue_of [pkt]) packet_t.zero h0
    sample_engine_inv
  rw [run_ticks_cons]
  simp only
  rw [run_ticks_slot rand fl sample_slot sample_active_facts.2.1 xs _ hinv1, first_tick_slot,
    ← stream_ticks_cons]
  · have := hst (xs.length + 1) (le_refl _)
    rw [List.take_of_length_le (by rw [List.length_cons, List.length_map])] at this
    exact this
  · intro m hm
    rw [first_tick_slot, ← stream_ticks_cons, ← List.take_succ_cons, hst (m + 1) (by omega),
      (iterate_advance_fields fl _ (m + 1)).1, ha]
    decide

/-- One advance of a stream with the speed and text length of the stream of
`rounding_engine`. -/
theorem rounding_step (t : stream_t) (r r1 : ℚ) (c : Int)
    (hsp : t.speed = 5033165 / 8388608) (htl : t.text_len = 40) (hr : t.row = r)
    (hfl : float_round (r + 5033165 / 8388608) = r1) (hc : float_to_int r1 = c) :
    (stream_advance float_round t).row = r1 ∧
    (stream_advance float_round t).chars_shown = min c 40 := by
  obtain ⟨f1, _, f3, _⟩ := stream_advance_fields float_round t
  rw [f1, f3, hr, hsp, hfl, hc, htl, show min (40 : Int) MAX_STREAM_LENGTH = 40 from by decide]
  exact ⟨rfl, rfl⟩

/-- The positions and visible counts of the stream of `rounding_engine` after its first five
advances. -/
theorem rounding_rows (s : stream_t) (hrow : s.row = 0) (hsp : s.speed = 5033165 / 8388608)
    (htl : s.text_len = 40) :
    (((stream_advance float_round)^[1] s).row = 5033165 / 8388608 ∧
      ((stream_advance float_round)^[1] s).chars_shown = 0) ∧
    (((stream_advance float_round)^[2] s).row = 5033165 / 4194304 ∧
      ((stream_advance float_round)^[2] s).chars_shown = 1) ∧
    (((stream_advance float_round)^[3] s).row = 15099495 / 8388608 ∧
      ((stream_advance float_round)^[3] s).chars_shown = 1) ∧
    (((stream_advance float_round)^[4] s).row = 5033165 / 2097152 ∧
      ((stream_advance float_round)^[4] s).chars_shown = 2) ∧
    (((stream_advance float_round)^[5] s).row = 3 ∧
      ((stream_advance float_round)^[5] s).chars_shown = 3) := by
  have hk : ∀ m, ((stream_advance float_round)^[m] s).speed = 5033165 / 8388608 ∧
      ((stream_advance float_round)^[m] s).text_len = 40 := by
    intro m
    obtain ⟨_, _, _, i4, i5⟩ := iterate_advance_fields float_round s m
    exact ⟨by rw [i4, hsp], by rw [i5, htl]⟩
  have s1 := rounding_step ((stream_advance float_round)^[0] s) 0 _ 0 (hk 0).1 (hk 0).2 hrow
    float_round_row1 (float_to_int_eq _ 0 (by decide) (by norm_num) (by norm_num))
  rw [← Function.iterate_succ_apply' (stream_advance float_round) 0] at s1
  have s2 := rounding_step _ _ _ 1 (hk 1).1 (hk 1).2 s1.1
    float_round_row2 (float_to_int_eq _ 1 (by decide) (by norm_num) (by norm_num))
  rw [← Function.iterate_succ_apply' (stream_advance float_round) 1] at s2
  have s3 := rounding_step _ _ _ 1 (hk 2).1 (hk 2).2 s2.1
    float_round_row3 (float_to_int_eq _ 1 (by decide) (by norm_num) (by norm_num))
  rw [← Function.iterate_succ_apply' (stream_advance float_round) 2] at s3
  have s4 := rounding_step _ _ _ 2 (hk 3).1 (hk 3).2 s3.1
    float_round_row4 (float_to_int_eq _ 2 (by decide) (by norm_num) (by norm_num))
  rw [← Function.iterate_succ_apply' (stream_advance float_round) 3] at s4
  have s5 := rounding_step _ _ _ 3 (hk 4).1 (hk 4).2 s4.1
    float_round_row5 (float_to_int_eq _ 3 (by decide) (by norm_num) (by norm_num))
  rw [← Function.iterate_succ_apply' (stream_advance float_round) 4] at s5
  exact ⟨⟨s1.1, s1.2⟩, ⟨s2.1, s2.2⟩, ⟨s3.1, s3.2⟩, ⟨s4.1, s4.2⟩, ⟨s5.1, s5.2⟩⟩

theorem rounding_engine_slot :
    stream_at rounding_engine sample_slot
      = (stream_advance float_round)^[4]
          (stream_at (assign_packet_to_stream (fun _ => 20) float_round sample_engine
            sample_packet) sample_slot) := by
  obtain ⟨hact, hrow, hsp, hfa, htl, hfade⟩ := rounding_created
  obtain ⟨r1, r2, r3, r4, _⟩ := rounding_rows _ hrow hsp htl
  have h := created_run (fun _ => 20) float_round sample_packet 24
    (List.replicate 3 sample_tick) hact (by
      intro j hj
      rw [List.length_replicate] at hj
      rw [hfa, hfade]
      have hh : (24 :: (List.replicate 3 sample_tick).map (fun x => x.2.2)).getD j 0 = 24 := by
        interval_cases j <;> rfl
      rw [hh]
      interval_cases j
      · rw [r1.1, r1.2, float_to_int_eq _ 0 (by decide) (by norm_num) (by norm_num)]
        decide
      · rw [r2.1, r2.2, float_to_int_eq _ 1 (by decide) (by norm_num) (by norm_num)]
        decide
      · rw [r3.1, r3.2, float_to_int_eq _ 1 (by decide) (by norm_num) (by norm_num)]
        decide
      · rw [r4.1, r4.2, float_to_int_eq _ 2 (by decide) (by norm_num) (by norm_num)]
        decide)
  rw [List.length_replicate] at h
  unfold rounding_engine
  exact h

/-- C15 (as stated, refuted): in a reachable engine state, with binary32 arithmetic, a stream
of speed `0.4f + 0.2f` that has advanced four times is Active before and after its fifth tick;
the exact sum of its position and its speed is `25165825 / 8388608`, and the position stored
by the tick is 3. -/
theorem float_sum_rounds :
    engine_reachable (fun _ => 20) float_round rounding_engine ∧
    (stream_at rounding_engine sample_slot).state = STREAM_ACTIVE ∧
    (stream_at (update_streams (fun _ => 20) float_round rounding_engine
      (ring_buffer_init RING_BUFFER_SIZE) packet_t.zero 24).1 sample_slot).state
      = STREAM_ACTIVE ∧
    (stream_at rounding_engine sample_slot).row + (stream_at rounding_engine sample_slot).speed
      = 25165825 / 8388608 ∧
    (stream_at (update_streams (fun _ => 20) float_round rounding_engine
      (ring_buffer_init RING_BUFFER_SIZE) packet_t.zero 24).1 sample_slot).row = 3 ∧
    ¬ ((stream_at (update_streams (fun _ => 20) float_round rounding_engine
        (ring_buffer_init RING_BUFFER_SIZE) packet_t.zero 24).1 sample_slot).row
      = (stream_at rounding_engine sample_slot).row
        + (stream_at rounding_engine sample_slot).speed) := by
  obtain ⟨hact, hrow, hsp, hfa, htl, hfade⟩ := rounding_created
  obtain ⟨_, _, _, r4, r5⟩ := rounding_rows _ hrow hsp htl
  obtain ⟨i1, i2, i3, i4, _⟩ := iterate_advance_fields float_round
    (stream_at (assign_packet_to_stream (fun _ => 20) float_round sample_engine sample_packet)
      sample_slot) 4
  obtain ⟨_, j2, j3, _⟩ := iterate_advance_fields float_round
    (stream_at (assign_packet_to_stream (fun _ => 20) float_round sample_engine sample_packet)
      sample_slot) 5
  have hr : engine_reachable (fun _ => 20) float_round rounding_engine := by
    unfold rounding_engine
    exact reachable_run_ticks _ _ _ _ (sample_engine_reachable _ _)
  have hat := rounding_engine_slot
  have ha : (stream_at rounding_engine sample_slot).state = STREAM_ACTIVE := by
    rw [hat, i1, hact]
  have hs := (slot_tick (fun _ => 20) float_round rounding_engine
    (ring_buffer_init RING_BUFFER_SIZE) packet_t.zero 24 (inv_reachable _ _ _ hr) sample_slot
    sample_active_facts.2.1).2 (by rw [ha]; decide)
  have htick : tick_stream float_round 24 (stream_at rounding_engine sample_slot)
      = (stream_advance float_round)^[5]
          (stream_at (assign_packet_to_stream (fun _ => 20) float_round sample_engine
            sample_packet) sample_slot) := by
    rw [tick_active float_round 24 _ ha, hat,
      ← Function.iterate_succ_apply' (stream_advance float_round) 4, if_neg]
    rw [r5.1, r5.2, j2, j3, hfa, hfade,
      float_to_int_eq 3 3 (by decide) (by norm_num) (by norm_num)]
    decide
  have hsum : (stream_at rounding_engine sample_slot).row
      + (stream_at rounding_engine sample_slot).speed = 25165825 / 8388608 := by
    rw [hat, r4.1, i4, hsp]
    norm_num
  have hrow5 : (stream_at (update_streams (fun _ => 20) float_round rounding_engine
      (ring_buffer_init RING_BUFFER_SIZE) packet_t.zero 24).1 sample_slot).row = 3 := by
    rw [hs, htick, r5.1]
  refine ⟨hr, ha, ?_, hsum, hrow5, ?_⟩
  · rw [hs, htick, (iterate_advance_fields float_round _ 5).1, hact]
  · rw [hrow5, hsum]
    norm_num

end MatrixPackets
